import Mathlib

/-!
# ChatPartner: session orchestration engine

A shallow embedding of `backend/internal/telegram` (`client_v2.go`, `retry.go`,
`auth_helper.go`, `manager.go`, `group_sync.go`) together with the properties of its
message buffer, push sink and poller, retry policy, authentication handshake,
eligibility gates, split-send logic, send path and registry of sessions.

Conventions of the embedding

* A Go `map[K]V` is an association list with distinct keys (`GoMap`); a `for range`
  loop over a map is a fold over its entries, in whatever order they are stored.
* `time.Time` and `time.Duration` are integers counting nanoseconds.
* A Go `int` / `int64` is an `Int`; lengths are `Nat`.
* Calls into collaborators (the store, the transport, the generation service, the
  clock, the random source) take their outcome from an explicit argument and are
  recorded in an explicit log.
-/

namespace ChatPartner

/-! ## Go maps -/

/-- A Go `map[K]V`: finitely many entries with pairwise distinct keys. -/
abbrev GoMap (K V : Type) := AList (fun _ : K => V)

/-- The two-valued lookup `v, ok := m[k]`: `none` when the key is absent. -/
def GoMap.get? {K V : Type} [DecidableEq K] (m : GoMap K V) (k : K) : Option V :=
  AList.lookup k m

/-- The assignment `m[k] = v`. -/
def GoMap.set {K V : Type} [DecidableEq K] (m : GoMap K V) (k : K) (v : V) : GoMap K V :=
  AList.insert k v m

/-- The statement `delete(m, k)`. -/
def GoMap.delete {K V : Type} [DecidableEq K] (m : GoMap K V) (k : K) : GoMap K V :=
  AList.erase k m

/-- The one-valued lookup `m[k]` of a map of slices: the nil slice (no elements)
when the key is absent. -/
def GoMap.getSlice {K V : Type} [DecidableEq K] (m : GoMap K (List V)) (k : K) : List V :=
  (m.get? k).getD []

/-! ## Data model (`models/account.go`, `client_v2.go`) -/

/-- The behaviour knobs of `models.Account` read by the session. -/
structure Account where
  ID : Nat
  PhoneNumber : String
  Status : String
  Priority : Int
  AIApiKey : String
  AIModel : String
  SystemPrompt : String
  ReplyInterval : Int
  Tone : String
  Enabled : Bool
  ListenInterval : Int
  BufferSize : Int
  AutoReply : Bool
  ReplyProbability : Int
  MultiMsgInterval : Int
  SplitByNewline : Bool
  deriving DecidableEq, Repr

/-- The struct `BufferedMessage` of `client_v2.go`. -/
structure BufferedMessage where
  Content : String
  Timestamp : Int
  deriving DecidableEq, Repr

/-- The field `messageBuffer map[int64][]BufferedMessage`. -/
abbrev MessageBuffer := GoMap Int (List BufferedMessage)

/-! ## MessageBuffer: append and drain -/

/-- The locked block of `bufferMessage` (client_v2.go, lines 252-272): create the
slice when the entry is nil, append the message, keep the last `bufferSize`
entries (`bufferSize` is 10 when the configured value is not positive). -/
def bufferAppend (account : Account) (messageBuffer : MessageBuffer) (chatID : Int)
    (messageText : String) (now : Int) : MessageBuffer :=
  let b1 := if messageBuffer.get? chatID = none then messageBuffer.set chatID [] else messageBuffer
  let b2 := b1.set chatID (b1.getSlice chatID ++ [{ Content := messageText, Timestamp := now }])
  let bufferSize : Int := if account.BufferSize ≤ 0 then 10 else account.BufferSize
  if ((b2.getSlice chatID).length : Int) > bufferSize then
    b2.set chatID
      ((b2.getSlice chatID).drop (((b2.getSlice chatID).length : Int) - bufferSize).toNat)
  else b2

/-- The locked block of `pollAssignedGroups` (client_v2.go, lines 373-390), executed
for every fetched message that survives the poller's filters. -/
def pollAppend (account : Account) (messageBuffer : MessageBuffer) (chatID : Int)
    (text : String) (now : Int) : MessageBuffer :=
  let b1 := if messageBuffer.get? chatID = none then messageBuffer.set chatID [] else messageBuffer
  let b2 := b1.set chatID (b1.getSlice chatID ++ [{ Content := text, Timestamp := now }])
  let bufferSize : Int := if account.BufferSize ≤ 0 then 10 else account.BufferSize
  if ((b2.getSlice chatID).length : Int) > bufferSize then
    b2.set chatID
      ((b2.getSlice chatID).drop (((b2.getSlice chatID).length : Int) - bufferSize).toNat)
  else b2

/-- The ingestion path an accepted inbound message arrives through. -/
inductive Source where
  | pushSink
  | poller
  deriving DecidableEq, Repr

/-- An accepted inbound message: its path, its text and the clock reading taken when
it is buffered. -/
structure Inbound where
  via : Source
  text : String
  now : Int
  deriving DecidableEq, Repr

/-- Buffer one accepted inbound message of conversation `chatID`. -/
def ingest (account : Account) (chatID : Int) (messageBuffer : MessageBuffer)
    (e : Inbound) : MessageBuffer :=
  match e.via with
  | Source.pushSink => bufferAppend account messageBuffer chatID e.text e.now
  | Source.poller => pollAppend account messageBuffer chatID e.text e.now

/-- The loop body of the drain step (client_v2.go, lines 453-456) for the map entry
`chatID, messages`; `acc` is `(buffersToProcess, messageBuffer)`. -/
def drainStep (acc : MessageBuffer × MessageBuffer)
    (e : Sigma (fun _ : Int => List BufferedMessage)) : MessageBuffer × MessageBuffer :=
  if e.2.length > 0 then (acc.1.set e.1 e.2, acc.2.set e.1 []) else acc

/-- The drain step of `processBufferedMessages` (client_v2.go, lines 449-458): range
over the buffer; every conversation with at least one message is copied to
`buffersToProcess` and its slot is replaced by a fresh empty slice. Returns
`(buffersToProcess, messageBuffer)`. -/
def drainBuffers (messageBuffer : MessageBuffer) : MessageBuffer × MessageBuffer :=
  messageBuffer.entries.foldl drainStep ((∅ : MessageBuffer), messageBuffer)

/-- The last `n` elements of a list, as the slice expression `l[len(l)-n:]` computes
them when `len(l) > n`. -/
def keepLast {α : Type} (n : Nat) (l : List α) : List α := l.drop (l.length - n)

/-- The buffered entry an accepted inbound message becomes. -/
def Inbound.toBuffered (e : Inbound) : BufferedMessage :=
  { Content := e.text, Timestamp := e.now }

/-- The buffer size in force: the configured value, or 10 when that is not positive. -/
def effectiveBufferSize (account : Account) : Int :=
  if account.BufferSize ≤ 0 then 10 else account.BufferSize

/-- Keep a looked-up sequence when it is non-empty, otherwise fall back to `d`. -/
def pickNonEmpty {α : Type} (o d : Option (List α)) : Option (List α) :=
  match o with
  | some (x :: xs) => some (x :: xs)
  | _ => d

/-- Replace a looked-up non-empty sequence by the empty one, otherwise fall back to `d`. -/
def clearNonEmpty {α : Type} (o d : Option (List α)) : Option (List α) :=
  match o with
  | some (_ :: _) => some []
  | _ => d

/-- An account with a buffer of two messages, used in the worked examples. -/
def exampleAccount : Account :=
  { ID := 1, PhoneNumber := "+10000000000", Status := "online", Priority := 5,
    AIApiKey := "key", AIModel := "gpt-4o-mini", SystemPrompt := "", ReplyInterval := 60,
    Tone := "", Enabled := true, ListenInterval := 5, BufferSize := 2, AutoReply := true,
    ReplyProbability := 100, MultiMsgInterval := 5, SplitByNewline := true }

/-- Three accepted inbound messages, the second one found by the poller. -/
def exampleInbound : List Inbound :=
  [{ via := Source.pushSink, text := "a", now := 1 },
   { via := Source.poller, text := "b", now := 2 },
   { via := Source.pushSink, text := "c", now := 3 }]

/-! ## RetryPolicy (`retry.go`) -/

/-- A `float64` factor, idealised as the exact fraction `num / den` (`den > 0`);
the rounding of floating-point arithmetic is not modelled. -/
structure Factor where
  num : Int
  den : Nat
  deriving DecidableEq, Repr

/-- The conversion `int(float64(x) * f)`: the exact product, truncated toward zero. -/
def Factor.scale (f : Factor) (x : Int) : Int := Int.tdiv (x * f.num) f.den

/-- The struct `RetryConfig`. -/
structure RetryConfig where
  MaxRetries : Int
  InitialDelay : Int
  MaxDelay : Int
  Multiplier : Factor
  deriving DecidableEq, Repr

/-- The function `DefaultRetryConfig`: 3 attempts, 1s, cap 10s, multiplier 2.0. -/
def DefaultRetryConfig : RetryConfig :=
  { MaxRetries := 3, InitialDelay := 1 * 1000000000, MaxDelay := 10 * 1000000000,
    Multiplier := { num := 2, den := 1 } }

/-- The non-nil errors `Retry` returns: `ctx.Err()`, or the error built by
`fmt.Errorf("重试 %d 次后仍然失败: %w", config.MaxRetries, lastErr)`, which wraps
`lastErr` (nil when no attempt was made). -/
inductive RetryError (ε : Type) where
  | cancelled (ctxErr : ε)
  | exhausted (maxRetries : Int) (lastErr : Option ε)
  deriving DecidableEq, Repr

/-- What a run of `Retry` leaves behind: the returned error (`none` is nil), the state
the invocations of `fn` left, the number of invocations of `fn`, and the delays of the
waits that were started, in order. -/
structure RetryOutcome (σ ε : Type) where
  result : Option (RetryError ε)
  state : σ
  calls : Nat
  waits : List Int

/-- The `for` loop of `Retry` (retry.go, lines 33-54), started at counter `i` with the
current `delay` and `lastErr`. `fn` is the operation, acting on the state `σ` its side
effects live in and returning its error (`none` is nil). `ctx w` tells how the `w`-th
`select` (counted from 0) ends: `some e` when `ctx.Done()` fires first and `ctx.Err()`
is `e`, `none` when the timer fires first. The first argument bounds the number of
iterations; `none` is returned only when it is used up. -/
def retryLoop {σ ε : Type} (fn : σ → Option ε × σ) (ctx : Nat → Option ε)
    (config : RetryConfig) :
    Nat → Nat → Int → Option ε → σ → Nat → List Int → Option (RetryOutcome σ ε)
  | 0, _, _, _, _, _, _ => none
  | fuel + 1, i, delay, lastErr, s, calls, waits =>
    if (i : Int) < config.MaxRetries then
      match fn s with
      | (none, s1) => some { result := none, state := s1, calls := calls + 1, waits := waits }
      | (some err, s1) =>
        if (i : Int) < config.MaxRetries - 1 then
          match ctx waits.length with
          | some ctxErr =>
            some { result := some (RetryError.cancelled ctxErr), state := s1,
                   calls := calls + 1, waits := waits ++ [delay] }
          | none =>
            let scaled := config.Multiplier.scale delay
            let delay1 := if scaled > config.MaxDelay then config.MaxDelay else scaled
            retryLoop fn ctx config fuel (i + 1) delay1 (some err) s1 (calls + 1)
              (waits ++ [delay])
        else
          retryLoop fn ctx config fuel (i + 1) delay (some err) s1 (calls + 1) waits
    else
      some { result := some (RetryError.exhausted config.MaxRetries lastErr), state := s,
             calls := calls, waits := waits }

/-- The function `Retry` (retry.go, lines 29-57). The loop runs at most `MaxRetries`
iterations and then falls through to the final `return`, so `MaxRetries + 1` steps
are always enough. -/
def Retry {σ ε : Type} (ctx : Nat → Option ε) (fn : σ → Option ε × σ) (config : RetryConfig)
    (s : σ) : Option (RetryOutcome σ ε) :=
  retryLoop fn ctx config (config.MaxRetries.toNat + 1) 0 config.InitialDelay none s 0 []

/-- The function `RetryWithBackoff`. -/
def RetryWithBackoff {σ ε : Type} (ctx : Nat → Option ε) (fn : σ → Option ε × σ) (s : σ) :
    Option (RetryOutcome σ ε) :=
  Retry ctx fn DefaultRetryConfig s

/-- A context that is never cancelled. -/
def neverCancelled {ε : Type} : Nat → Option ε := fun _ => none

/-- The state after `j` invocations of `fn`, starting from `s`. -/
def stateAfter {σ ε : Type} (fn : σ → Option ε × σ) (s : σ) : Nat → σ
  | 0 => s
  | j + 1 => stateAfter fn (fn s).2 j

/-- The error returned by invocation number `j + 1` of `fn`, starting from `s`. -/
def resultAt {σ ε : Type} (fn : σ → Option ε × σ) (s : σ) (j : Nat) : Option ε :=
  (fn (stateAfter fn s j)).1

/-- An operation that counts its invocations and fails (with the invocation number as
its error) until it has been invoked `k` times, then succeeds. -/
def failFirst (k : Nat) (count : Nat) : Option Nat × Nat :=
  if count < k then (some (count + 1), count + 1) else (none, count + 1)

/-- An operation that counts its invocations and always fails, with the invocation
number as its error. -/
def alwaysFail (count : Nat) : Option Nat × Nat := (some (count + 1), count + 1)

/-! ## AuthHandshake (`auth_helper.go`, `models/auth_session.go`)

The handshake runs in two goroutines that meet on the channels `codeChan` and
`passwordChan`. It is embedded as a state machine whose steps are the calls and the
resumptions of `SubmitCode`, `SubmitPassword`, `Code` and `Password`; a goroutine that
blocks in a `select` is parked in the state until another step resumes it. Every value
a call returns is appended to `returns`. The store is taken to carry out every
operation (the code ignores the errors of `Delete`, `Create` and `Save`). -/

/-- The record `models.AuthSession`. -/
structure AuthSession where
  ID : Nat
  AccountID : Nat
  PhoneNumber : String
  State : String
  CodeHash : String
  Password : String
  ExpiresAt : Int
  CreatedAt : Int
  deriving DecidableEq, Repr

/-- The errors of the handshake: the two `fmt.Errorf` of the submitting side
("提交验证码超时", "提交密码超时"), the two of the waiting side ("等待验证码超时",
"等待密码超时"), and `ctx.Err()`. -/
inductive AuthError where
  | submitCodeTimeout
  | submitPasswordTimeout
  | waitCodeTimeout
  | waitPasswordTimeout
  | ctxErr (e : String)
  deriving DecidableEq, Repr

/-- A value returned by one of the four calls (`none` is a nil error). -/
inductive AuthReturn where
  | SubmitCode (err : Option AuthError)
  | SubmitPassword (err : Option AuthError)
  | Code (code : String) (err : Option AuthError)
  | Password (password : String) (err : Option AuthError)
  deriving DecidableEq, Repr

/-- The capacity of `codeChan` and `passwordChan`: both are `make(chan string, 1)`. -/
def chanCapacity : Nat := 1

/-- Five minutes and five seconds, in nanoseconds. -/
def fiveMinutes : Int := 5 * 60 * 1000000000

/-- An `AuthHelper` with the `InteractiveAuth` built from it, the `auth_sessions` table
and the parked goroutines. `codeChan` and `passwordChan` hold the values queued in the
channels; `codeSenders` / `passwordSenders` are the values of the `SubmitCode` /
`SubmitPassword` calls blocked in their `select`; `codeWaiter` is the local
`authSession` of a `Code` call blocked in its `select`; `passwordWaiter` tells whether
a `Password` call is blocked in its `select`. -/
structure AuthState where
  accountID : Nat
  phone : String
  codeChan : List String
  passwordChan : List String
  codeSenders : List String
  passwordSenders : List String
  codeWaiter : Option AuthSession
  passwordWaiter : Bool
  db : List AuthSession
  nextID : Nat
  returns : List AuthReturn
  deriving DecidableEq, Repr

/-- The function `NewAuthHelper`: two fresh channels of capacity one, nothing queued,
nobody waiting. `db` and `nextID` are the `auth_sessions` table the helper is given. -/
def NewAuthHelper (account : Account) (db : List AuthSession) (nextID : Nat) : AuthState :=
  { accountID := account.ID, phone := account.PhoneNumber, codeChan := [], passwordChan := [],
    codeSenders := [], passwordSenders := [], codeWaiter := none, passwordWaiter := false,
    db := db, nextID := nextID, returns := [] }

/-- The call `db.Save(&authSession)`: update the row with that primary key, insert the
row when there is none. -/
def dbSave (db : List AuthSession) (row : AuthSession) : List AuthSession :=
  if db.any (fun r => r.ID = row.ID) then db.map (fun r => if r.ID = row.ID then row else r)
  else db ++ [row]

/-- The query `db.Where("account_id = ?", id).Order("created_at DESC").First(..)`: the
row of the account created last (the one with the smallest key among equals). -/
def dbLatest (db : List AuthSession) (accountID : Nat) : Option AuthSession :=
  (db.filter (fun r => r.AccountID = accountID)).foldl
    (fun best r =>
      match best with
      | none => some r
      | some b =>
        if b.CreatedAt < r.CreatedAt ∨ (b.CreatedAt = r.CreatedAt ∧ r.ID < b.ID) then some r
        else some b)
    none

/-- The branch `case code := <-a.codeChan` of `Code` (auth_helper.go, lines 145-149):
mark the session completed, save it, return the code. -/
def codeReceived (st : AuthState) (authSession : AuthSession) (code : String) : AuthState :=
  { st with
    db := dbSave st.db { authSession with State := "completed" },
    returns := st.returns ++ [AuthReturn.Code code none] }

/-- The method `SubmitCode` (auth_helper.go, lines 66-73), up to the point where its
`select` either completes the send or blocks. The send completes at once when a `Code`
call is blocked receiving (the code is handed to it and `Code` resumes) or when the
channel has a free slot (the code is queued); otherwise the call is parked. -/
def SubmitCode (st : AuthState) (code : String) : AuthState :=
  match st.codeWaiter with
  | some authSession =>
    let st1 := { st with codeWaiter := none,
                         returns := st.returns ++ [AuthReturn.SubmitCode none] }
    codeReceived st1 authSession code
  | none =>
    if st.codeChan.length < chanCapacity then
      { st with codeChan := st.codeChan ++ [code],
                returns := st.returns ++ [AuthReturn.SubmitCode none] }
    else
      { st with codeSenders := st.codeSenders ++ [code] }

/-- The branch `case <-time.After(5 * time.Second)` of a parked `SubmitCode`: the
oldest parked call gives up and returns the submission-timeout error. -/
def SubmitCodeTimeout (st : AuthState) : AuthState :=
  match st.codeSenders with
  | [] => st
  | _ :: rest =>
    { st with codeSenders := rest,
              returns := st.returns ++ [AuthReturn.SubmitCode (some AuthError.submitCodeTimeout)] }

/-- The local `authSession` of `Code` (auth_helper.go, lines 126-132), with the primary
key and the creation time that `db.Create` fills in. -/
def waitingCodeSession (st : AuthState) (now : Int) : AuthSession :=
  { ID := st.nextID, AccountID := st.accountID, PhoneNumber := st.phone,
    State := "waiting_code", CodeHash := "", Password := "",
    ExpiresAt := now + fiveMinutes, CreatedAt := now }

/-- The method `InteractiveAuth.Code` (auth_helper.go, lines 124-154), called at clock
reading `now`, up to the point where its `select` either receives or blocks: delete the
account's old sessions, create the `waiting_code` session expiring in five minutes,
then receive a queued code at once (letting the oldest parked `SubmitCode` complete its
send into the freed slot) or park. -/
def Code (st : AuthState) (now : Int) : AuthState :=
  let authSession : AuthSession := waitingCodeSession st now
  let db1 := st.db.filter (fun r => r.AccountID ≠ st.accountID)
  let st1 := { st with db := db1 ++ [authSession], nextID := st.nextID + 1 }
  match st1.codeChan with
  | code :: queued =>
    match st1.codeSenders with
    | [] => codeReceived { st1 with codeChan := queued } authSession code
    | sent :: parked =>
      codeReceived
        { st1 with codeChan := queued ++ [sent], codeSenders := parked,
                   returns := st1.returns ++ [AuthReturn.SubmitCode none] }
        authSession code
  | [] => { st1 with codeWaiter := some authSession }

/-- The branch `case <-ctx.Done()` of a parked `Code`. -/
def CodeCancelled (st : AuthState) (ctxErr : String) : AuthState :=
  match st.codeWaiter with
  | none => st
  | some _ =>
    { st with codeWaiter := none,
              returns := st.returns ++ [AuthReturn.Code "" (some (AuthError.ctxErr ctxErr))] }

/-- The branch `case <-time.After(5 * time.Minute)` of a parked `Code`. -/
def CodeTimeout (st : AuthState) : AuthState :=
  match st.codeWaiter with
  | none => st
  | some _ =>
    { st with codeWaiter := none,
              returns := st.returns ++ [AuthReturn.Code "" (some AuthError.waitCodeTimeout)] }

/-- The method `SubmitPassword` (auth_helper.go, lines 76-83), up to the point where
its `select` either completes the send or blocks. -/
def SubmitPassword (st : AuthState) (password : String) : AuthState :=
  if st.passwordWaiter then
    { st with passwordWaiter := false,
              returns := st.returns ++
                [AuthReturn.SubmitPassword none, AuthReturn.Password password none] }
  else if st.passwordChan.length < chanCapacity then
    { st with passwordChan := st.passwordChan ++ [password],
              returns := st.returns ++ [AuthReturn.SubmitPassword none] }
  else
    { st with passwordSenders := st.passwordSenders ++ [password] }

/-- The branch `case <-time.After(5 * time.Second)` of a parked `SubmitPassword`. -/
def SubmitPasswordTimeout (st : AuthState) : AuthState :=
  match st.passwordSenders with
  | [] => st
  | _ :: rest =>
    { st with passwordSenders := rest,
              returns := st.returns ++
                [AuthReturn.SubmitPassword (some AuthError.submitPasswordTimeout)] }

/-- The method `InteractiveAuth.Password` (auth_helper.go, lines 100-122), called at
clock reading `now`, up to the point where its `select` either receives or blocks:
move the account's latest session to `waiting_password` with a fresh five-minute
expiry, then receive a queued password at once or park. -/
def Password (st : AuthState) (now : Int) : AuthState :=
  let db1 :=
    match dbLatest st.db st.accountID with
    | some authSession =>
      dbSave st.db { authSession with State := "waiting_password",
                                      ExpiresAt := now + fiveMinutes }
    | none => st.db
  let st1 := { st with db := db1 }
  match st1.passwordChan with
  | password :: queued =>
    match st1.passwordSenders with
    | [] =>
      { st1 with passwordChan := queued,
                 returns := st1.returns ++ [AuthReturn.Password password none] }
    | sent :: parked =>
      { st1 with passwordChan := queued ++ [sent], passwordSenders := parked,
                 returns := st1.returns ++
                   [AuthReturn.SubmitPassword none, AuthReturn.Password password none] }
  | [] => { st1 with passwordWaiter := true }

/-- The branch `case <-ctx.Done()` of a parked `Password`. -/
def PasswordCancelled (st : AuthState) (ctxErr : String) : AuthState :=
  if st.passwordWaiter then
    { st with passwordWaiter := false,
              returns := st.returns ++ [AuthReturn.Password "" (some (AuthError.ctxErr ctxErr))] }
  else st

/-- The branch `case <-time.After(5 * time.Minute)` of a parked `Password`. -/
def PasswordTimeout (st : AuthState) : AuthState :=
  if st.passwordWaiter then
    { st with passwordWaiter := false,
              returns := st.returns ++ [AuthReturn.Password "" (some AuthError.waitPasswordTimeout)] }
  else st

/-! ## The administrative store (`models/group.go`, `models/message.go`)

The store is the list of live rows of each table. A query that fails is a query that
finds nothing: the code takes the same `err != nil` branch for both. -/

/-- The record `models.Group`; `GroupType` is its field `Type`
(group / supergroup / channel). -/
structure Group where
  ID : Nat
  ChatID : Int
  AccessHash : Int
  Username : String
  Title : String
  GroupType : String
  deriving DecidableEq, Repr

/-- The record `models.AccountGroup`; `ReplyProbability` is its `float64` column. -/
structure AccountGroup where
  ID : Nat
  AccountID : Nat
  GroupID : Nat
  Priority : Int
  ReplyProbability : Factor
  Enabled : Bool
  deriving DecidableEq, Repr

/-- The record `models.Message`, a sent-message log entry. -/
structure Message where
  AccountID : Nat
  GroupID : Nat
  TelegramMessageID : Int
  Content : String
  deriving DecidableEq, Repr

/-- The tables the session reads and writes. -/
structure Store where
  accounts : List Account
  groups : List Group
  accountGroups : List AccountGroup
  messages : List Message
  deriving DecidableEq, Repr

/-- The query `DB.Where("chat_id = ?", chatID).First(&group)`. -/
def Store.groupByChatID (db : Store) (chatID : Int) : Option Group :=
  db.groups.find? (fun g => g.ChatID = chatID)

/-- The query `DB.Where("account_id = ? AND group_id = ?", ..).First(&accountGroup)`. -/
def Store.accountGroup (db : Store) (accountID groupID : Nat) : Option AccountGroup :=
  db.accountGroups.find? (fun ag => ag.AccountID = accountID ∧ ag.GroupID = groupID)

/-- The call `DB.Save(&group)`: update the row with that primary key. -/
def Store.saveGroup (db : Store) (group : Group) : Store :=
  { db with groups := db.groups.map (fun g => if g.ID = group.ID then group else g) }

/-- The call `DB.Create(&message)`. -/
def Store.createMessage (db : Store) (message : Message) : Store :=
  { db with messages := db.messages ++ [message] }

/-! ## Session state (`client_v2.go`) -/

/-- The struct `MessageContext`: one entry of a conversation's history. -/
structure MessageContext where
  Role : String
  Content : String
  deriving DecidableEq, Repr

/-- The struct `ai.ChatMessage`. -/
structure ChatMessage where
  Role : String
  Content : String
  deriving DecidableEq, Repr

/-- The transport address `tg.InputPeerClass` built by the send path. -/
inductive InputPeer where
  | InputPeerChat (ChatID : Int)
  | InputPeerChannel (ChannelID : Int) (AccessHash : Int)
  deriving DecidableEq, Repr

/-- A call the session makes to a collaborator, as recorded in its log: an invocation of
`AIService.GenerateReply`, an invocation of `api.MessagesSendMessage`, a `time.Sleep`
between the parts of a split reply (in seconds). -/
inductive ExternalCall where
  | generate (apiKey model systemPrompt message : String) (history : List ChatMessage)
  | sendMessage (peer : InputPeer) (text : String)
  | sleep (seconds : Int)
  deriving DecidableEq, Repr

/-- The struct `ClientV2`: the working copy of the account, the store it shares, the
last-reply times, the histories and the buffer; `calls` is the log of the calls made to
the collaborators. `AuthHelper` is the handshake helper of the session (`none` is a nil
pointer); `cancelled` tells whether `Cancel` has been called on the session context. -/
structure ClientV2 where
  Account : Account
  DB : Store
  LastReplyTime : GoMap Int Int
  MessageContext : GoMap Int (List MessageContext)
  messageBuffer : MessageBuffer
  calls : List ExternalCall
  AuthHelper : Option AuthState := none
  cancelled : Bool := false

/-- What the transport and the session context do during a tick. `sendResult n` is the
error (`none` is nil) returned by the invocation of `api.MessagesSendMessage` made when
the log already holds `n` of them; `ctxDone n` tells whether the context is cancelled
during the retry wait that follows such an invocation (`some e`: `ctx.Err()` is `e`). -/
structure Env where
  sendResult : Nat → Option String
  ctxDone : Nat → Option String

/-- The number of invocations of `api.MessagesSendMessage` in a log. -/
def sendCount (calls : List ExternalCall) : Nat :=
  (calls.filter (fun e => match e with
    | ExternalCall.sendMessage _ _ => true
    | _ => false)).length

/-! ## Strings (`strings.Split`, `strings.TrimSpace`, `len`, `strings.Join`) -/

/-- The predicate `unicode.IsSpace`. -/
def isSpace (c : Char) : Bool :=
  c = '\t' || c = '\n' || c.toNat = 0x0B || c.toNat = 0x0C || c = '\r' || c = ' ' ||
  c.toNat = 0x85 || c.toNat = 0xA0 || c.toNat = 0x1680 ||
  (0x2000 ≤ c.toNat && c.toNat ≤ 0x200A) || c.toNat = 0x2028 || c.toNat = 0x2029 ||
  c.toNat = 0x202F || c.toNat = 0x205F || c.toNat = 0x3000

/-- The pieces of a character sequence between its newlines. -/
def splitOnNewline : List Char → List (List Char)
  | [] => [[]]
  | c :: cs =>
    if c = '\n' then [] :: splitOnNewline cs
    else
      match splitOnNewline cs with
      | [] => [[c]]
      | l :: ls => (c :: l) :: ls

/-- The call `strings.Split(s, "\n")`. -/
def stringsSplitNewline (s : String) : List String :=
  (splitOnNewline s.data).map String.mk

/-- The call `strings.TrimSpace(s)`. -/
def stringsTrimSpace (s : String) : String :=
  String.mk ((s.data.dropWhile isSpace).reverse.dropWhile isSpace).reverse

/-- The builtin `len(s)`: the number of bytes of the string. -/
def len (s : String) : Nat := s.utf8ByteSize

/-- The call `strings.Join(elems, sep)`. -/
def stringsJoin (elems : List String) (sep : String) : String :=
  sep.intercalate elems

/-! ## Generation (`internal/ai/service.go`) -/

/-- The outcome of the request `client.CreateChatCompletion`: an error, a response
without choices, or the content of the first choice. -/
inductive Completion where
  | failed (err : String)
  | noChoices
  | content (reply : String)
  deriving DecidableEq, Repr

/-- The method `Service.GenerateReply`: refuse an empty API key, otherwise return what
the completion request gives (`completion`). -/
def GenerateReply (apiKey : String) (completion : Completion) : Except String String :=
  if apiKey = "" then Except.error "AI API Key 未配置，请在账号管理中填写 ai_api_key"
  else
    match completion with
    | Completion.failed err => Except.error ("生成回复失败: " ++ err)
    | Completion.noChoices => Except.error "未收到回复"
    | Completion.content reply => Except.ok reply

/-! ## Send path (`client_v2.go`, `group_sync.go`) -/

/-- The function `GetGroupAccessHash` (group_sync.go, lines 106-113): it always fails. -/
def GetGroupAccessHash (_chatID : Int) : Except String Int :=
  Except.error "需要从数据库获取AccessHash"

/-- The errors of the send path: the `fmt.Errorf` of a missing access hash, or the error
of `RetryWithBackoff`. -/
inductive SendError where
  | needAccessHash
  | retry (e : RetryError String)
  deriving DecidableEq, Repr

/-- The closure `sendFn` of `sendMessageDirect` (client_v2.go, lines 659-668), acting on
the log of calls: one invocation of `api.MessagesSendMessage`. -/
def sendFn (env : Env) (peer : InputPeer) (text : String) (calls : List ExternalCall) :
    Option String × List ExternalCall :=
  (env.sendResult (sendCount calls), calls ++ [ExternalCall.sendMessage peer text])

/-- The peer resolution of `sendMessageDirect` (client_v2.go, lines 619-656): the store
after it and the peer, or the error of a missing access hash. -/
def resolvePeer (db : Store) (chatID : Int) : Except SendError (Store × InputPeer) :=
  match db.groupByChatID chatID with
  | none => Except.ok (db, InputPeer.InputPeerChat chatID)
  | some group =>
    if group.GroupType = "channel" ∨ group.GroupType = "supergroup" then
      if group.AccessHash = 0 then
        match GetGroupAccessHash chatID with
        | Except.error _ => Except.error SendError.needAccessHash
        | Except.ok accessHash =>
          Except.ok (db.saveGroup { group with AccessHash := accessHash },
            InputPeer.InputPeerChannel (if chatID < 0 then -chatID else chatID) accessHash)
      else
        Except.ok (db,
          InputPeer.InputPeerChannel (if chatID < 0 then -chatID else chatID) group.AccessHash)
    else
      Except.ok (db, InputPeer.InputPeerChat (if chatID < 0 then -chatID else chatID))

/-- The method `sendMessageDirect` (client_v2.go, lines 616-676): the session after the
call and the error returned (`none` is nil). The outer `none` stands for a retry loop
that does not return. -/
def sendMessageDirect (env : Env) (c : ClientV2) (chatID : Int) (text : String) :
    Option (ClientV2 × Option SendError) :=
  match resolvePeer c.DB chatID with
  | Except.error e => some (c, some e)
  | Except.ok (db, peer) =>
    match RetryWithBackoff (fun w => env.ctxDone (sendCount c.calls + w)) (sendFn env peer text)
        c.calls with
    | none => none
    | some o =>
      match o.result with
      | some e => some ({ c with DB := db, calls := o.state }, some (SendError.retry e))
      | none => some ({ c with DB := db, calls := o.state }, none)

/-- The loop body of the split in `sendReplyWithSplit` (client_v2.go, lines 566-580);
the state is `(messageParts, currentPart)`. -/
def splitStep (st : List String × String) (line : String) : List String × String :=
  let trimmed := stringsTrimSpace line
  if trimmed = "" then st
  else if st.2 = "" then (st.1, trimmed)
  else if len st.2 < 20 then (st.1, st.2 ++ " " ++ trimmed)
  else (st.1 ++ [st.2], trimmed)

/-- The computation of `messageParts` in `sendReplyWithSplit` (client_v2.go, lines
560-583). -/
def splitReply (reply : String) : List String :=
  let st := (stringsSplitNewline reply).foldl splitStep ([], "")
  if st.2 ≠ "" then st.1 ++ [st.2] else st.1

/-- The sending loop of `sendReplyWithSplit` (client_v2.go, lines 599-610) over the
parts still to send: stop at the first part whose send fails, sleep `interval` seconds
after every part but the last. -/
def sendParts (env : Env) (interval : Int) (chatID : Int) :
    ClientV2 → List String → Option (ClientV2 × Option SendError)
  | c, [] => some (c, none)
  | c, part :: rest =>
    match sendMessageDirect env c chatID part with
    | none => none
    | some (c1, some err) => some (c1, some err)
    | some (c1, none) =>
      match rest with
      | [] => some (c1, none)
      | _ :: _ =>
        sendParts env interval chatID
          { c1 with calls := c1.calls ++ [ExternalCall.sleep interval] } rest

/-- The method `sendReplyWithSplit` (client_v2.go, lines 553-613). -/
def sendReplyWithSplit (env : Env) (c : ClientV2) (chatID : Int) (reply : String) :
    Option (ClientV2 × Option SendError) :=
  if ¬ c.Account.SplitByNewline then sendMessageDirect env c chatID reply
  else if (splitReply reply).length ≤ 1 then sendMessageDirect env c chatID reply
  else
    sendParts env (if c.Account.MultiMsgInterval ≤ 0 then 5 else c.Account.MultiMsgInterval)
      chatID c (splitReply reply)

/-! ## Decision-and-reply loop (`client_v2.go`) -/

/-- The method `reloadAccountConfig` (client_v2.go, lines 422-442): copy the behaviour
knobs of the stored account, keep the runtime fields; nothing changes when the account
is not found. -/
def reloadAccountConfig (c : ClientV2) : ClientV2 :=
  match c.DB.accounts.find? (fun a => a.ID = c.Account.ID) with
  | none => c
  | some account =>
    { c with Account :=
        { c.Account with
          SystemPrompt := account.SystemPrompt, AIApiKey := account.AIApiKey,
          AIModel := account.AIModel, ReplyInterval := account.ReplyInterval,
          ListenInterval := account.ListenInterval, BufferSize := account.BufferSize,
          AutoReply := account.AutoReply, ReplyProbability := account.ReplyProbability,
          SplitByNewline := account.SplitByNewline,
          MultiMsgInterval := account.MultiMsgInterval, Enabled := account.Enabled,
          Priority := account.Priority, Tone := account.Tone } }

/-- The method `getGroupAssignment` (client_v2.go, lines 754-770): the account-group row
of the conversation, `none` for `(nil, false)`. -/
def getGroupAssignment (c : ClientV2) (chatID : Int) : Option AccountGroup :=
  match c.DB.groupByChatID chatID with
  | none => none
  | some group => c.DB.accountGroup c.Account.ID group.ID

/-- The reply interval in force, in seconds: the configured value, or 60 when that is
not positive (client_v2.go, lines 485-488). -/
def effectiveReplyInterval (account : Account) : Int :=
  if account.ReplyInterval ≤ 0 then 60 else account.ReplyInterval

/-- The interval gate (client_v2.go, lines 489-494) at clock reading `now`: `true` when
the conversation may go on. The test `time.Since(lastTime).Seconds() <
float64(replyInterval)` is taken in exact arithmetic, on nanoseconds. -/
def intervalGate (c : ClientV2) (chatID : Int) (now : Int) : Bool :=
  match c.LastReplyTime.get? chatID with
  | some lastTime =>
    if now - lastTime < effectiveReplyInterval c.Account * 1000000000 then false else true
  | none => true

/-- The effective reply probability, in percent (client_v2.go, lines 497-503). -/
def effectiveReplyProbability (account : Account) (accountGroup : AccountGroup) : Int :=
  let p1 := accountGroup.ReplyProbability.scale 100
  let p2 := if p1 ≤ 0 then account.ReplyProbability else p1
  if p2 ≤ 0 then 100 else p2

/-- The method `getMessageContext` (client_v2.go, lines 802-814). -/
def getMessageContext (c : ClientV2) (chatID : Int) : List ChatMessage :=
  (c.MessageContext.getSlice chatID).map (fun m => { Role := m.Role, Content := m.Content })

/-- The method `addMessageContext` (client_v2.go, lines 817-831). -/
def addMessageContext (c : ClientV2) (chatID : Int) (userMsg aiReply : String) : ClientV2 :=
  let m1 := if c.MessageContext.get? chatID = none then c.MessageContext.set chatID []
    else c.MessageContext
  let m2 := m1.set chatID (m1.getSlice chatID ++
    [{ Role := "user", Content := userMsg }, { Role := "assistant", Content := aiReply }])
  if (m2.getSlice chatID).length > 10 then
    { c with MessageContext :=
        m2.set chatID ((m2.getSlice chatID).drop ((m2.getSlice chatID).length - 10)) }
  else { c with MessageContext := m2 }

/-- The method `saveMessageDirect` (client_v2.go, lines 834-848). -/
def saveMessageDirect (c : ClientV2) (chatID : Int) (content : String) : ClientV2 :=
  match c.DB.groupByChatID chatID with
  | none => c
  | some group =>
    let message : Message :=
      { AccountID := c.Account.ID, GroupID := group.ID, TelegramMessageID := 0,
        Content := content }
    { c with DB := c.DB.createMessage message }

/-- The text put before the stimulus (client_v2.go, line 524). -/
def promptPrefix : String :=
  "以下是群里最近的聊天内容，请根据这些内容发表你的观点或参与讨论（直接输出你想说的话，不要引用或回复特定消息）：\n\n"

/-- What the outside supplies to the cycle of one conversation: the clock read by the
interval gate, the draw of `rand.Intn(100)`, the outcome of the completion request, the
clock read when the reply has been sent. -/
structure ConvInput where
  nowGate : Int
  draw : Int
  completion : Completion
  nowSent : Int

/-- The body of the processing loop of `processBufferedMessages` (client_v2.go, lines
461-549) for one drained conversation. The outer `none` stands for a retry loop that
does not return. -/
def processConversation (env : Env) (inp : ConvInput) (c : ClientV2) (chatID : Int)
    (messages : List BufferedMessage) : Option ClientV2 :=
  if messages.length = 0 then some c
  else
    match getGroupAssignment c chatID with
    | none => some c
    | some accountGroup =>
      if ¬ accountGroup.Enabled then some c
      else if ¬ c.Account.AutoReply then some c
      else if ¬ intervalGate c chatID inp.nowGate then some c
      else if inp.draw ≥ effectiveReplyProbability c.Account accountGroup then some c
      else
        let combinedContent := stringsJoin (messages.map (fun m => m.Content)) "\n---\n"
        let c1 := { c with calls := c.calls ++
          [ExternalCall.generate c.Account.AIApiKey c.Account.AIModel c.Account.SystemPrompt
            (promptPrefix ++ combinedContent) (getMessageContext c chatID)] }
        match GenerateReply c.Account.AIApiKey inp.completion with
        | Except.error _ => some c1
        | Except.ok reply =>
          if reply = "" then some c1
          else
            match sendReplyWithSplit env c1 chatID reply with
            | none => none
            | some (c2, some _) => some c2
            | some (c2, none) =>
              let c3 := { c2 with LastReplyTime := c2.LastReplyTime.set chatID inp.nowSent }
              some (saveMessageDirect (addMessageContext c3 chatID combinedContent reply)
                chatID reply)

/-- The method `processBufferedMessages` (client_v2.go, lines 445-550): reload the
configuration, drain the buffer, run the cycle of every drained conversation.
`inputs chatID` is what the outside supplies to the cycle of conversation `chatID`. -/
def processBufferedMessages (env : Env) (inputs : Int → ConvInput) (c : ClientV2) :
    Option ClientV2 :=
  let c1 := reloadAccountConfig c
  let drained := drainBuffers c1.messageBuffer
  drained.1.entries.foldl
    (fun acc e => acc.bind (fun c2 => processConversation env (inputs e.1) c2 e.1 e.2))
    (some { c1 with messageBuffer := drained.2 })

/-! ## Worked examples -/

/-- A store with one plain group (chat id 7) assigned to account 1 and enabled, and one
group (chat id 8) assigned to it but disabled; chat id 9 is unknown to the store. -/
def exampleStore : Store :=
  { accounts := [exampleAccount],
    groups := [{ ID := 1, ChatID := 7, AccessHash := 0, Username := "", Title := "g7",
                 GroupType := "group" },
               { ID := 2, ChatID := 8, AccessHash := 0, Username := "", Title := "g8",
                 GroupType := "group" }],
    accountGroups := [{ ID := 1, AccountID := 1, GroupID := 1, Priority := 5,
                        ReplyProbability := { num := 3, den := 10 }, Enabled := true },
                      { ID := 2, AccountID := 1, GroupID := 2, Priority := 5,
                        ReplyProbability := { num := 3, den := 10 }, Enabled := false }],
    messages := [] }

/-- A session of the example account whose last reply in conversation 7 was at time 0. -/
def exampleClient : ClientV2 :=
  { Account := exampleAccount, DB := exampleStore,
    LastReplyTime := (∅ : GoMap Int Int).set 7 0,
    MessageContext := ∅, messageBuffer := ∅, calls := [] }

/-- A transport that accepts every send, under a context that is never cancelled. -/
def exampleEnv : Env :=
  { sendResult := fun _ => none, ctxDone := fun _ => none }

/-- What the outside supplies in the examples: clock reading `now` at the gate, draw 0,
a completion with the given reply. -/
def exampleInput (now : Int) (reply : String) : ConvInput :=
  { nowGate := now, draw := 0, completion := Completion.content reply, nowSent := now }

/-! ## Split-send, as the specification words it -/

/-- A string made of ASCII characters only. -/
def isASCII (s : String) : Bool := s.data.all (fun ch => decide (ch.toNat < 128))

/-- The trimmed non-blank lines of a reply, in order. -/
def trimmedLines (reply : String) : List String :=
  ((stringsSplitNewline reply).map stringsTrimSpace).filter (fun l => decide (l ≠ ""))

/-- Scan the remaining lines with a fragment being accumulated: a line is appended to
the fragment, after one space, exactly when the fragment has fewer than `threshold`
characters; otherwise the fragment is closed and the line starts a new one. -/
def mergeShortFrom (threshold : Nat) : String → List String → List String
  | fragment, [] => [fragment]
  | fragment, line :: rest =>
    if fragment.length < threshold then
      mergeShortFrom threshold (fragment ++ " " ++ line) rest
    else fragment :: mergeShortFrom threshold line rest

/-- The fragments of a list of lines: the first line starts the first fragment. -/
def mergeShort (threshold : Nat) : List String → List String
  | [] => []
  | line :: rest => mergeShortFrom threshold line rest

/-- The loop body of the split for a line already trimmed and not blank. -/
def mergeStep (st : List String × String) (trimmed : String) : List String × String :=
  if st.2 = "" then (st.1, trimmed)
  else if len st.2 < 20 then (st.1, st.2 ++ " " ++ trimmed)
  else (st.1 ++ [st.2], trimmed)

/-- The example account with the account-level reply probability `p`. -/
def accountWithProbability (p : Int) : Account :=
  { exampleAccount with ReplyProbability := p }

/-- An assignment whose reply probability is 0.005: positive, below one percent. -/
def tinyProbabilityAssignment : AccountGroup :=
  { ID := 3, AccountID := 1, GroupID := 1, Priority := 5,
    ReplyProbability := { num := 1, den := 200 }, Enabled := true }

/-- The assignment of conversation 7 in the example store: reply probability 0.3. -/
def exampleAssignment : AccountGroup :=
  { ID := 1, AccountID := 1, GroupID := 1, Priority := 5,
    ReplyProbability := { num := 3, den := 10 }, Enabled := true }

/-- A context that is cancelled, with error `e`, during the wait number `w0` (counted
from 0) and not before. -/
def cancelledDuringWait (w0 : Nat) (e : Nat) : Nat → Option Nat :=
  fun w => if w = w0 then some e else none

/-- The delay that follows `delay` (retry.go, lines 48-51): the product with the
multiplier, replaced by `MaxDelay` when it exceeds it. -/
def nextDelay (config : RetryConfig) (delay : Int) : Int :=
  if config.Multiplier.scale delay > config.MaxDelay then config.MaxDelay
  else config.Multiplier.scale delay

/-- The first `n` delays of the backoff that starts at `delay`. -/
def backoffDelays (config : RetryConfig) : Nat → Int → List Int
  | 0, _ => []
  | n + 1, delay => delay :: backoffDelays config n (nextDelay config delay)

/-- A configuration whose initial delay (20 s) is above its cap (10 s). -/
def slowStartConfig : RetryConfig :=
  { MaxRetries := 3, InitialDelay := 20 * 1000000000, MaxDelay := 10 * 1000000000,
    Multiplier := { num := 2, den := 1 } }

/-- The scan of `mergeShortFrom` with the fragment measured in bytes (`len`) instead of
characters. -/
def mergeShortBytesFrom (threshold : Nat) : String → List String → List String
  | fragment, [] => [fragment]
  | fragment, line :: rest =>
    if len fragment < threshold then
      mergeShortBytesFrom threshold (fragment ++ " " ++ line) rest
    else fragment :: mergeShortBytesFrom threshold line rest

/-- The fragments of a list of lines, the fragment measured in bytes. -/
def mergeShortBytes (threshold : Nat) : List String → List String
  | [] => []
  | line :: rest => mergeShortBytesFrom threshold line rest

/-! ## The log of a split send -/

/-- The peer the send path addresses for a conversation (`InputPeerChat` of the chat id
when the resolution fails before any send is made). -/
def peerOf (db : Store) (chatID : Int) : InputPeer :=
  match resolvePeer db chatID with
  | Except.ok (_, peer) => peer
  | Except.error _ => InputPeer.InputPeerChat chatID

/-- The log entries of a split send: for each part, with its number of transport
invocations, that many `sendMessage` entries; between one part and the next, one
`sleep interval`; nothing after the last part. -/
def partsLog (interval : Int) (peer : InputPeer) : List (String × Nat) → List ExternalCall
  | [] => []
  | (part, k) :: rest =>
    List.replicate k (ExternalCall.sendMessage peer part) ++
      (match rest with
       | [] => []
       | _ :: _ => ExternalCall.sleep interval :: partsLog interval peer rest)

/-- The pauses recorded in a log, in order (seconds). -/
def pauses (log : List ExternalCall) : List Int :=
  log.filterMap (fun e => match e with
    | ExternalCall.sleep seconds => some seconds
    | _ => none)

/-- The session when the next part is about to be sent: after the pause that follows
the parts `before`, when there are any. -/
def pauseAfter (interval : Int) (c : ClientV2) (before : List String) : ClientV2 :=
  match before with
  | [] => c
  | _ :: _ => { c with calls := c.calls ++ [ExternalCall.sleep interval] }

/-- The pause between the parts of a split reply, in seconds: the configured
`MultiMsgInterval`, or 5 when that is not positive (client_v2.go, lines 591-594). -/
def effectiveMultiMsgInterval (account : Account) : Int :=
  if account.MultiMsgInterval ≤ 0 then 5 else account.MultiMsgInterval

/-- The session with `log` appended to its log of calls, nothing else changed. -/
def appendCalls (c : ClientV2) (log : List ExternalCall) : ClientV2 :=
  { c with calls := c.calls ++ log }

/-- A transport that rejects every send, under a context that is never cancelled. -/
def rejectingEnv : Env :=
  { sendResult := fun _ => some "FLOOD_WAIT", ctxDone := fun _ => none }

/-- A reply that splits into two parts: its first line is longer than 20 bytes. -/
def twoPartReply : String := "this first line is long enough\nsecond line"

/-- The stimulus of a cycle: the buffered texts in arrival order, joined by the
delimiter (client_v2.go, lines 510-514). -/
def stimulus (messages : List BufferedMessage) : String :=
  stringsJoin (messages.map (fun m => m.Content)) "\n---\n"

/-- The log entry of the call of `GenerateReply` made in the cycle of a conversation
(client_v2.go, lines 519-526). -/
def generateCall (c : ClientV2) (chatID : Int) (messages : List BufferedMessage) :
    ExternalCall :=
  ExternalCall.generate c.Account.AIApiKey c.Account.AIModel c.Account.SystemPrompt
    (promptPrefix ++ stimulus messages) (getMessageContext c chatID)

/-- The session at the moment the reply is dispatched: the call of `GenerateReply` is
in the log, nothing else has changed. -/
def withGenerateCall (c : ClientV2) (chatID : Int) (messages : List BufferedMessage) :
    ClientV2 :=
  appendCalls c [generateCall c chatID messages]

/-- What the outside supplies to a cycle whose completion request fails. -/
def failedGenerationInput : ConvInput :=
  { nowGate := 100000000000, draw := 0, completion := Completion.failed "timeout",
    nowSent := 100000000000 }

/-- The log of the dispatch of a reply over a transport that accepts every send at the
first attempt: one send of the reply itself, or the sends of its parts with the pauses
between them. -/
def dispatchLog (account : Account) (peer : InputPeer) (reply : String) : List ExternalCall :=
  if ¬ account.SplitByNewline ∨ (splitReply reply).length ≤ 1 then
    [ExternalCall.sendMessage peer reply]
  else
    partsLog (effectiveMultiMsgInterval account) peer
      ((splitReply reply).map (fun part => (part, 1)))

/-- The account of the end-to-end scenario: auto-reply on, reply probability 100, reply
interval 0. -/
def tickAccount : Account :=
  { exampleAccount with AutoReply := true, ReplyProbability := 100, ReplyInterval := 0 }

/-- The store of the end-to-end scenario: conversation 7 is assigned to the account and
enabled, with the assignment's reply probability 0.3. -/
def tickStore : Store :=
  { exampleStore with accounts := [tickAccount] }

/-- The session of the end-to-end scenario: three messages buffered for conversation 7,
no earlier reply. -/
def tickClient : ClientV2 :=
  { Account := tickAccount, DB := tickStore, LastReplyTime := ∅, MessageContext := ∅,
    messageBuffer := (∅ : MessageBuffer).set 7
      [{ Content := "a", Timestamp := 1 }, { Content := "b", Timestamp := 2 },
       { Content := "c", Timestamp := 3 }],
    calls := [] }

/-- What the outside supplies in the end-to-end scenario: the given draw, a completion
"hi", the clock at 1000 when the gate is read and at 2000 when the reply is sent. -/
def tickInputs (draw : Int) : Int → ConvInput :=
  fun _ => { nowGate := 1000, draw := draw, completion := Completion.content "hi",
             nowSent := 2000 }

/-- The session after the first two steps of a tick: the configuration reloaded and the
buffer drained. -/
def afterDrain (c : ClientV2) : ClientV2 :=
  { reloadAccountConfig c with
    messageBuffer := (drainBuffers (reloadAccountConfig c).messageBuffer).2 }

/-! ## Manual send (`manager.go`, `client_v2.go`) -/

/-- The method `sendMessage` (client_v2.go, lines 679-751), the send path kept for manual
sends: the peer resolution and the retried send of `sendMessageDirect`, the request
carrying a `ReplyTo` when `replyToMsgID > 0` (the log entry records the peer and the
text of the request, not its `ReplyTo`). It never calls `saveMessage`. -/
def sendMessage (env : Env) (c : ClientV2) (chatID : Int) (text : String)
    (_replyToMsgID : Int) : Option (ClientV2 × Option SendError) :=
  match resolvePeer c.DB chatID with
  | Except.error e => some (c, some e)
  | Except.ok (db, peer) =>
    match RetryWithBackoff (fun w => env.ctxDone (sendCount c.calls + w)) (sendFn env peer text)
        c.calls with
    | none => none
    | some o =>
      match o.result with
      | some e => some ({ c with DB := db, calls := o.state }, some (SendError.retry e))
      | none => some ({ c with DB := db, calls := o.state }, none)

/-- The method `saveMessage` (client_v2.go, lines 851-866), documented as the writer of
the record of a manual send; no function of the repository calls it. -/
def saveMessage (c : ClientV2) (chatID : Int) (content : String) (replyToID : Int) :
    ClientV2 :=
  match c.DB.groupByChatID chatID with
  | none => c
  | some group =>
    let message : Message :=
      { AccountID := c.Account.ID, GroupID := group.ID, TelegramMessageID := replyToID,
        Content := content }
    { c with DB := c.DB.createMessage message }

/-- What the manager does to its sessions, as recorded in its log: a call of `Stop` on a
session (the session as the call leaves it), the assignment `m.clients[id] = client`,
the launch of the goroutine that runs `client.Start()`. -/
inductive ManagerEvent where
  | stop (accountID : Nat) (client : ClientV2)
  | register (accountID : Nat) (client : ClientV2)
  | start (accountID : Nat)

/-- The struct `Manager`: the registry of sessions, the registry of handshake helpers and
the store, which every session shares; `events` is the log of what the manager did to
its sessions, oldest first. -/
structure Manager where
  clients : GoMap Nat ClientV2
  authHelpers : GoMap Nat AuthState
  db : Store
  events : List ManagerEvent := []

/-- The errors of `SendMessageToGroup`: no session for the account, no group with that
key, or the error of the send path. -/
inductive ManagerError where
  | clientNotFound (accountID : Nat)
  | groupNotFound (groupID : Nat)
  | send (e : SendError)
  deriving DecidableEq, Repr

/-- The method `Manager.SendMessageToGroup` (manager.go, lines 148-174): look the session
up, read the group by its key, send through the session's `sendMessage` with reply id 0
and return its error. The session works on the manager's store. The outer `none` stands
for a retry loop that does not return. -/
def SendMessageToGroup (env : Env) (m : Manager) (accountID groupID : Nat) (text : String) :
    Option (Manager × Option ManagerError) :=
  match m.clients.get? accountID with
  | none => some (m, some (ManagerError.clientNotFound accountID))
  | some client =>
    match m.db.groups.find? (fun g => g.ID = groupID) with
    | none => some (m, some (ManagerError.groupNotFound groupID))
    | some group =>
      match sendMessage env { client with DB := m.db } group.ChatID text 0 with
      | none => none
      | some (client1, r) =>
        some ({ m with clients := m.clients.set accountID client1, db := client1.DB },
          r.map ManagerError.send)

/-- A manager with the example session registered for account 1. -/
def exampleManager : Manager :=
  { clients := (∅ : GoMap Nat ClientV2).set 1 exampleClient, authHelpers := ∅,
    db := exampleStore }

/-- A configuration that allows no attempt at all. -/
def noAttemptConfig : RetryConfig :=
  { MaxRetries := 0, InitialDelay := 1 * 1000000000, MaxDelay := 10 * 1000000000,
    Multiplier := { num := 2, den := 1 } }

/-- An assignment whose reply probability is 0. -/
def zeroProbabilityAssignment : AccountGroup :=
  { ID := 4, AccountID := 1, GroupID := 1, Priority := 5,
    ReplyProbability := { num := 0, den := 1 }, Enabled := true }

/-- A part as the split produces it: not empty, without a newline, and neither its
first nor its last character is a space character. -/
def trimmedPart (p : String) : Prop :=
  p ≠ "" ∧ '\n' ∉ p.data ∧
  (∀ ch, p.data.head? = some ch → isSpace ch = false) ∧
  (∀ ch, p.data.getLast? = some ch → isSpace ch = false)

/-! ## Inbound messages of the transport (`tg.MessageClass`) -/

/-- The interface `tg.PeerClass`: the conversation a message belongs to. -/
inductive PeerClass where
  | PeerUser (UserID : Int)
  | PeerChat (ChatID : Int)
  | PeerChannel (ChannelID : Int)
  deriving DecidableEq, Repr

/-- The fields of `tg.Message` the session reads; `PeerID` is `none` for a nil
interface value. -/
structure TgMessage where
  ID : Int
  Out : Bool
  Message : String
  PeerID : Option PeerClass
  deriving DecidableEq, Repr

/-- The interface `tg.MessageClass`: a message, or one of the two other kinds (an empty
message, a service message), which carry no text. -/
inductive MessageClass where
  | MessageEmpty (ID : Int)
  | Message (message : TgMessage)
  | MessageService (ID : Int)
  deriving DecidableEq, Repr

/-- The method `bufferMessage` (client_v2.go, lines 220-275): the buffer after the call
and the error returned (`none` is nil); `now` is the reading of `time.Now()`. -/
def bufferMessage (account : Account) (messageBuffer : MessageBuffer) (msg : MessageClass)
    (now : Int) : MessageBuffer × Option String :=
  match msg with
  | MessageClass.Message message =>
    if message.Out then (messageBuffer, none)
    else
      let messageText := message.Message
      if messageText = "" then (messageBuffer, none)
      else
        match message.PeerID with
        | some (PeerClass.PeerChannel channelID) =>
          (bufferAppend account messageBuffer channelID messageText now, none)
        | some (PeerClass.PeerChat chatID) =>
          (bufferAppend account messageBuffer chatID messageText now, none)
        | some (PeerClass.PeerUser _) => (messageBuffer, none)
        | none => (messageBuffer, none)
  | _ => (messageBuffer, none)

/-- The conversation id `bufferMessage` files a message under: the channel id or the
chat id of its peer; none for a private peer. -/
def groupPeerID (message : TgMessage) : Option Int :=
  match message.PeerID with
  | some (PeerClass.PeerChannel channelID) => some channelID
  | some (PeerClass.PeerChat chatID) => some chatID
  | _ => none

/-- A message of a group, from someone else: id 41, text "hello", in chat 7. -/
def exampleGroupMessage : TgMessage :=
  { ID := 41, Out := false, Message := "hello", PeerID := some (PeerClass.PeerChat 7) }

/-! ## The poller (`client_v2.go`, lines 279-393) -/

/-- The one-valued lookup `m[k]` of a `map[int64]int`: 0 when the key is absent. -/
def GoMap.getInt (m : GoMap Int Int) (k : Int) : Int :=
  (m.get? k).getD 0

/-- What the poller of one session holds: the map `lastMsgIDs` of `startGroupPoller`,
the message buffer of the session, and the ids of the messages the poller reported as
buffered (its log line "[轮询] 消息已缓冲", one per append), oldest first. -/
structure PollState where
  lastMsgIDs : GoMap Int Int
  messageBuffer : MessageBuffer
  buffered : List Int
  deriving DecidableEq

/-- The body of the loop over the fetched messages in `pollAssignedGroups` (client_v2.go,
lines 354-392) for the conversation `chatID`; `lastID` was read before the loop. -/
def pollStep (account : Account) (chatID : Int) (lastID : Int) (now : Int) (st : PollState)
    (msg : TgMessage) : PollState :=
  if msg.ID ≤ lastID then st
  else if msg.Out then st
  else if msg.Message = "" then st
  else
    let lastMsgIDs :=
      if msg.ID > st.lastMsgIDs.getInt chatID then st.lastMsgIDs.set chatID msg.ID
      else st.lastMsgIDs
    { lastMsgIDs := lastMsgIDs,
      messageBuffer := pollAppend account st.messageBuffer chatID msg.Message now,
      buffered := st.buffered ++ [msg.ID] }

/-- One poll of the conversation `chatID` (client_v2.go, lines 352-393): read the
high-water mark, then process the messages of the fetched history in order; `now` is
the reading of the clock during the poll. -/
def pollMessages (account : Account) (chatID : Int) (now : Int) (st : PollState)
    (messages : List TgMessage) : PollState :=
  let lastID := st.lastMsgIDs.getInt chatID
  messages.foldl (pollStep account chatID lastID now) st

/-- A sequence of polls of the conversation `chatID`, each given by the reading of the
clock and the fetched history. -/
def pollAll (account : Account) (chatID : Int) (st : PollState)
    (polls : List (Int × List TgMessage)) : PollState :=
  polls.foldl (fun s poll => pollMessages account chatID poll.1 s poll.2) st

/-- The messages of a fetched history that a poll appends when the high-water mark is
`lastID`: id above the mark, not self-authored, text not empty. -/
def pollAccepted (lastID : Int) (messages : List TgMessage) : List TgMessage :=
  messages.filter (fun msg => decide (lastID < msg.ID) && !msg.Out && decide (msg.Message ≠ ""))

/-- The poller as `startGroupPoller` starts it: no high-water mark, nothing buffered. -/
def freshPollState : PollState :=
  { lastMsgIDs := ∅, messageBuffer := ∅, buffered := [] }

/-- Two overlapping histories of conversation 7, newest first: the second poll fetches
again the messages 5 and 3 of the first one, after the new message 6; message 4 is
self-authored. -/
def examplePolls : List (Int × List TgMessage) :=
  [(100, [{ ID := 5, Out := false, Message := "five", PeerID := none },
          { ID := 4, Out := true, Message := "mine", PeerID := none },
          { ID := 3, Out := false, Message := "three", PeerID := none }]),
   (130, [{ ID := 6, Out := false, Message := "six", PeerID := none },
          { ID := 5, Out := false, Message := "five", PeerID := none },
          { ID := 3, Out := false, Message := "three", PeerID := none }])]

/-! ## Send path, for any outcome of the credential fetch -/

/-- The peer resolution of the send path (client_v2.go, lines 619-656) with the outcome
of the call `GetGroupAccessHash(ctx, api, chatID)` as a parameter: `fetch chatID` is what
the call returns. -/
def resolvePeerWith (fetch : Int → Except String Int) (db : Store) (chatID : Int) :
    Except SendError (Store × InputPeer) :=
  match db.groupByChatID chatID with
  | none => Except.ok (db, InputPeer.InputPeerChat chatID)
  | some group =>
    if group.GroupType = "channel" ∨ group.GroupType = "supergroup" then
      if group.AccessHash = 0 then
        match fetch chatID with
        | Except.error _ => Except.error SendError.needAccessHash
        | Except.ok accessHash =>
          Except.ok (db.saveGroup { group with AccessHash := accessHash },
            InputPeer.InputPeerChannel (if chatID < 0 then -chatID else chatID) accessHash)
      else
        Except.ok (db,
          InputPeer.InputPeerChannel (if chatID < 0 then -chatID else chatID) group.AccessHash)
    else
      Except.ok (db, InputPeer.InputPeerChat (if chatID < 0 then -chatID else chatID))

/-- The method `sendMessageDirect` (client_v2.go, lines 616-676) with the outcome of the
credential fetch as a parameter. -/
def sendMessageDirectWith (fetch : Int → Except String Int) (env : Env) (c : ClientV2)
    (chatID : Int) (text : String) : Option (ClientV2 × Option SendError) :=
  match resolvePeerWith fetch c.DB chatID with
  | Except.error e => some (c, some e)
  | Except.ok (db, peer) =>
    match RetryWithBackoff (fun w => env.ctxDone (sendCount c.calls + w)) (sendFn env peer text)
        c.calls with
    | none => none
    | some o =>
      match o.result with
      | some e => some ({ c with DB := db, calls := o.state }, some (SendError.retry e))
      | none => some ({ c with DB := db, calls := o.state }, none)

/-- The method `sendMessage` (client_v2.go, lines 679-751) with the outcome of the
credential fetch as a parameter. -/
def sendMessageWith (fetch : Int → Except String Int) (env : Env) (c : ClientV2)
    (chatID : Int) (text : String) (_replyToMsgID : Int) :
    Option (ClientV2 × Option SendError) :=
  match resolvePeerWith fetch c.DB chatID with
  | Except.error e => some (c, some e)
  | Except.ok (db, peer) =>
    match RetryWithBackoff (fun w => env.ctxDone (sendCount c.calls + w)) (sendFn env peer text)
        c.calls with
    | none => none
    | some o =>
      match o.result with
      | some e => some ({ c with DB := db, calls := o.state }, some (SendError.retry e))
      | none => some ({ c with DB := db, calls := o.state }, none)

/-- A supergroup stored without its access hash: chat id -1007. -/
def exampleSupergroup : Group :=
  { ID := 3, ChatID := -1007, AccessHash := 0, Username := "", Title := "sg",
    GroupType := "supergroup" }

/-- A session whose store holds `exampleSupergroup`. -/
def supergroupClient : ClientV2 :=
  { exampleClient with DB := { exampleStore with groups := [exampleSupergroup] } }

/-- A fetch of the access hash that succeeds with the hash 99. -/
def fetched99 (_chatID : Int) : Except String Int := Except.ok 99

/-! ## The registry of sessions (`manager.go`, `client_v2.go`) -/

/-- The call `DB.Save(account)`: update the row with that primary key, insert the row
when there is none. -/
def Store.saveAccount (db : Store) (account : Account) : Store :=
  if db.accounts.any (fun a => a.ID = account.ID) then
    { db with accounts := db.accounts.map (fun a => if a.ID = account.ID then account else a) }
  else { db with accounts := db.accounts ++ [account] }

/-- The method `Stop` (client_v2.go, lines 869-879): set the status of the account to
"offline", save the account, cancel the session context. -/
def Stop (c : ClientV2) : ClientV2 :=
  let account := { c.Account with Status := "offline" }
  { c with Account := account, DB := c.DB.saveAccount account, cancelled := true }

/-- What the outside supplies to `NewClientV2`: the error of `os.MkdirAll` (`none` is
nil) and the `auth_sessions` table the new helper is given. -/
structure NewClientInput where
  mkdirAll : Option String
  authSessions : List AuthSession
  nextID : Nat

/-- The function `NewClientV2` (client_v2.go, lines 56-132): fail when the session
directory cannot be created; otherwise a session on the account and the store, with
empty maps, a context not yet cancelled, and its own handshake helper. -/
def NewClientV2 (inp : NewClientInput) (account : Account) (db : Store) :
    Except String ClientV2 :=
  match inp.mkdirAll with
  | some err => Except.error ("创建会话目录失败: " ++ err)
  | none =>
    Except.ok
      { Account := account, DB := db, LastReplyTime := ∅, MessageContext := ∅,
        messageBuffer := ∅, calls := [],
        AuthHelper := some (NewAuthHelper account inp.authSessions inp.nextID),
        cancelled := false }

/-- The functions `NewManager` and `SetDB` (manager.go, lines 33-45): two empty
registries, on the given store. -/
def NewManager (db : Store) : Manager :=
  { clients := ∅, authHelpers := ∅, db := db }

/-- The first step of `AddClient` (manager.go, lines 74-77): stop the session registered
under the id, if there is one; the session stays in the registry. The session works on
the manager's store. -/
def stopExisting (m : Manager) (accountID : Nat) : Manager :=
  match m.clients.get? accountID with
  | some client =>
    let stopped := Stop { client with DB := m.db }
    { m with clients := m.clients.set accountID stopped, db := stopped.DB,
             events := m.events ++ [ManagerEvent.stop accountID stopped] }
  | none => m

/-- The method `Manager.AddClient` (manager.go, lines 70-102): the manager after the
call and the error returned (`none` is nil). -/
def AddClient (inp : NewClientInput) (m : Manager) (account : Account) :
    Manager × Option String :=
  let m1 := stopExisting m account.ID
  match NewClientV2 inp account m1.db with
  | Except.error err => (m1, some err)
  | Except.ok client =>
    let authHelpers :=
      match client.AuthHelper with
      | some helper => m1.authHelpers.set account.ID helper
      | none => m1.authHelpers
    ({ m1 with clients := m1.clients.set account.ID client, authHelpers := authHelpers,
               events := m1.events ++
                 [ManagerEvent.register account.ID client, ManagerEvent.start account.ID] },
      none)

/-- The method `Manager.RemoveClient` (manager.go, lines 105-115): the manager after the
call and the error returned, which is always nil. -/
def RemoveClient (m : Manager) (accountID : Nat) : Manager × Option String :=
  match m.clients.get? accountID with
  | some client =>
    let stopped := Stop { client with DB := m.db }
    ({ m with clients := m.clients.delete accountID, db := stopped.DB,
              events := m.events ++ [ManagerEvent.stop accountID stopped] }, none)
  | none => (m, none)

/-- The method `Manager.GetAuthHelper` (manager.go, lines 133-138): the two-valued
lookup in the registry of helpers. -/
def GetAuthHelper (m : Manager) (accountID : Nat) : Option AuthState × Bool :=
  match m.authHelpers.get? accountID with
  | some helper => (some helper, true)
  | none => (none, false)

/-- A call of one of the two methods that change the registry of sessions: `add` is a
call of `AddClient`, `remove` a call of `RemoveClient`. -/
inductive ManagerCall where
  | add (inp : NewClientInput) (account : Account)
  | remove (accountID : Nat)

/-- The manager after a call. -/
def ManagerCall.run (m : Manager) : ManagerCall → Manager
  | ManagerCall.add inp account => (AddClient inp m account).1
  | ManagerCall.remove accountID => (RemoveClient m accountID).1

/-- The manager after a sequence of calls. -/
def runCalls (m : Manager) (calls : List ManagerCall) : Manager :=
  calls.foldl ManagerCall.run m

/-- An outside in which the session directory can be created and the table of
authentication sessions is empty. -/
def exampleNewClientInput : NewClientInput :=
  { mkdirAll := none, authSessions := [], nextID := 1 }

/-- The retried send of one part, seen from the transport: `RetryWithBackoff` run on the
operation that asks the transport for its answer to the next invocation, `n`
invocations of `MessagesSendMessage` having been made before. Gives the number of
invocations made and the error returned (`none` is nil). -/
def transportOutcome (env : Env) (n : Nat) : Nat × Option (RetryError String) :=
  match RetryWithBackoff (fun w => env.ctxDone (n + w)) (fun j => (env.sendResult j, j + 1)) n with
  | some o => (o.calls, o.result)
  | none => (0, none)

/-- The sends of consecutive parts all succeed, the part number `i` at its `ks[i]`-th
invocation, `n` invocations having been made before the first of these parts. -/
def allSucceed (env : Env) : Nat → List Nat → Bool
  | _, [] => true
  | n, k :: ks => decide (transportOutcome env n = (k, none)) && allSucceed env (n + k) ks

/-- A transport that accepts the first invocation and rejects every later one, under a
context that is never cancelled. -/
def firstOnlyEnv : Env :=
  { sendResult := fun n => if n = 0 then none else some "FLOOD_WAIT", ctxDone := fun _ => none }

/-! ## Lemmas on maps and on the buffer -/

theorem GoMap.get?_set_self {K V : Type} [DecidableEq K] (m : GoMap K V) (k : K) (v : V) :
    (m.set k v).get? k = some v := by
  simp [GoMap.get?, GoMap.set]

theorem GoMap.get?_set_ne {K V : Type} [DecidableEq K] (m : GoMap K V) {k k' : K} (v : V)
    (h : k' ≠ k) : (m.set k v).get? k' = m.get? k' := by
  simp [GoMap.get?, GoMap.set, AList.lookup_insert_ne h]

theorem GoMap.getSlice_set_self {K V : Type} [DecidableEq K] (m : GoMap K (List V)) (k : K)
    (v : List V) : (m.set k v).getSlice k = v := by
  simp [GoMap.getSlice, GoMap.get?_set_self]

theorem GoMap.get?_delete_self {K V : Type} [DecidableEq K] (m : GoMap K V) (k : K) :
    (m.delete k).get? k = none := by
  simp [GoMap.get?, GoMap.delete]

theorem GoMap.get?_delete_ne {K V : Type} [DecidableEq K] (m : GoMap K V) {k k' : K}
    (h : k' ≠ k) : (m.delete k).get? k' = m.get? k' := by
  simp [GoMap.get?, GoMap.delete, AList.lookup_erase_ne h]

theorem keepLast_length {α : Type} (n : Nat) (l : List α) :
    (keepLast n l).length = min l.length n := by
  simp [keepLast]; omega

theorem keepLast_snoc {α : Type} (n : Nat) (hn : 0 < n) (l : List α) (x : α) :
    keepLast n (keepLast n l ++ [x]) = keepLast n (l ++ [x]) := by
  unfold keepLast
  by_cases h : l.length ≤ n
  · have h0 : l.length - n = 0 := by omega
    simp [h0]
  · have h1 : (List.drop (l.length - n) l).length = n := by simp; omega
    have h2 : (List.drop (l.length - n) l ++ [x]).length - n = 1 := by simp; omega
    have h3 : (l ++ [x]).length - n = (l.length - n) + 1 := by simp; omega
    rw [h2, h3]
    rw [List.drop_append_of_le_length (by omega), List.drop_append_of_le_length (by omega)]
    rw [List.drop_drop]

theorem keepLast_append_of_le {α : Type} (n : Nat) (init l : List α) (h : n ≤ l.length) :
    keepLast n (init ++ l) = keepLast n l := by
  unfold keepLast
  have h3 : (init ++ l).length - n = init.length + (l.length - n) := by simp; omega
  rw [h3, List.drop_append]

theorem effectiveBufferSize_pos (account : Account) : 0 < effectiveBufferSize account := by
  unfold effectiveBufferSize
  split <;> omega

/-- What `bufferAppend` leaves in the slot of `chatID`. -/
theorem bufferAppend_get?_eff (account : Account)
    (buf : MessageBuffer) (chatID : Int) (text : String) (now : Int) :
    (bufferAppend account buf chatID text now).get? chatID =
      some (keepLast (effectiveBufferSize account).toNat
        (buf.getSlice chatID ++ [{ Content := text, Timestamp := now }])) := by
  have hpos := effectiveBufferSize_pos account
  have hsl : (if buf.get? chatID = none then buf.set chatID [] else buf).getSlice chatID
      = buf.getSlice chatID := by
    by_cases h : buf.get? chatID = none
    · simp [h, GoMap.getSlice, GoMap.get?_set_self]
    · simp [h]
  have hfold : (if account.BufferSize ≤ 0 then (10 : Int) else account.BufferSize)
      = effectiveBufferSize account := rfl
  simp only [bufferAppend, hfold, hsl, GoMap.getSlice_set_self]
  split
  · rename_i hlen
    rw [GoMap.get?_set_self]
    congr 2
    simp only [List.length_append, List.length_singleton] at hlen ⊢
    omega
  · rename_i hlen
    rw [GoMap.get?_set_self]
    have : (buf.getSlice chatID ++ [({ Content := text, Timestamp := now } : BufferedMessage)]).length
        - (effectiveBufferSize account).toNat = 0 := by
      simp only [List.length_append, List.length_singleton] at hlen ⊢
      omega
    rw [keepLast, this, List.drop_zero]

/-- What `bufferAppend` leaves in the slot of `chatID`, for a positive buffer size. -/
theorem bufferAppend_get?_self (account : Account) (hn : 0 < account.BufferSize)
    (buf : MessageBuffer) (chatID : Int) (text : String) (now : Int) :
    (bufferAppend account buf chatID text now).get? chatID =
      some (keepLast account.BufferSize.toNat
        (buf.getSlice chatID ++ [{ Content := text, Timestamp := now }])) := by
  have h : effectiveBufferSize account = account.BufferSize := by
    unfold effectiveBufferSize
    rw [if_neg (by omega)]
  rw [bufferAppend_get?_eff, h]

theorem pollAppend_eq_bufferAppend (account : Account) (buf : MessageBuffer) (chatID : Int)
    (text : String) (now : Int) :
    pollAppend account buf chatID text now = bufferAppend account buf chatID text now := rfl

theorem ingest_getSlice (account : Account) (hn : 0 < account.BufferSize)
    (buf : MessageBuffer) (chatID : Int) (e : Inbound) :
    (ingest account chatID buf e).getSlice chatID =
      keepLast account.BufferSize.toNat
        (buf.getSlice chatID ++ [{ Content := e.text, Timestamp := e.now }]) := by
  unfold ingest
  cases e.via <;>
    simp [pollAppend_eq_bufferAppend, GoMap.getSlice, bufferAppend_get?_self account hn]

theorem ingest_foldl_getSlice (account : Account) (hn : 0 < account.BufferSize)
    (chatID : Int) (events : List Inbound) (hne : events ≠ []) (buf : MessageBuffer) :
    (events.foldl (ingest account chatID) buf).getSlice chatID =
      keepLast account.BufferSize.toNat
        (buf.getSlice chatID ++ events.map Inbound.toBuffered) := by
  induction events using List.reverseRecOn with
  | nil => exact absurd rfl hne
  | append_singleton es e ih =>
    rw [List.foldl_append, List.foldl_cons, List.foldl_nil, ingest_getSlice account hn]
    by_cases hes : es = []
    · subst hes
      simp [Inbound.toBuffered]
    · rw [ih hes, keepLast_snoc _ (by omega)]
      simp [Inbound.toBuffered]

/-! ## Claims -/

/-- C1: with a configured `BufferSize` n > 0, after more than n accepted inbound
messages have been appended to one conversation (through the push sink or the
poller, nothing drained in between) the conversation's buffer holds exactly n
entries, and their texts are the n most recently appended texts in arrival order. -/
theorem C1_buffer_keeps_most_recent (account : Account) (hn : 0 < account.BufferSize)
    (buf : MessageBuffer) (chatID : Int) (events : List Inbound)
    (hm : account.BufferSize < (events.length : Int)) :
    ((events.foldl (ingest account chatID) buf).getSlice chatID).length
        = account.BufferSize.toNat ∧
    ((events.foldl (ingest account chatID) buf).getSlice chatID).map (fun b => b.Content)
        = (events.map (fun e => e.text)).drop (events.length - account.BufferSize.toNat) := by
  have hne : events ≠ [] := by
    intro h
    subst h
    simp at hm
    omega
  have hle : account.BufferSize.toNat ≤ (events.map Inbound.toBuffered).length := by
    simp; omega
  rw [ingest_foldl_getSlice account hn chatID events hne buf,
    keepLast_append_of_le _ _ _ hle]
  constructor
  · rw [keepLast_length]; simp; omega
  · simp [keepLast, List.map_drop, Inbound.toBuffered, Function.comp_def]

/-- Witness of C1: a buffer of size two after three appends. -/
theorem C1_buffer_keeps_most_recent_witness :
    ((exampleInbound.foldl (ingest exampleAccount 7) ∅).getSlice 7).length = 2 ∧
    ((exampleInbound.foldl (ingest exampleAccount 7) ∅).getSlice 7).map (fun b => b.Content)
      = ["b", "c"] :=
  C1_buffer_keeps_most_recent exampleAccount (by decide) ∅ 7 exampleInbound (by decide)

/-! ### Drain -/

theorem drainStep_fst_get? (acc : MessageBuffer × MessageBuffer)
    (e : Sigma (fun _ : Int => List BufferedMessage)) (k : Int) :
    (drainStep acc e).1.get? k
      = if k = e.1 then pickNonEmpty (some e.2) (acc.1.get? k) else acc.1.get? k := by
  obtain ⟨c, msgs⟩ := e
  cases msgs with
  | nil => simp [drainStep, pickNonEmpty]
  | cons x xs =>
    by_cases h : k = c
    · subst h
      simp [drainStep, pickNonEmpty, GoMap.get?_set_self]
    · simp [drainStep, h, GoMap.get?_set_ne _ _ h]

theorem drainStep_snd_get? (acc : MessageBuffer × MessageBuffer)
    (e : Sigma (fun _ : Int => List BufferedMessage)) (k : Int) :
    (drainStep acc e).2.get? k
      = if k = e.1 then clearNonEmpty (some e.2) (acc.2.get? k) else acc.2.get? k := by
  obtain ⟨c, msgs⟩ := e
  cases msgs with
  | nil => simp [drainStep, clearNonEmpty]
  | cons x xs =>
    by_cases h : k = c
    · subst h
      simp [drainStep, clearNonEmpty, GoMap.get?_set_self]
    · simp [drainStep, h, GoMap.get?_set_ne _ _ h]

theorem drain_foldl_fst (l : List (Sigma (fun _ : Int => List BufferedMessage)))
    (hl : l.NodupKeys) (acc : MessageBuffer × MessageBuffer) (k : Int) :
    (l.foldl drainStep acc).1.get? k = pickNonEmpty (l.dlookup k) (acc.1.get? k) := by
  induction l generalizing acc with
  | nil => simp [pickNonEmpty]
  | cons e l ih =>
    rw [List.nodupKeys_cons] at hl
    rw [List.foldl_cons, ih hl.2, drainStep_fst_get?]
    by_cases h : k = e.1
    · subst h
      have hnone : List.dlookup e.1 l = none := List.dlookup_eq_none.2 hl.1
      obtain ⟨c, msgs⟩ := e
      simp [hnone, pickNonEmpty, List.dlookup_cons_eq]
    · obtain ⟨c, msgs⟩ := e
      simp [h, List.dlookup_cons_ne l ⟨c, msgs⟩ h]

theorem drain_foldl_snd (l : List (Sigma (fun _ : Int => List BufferedMessage)))
    (hl : l.NodupKeys) (acc : MessageBuffer × MessageBuffer) (k : Int) :
    (l.foldl drainStep acc).2.get? k = clearNonEmpty (l.dlookup k) (acc.2.get? k) := by
  induction l generalizing acc with
  | nil => simp [clearNonEmpty]
  | cons e l ih =>
    rw [List.nodupKeys_cons] at hl
    rw [List.foldl_cons, ih hl.2, drainStep_snd_get?]
    by_cases h : k = e.1
    · subst h
      have hnone : List.dlookup e.1 l = none := List.dlookup_eq_none.2 hl.1
      obtain ⟨c, msgs⟩ := e
      simp [hnone, clearNonEmpty, List.dlookup_cons_eq]
    · obtain ⟨c, msgs⟩ := e
      simp [h, List.dlookup_cons_ne l ⟨c, msgs⟩ h]

/-- The drained map holds exactly the non-empty sequences of the buffer. -/
theorem drainBuffers_fst_get? (buf : MessageBuffer) (k : Int) :
    (drainBuffers buf).1.get? k = pickNonEmpty (buf.get? k) none := by
  unfold drainBuffers
  rw [drain_foldl_fst _ buf.nodupKeys]
  rfl

/-- The buffer left behind: every non-empty sequence is replaced by an empty one. -/
theorem drainBuffers_snd_get? (buf : MessageBuffer) (k : Int) :
    (drainBuffers buf).2.get? k = clearNonEmpty (buf.get? k) (buf.get? k) := by
  unfold drainBuffers
  rw [drain_foldl_snd _ buf.nodupKeys]
  rfl

theorem drain_foldl_of_all_empty (l : List (Sigma (fun _ : Int => List BufferedMessage)))
    (hl : ∀ e ∈ l, e.2 = []) (acc : MessageBuffer × MessageBuffer) :
    l.foldl drainStep acc = acc := by
  induction l generalizing acc with
  | nil => rfl
  | cons e l ih =>
    have he : e.2 = [] := hl e (List.mem_cons_self _ _)
    have hstep : drainStep acc e = acc := by simp [drainStep, he]
    rw [List.foldl_cons, hstep]
    exact ih (fun e' h' => hl e' (List.mem_cons_of_mem _ h')) acc

theorem drainBuffers_snd_all_empty (buf : MessageBuffer) (k : Int)
    (v : List BufferedMessage) (h : (drainBuffers buf).2.get? k = some v) : v = [] := by
  rw [drainBuffers_snd_get?] at h
  cases hb : buf.get? k with
  | none => simp [hb, clearNonEmpty] at h
  | some l =>
    cases l with
    | nil => simp [hb, clearNonEmpty] at h; exact h
    | cons x xs => simp [hb, clearNonEmpty] at h; exact h

/-- C2: the drain step of `processBufferedMessages` returns a map whose keys are exactly
the conversations that held at least one buffered message, each bound to the complete
buffered sequence in its original order; conversations without buffered messages are
left out, and a drain repeated at once returns the empty map. -/
theorem C2_drain_returns_nonempty_conversations (buf : MessageBuffer) :
    (∀ (chatID : Int) (msgs : List BufferedMessage),
      (drainBuffers buf).1.get? chatID = some msgs ↔
        (buf.get? chatID = some msgs ∧ msgs ≠ [])) ∧
    (drainBuffers (drainBuffers buf).2).1 = ∅ := by
  constructor
  · intro chatID msgs
    rw [drainBuffers_fst_get?]
    cases hb : buf.get? chatID with
    | none => simp [pickNonEmpty]
    | some l =>
      cases l with
      | nil =>
        simp only [pickNonEmpty]
        constructor
        · intro h; cases h
        · rintro ⟨h1, h2⟩
          cases h1
          exact absurd rfl h2
      | cons x xs =>
        simp only [pickNonEmpty]
        constructor
        · intro h
          cases h
          exact ⟨rfl, by simp⟩
        · rintro ⟨h1, _⟩
          exact h1
  · have hall : ∀ e ∈ (drainBuffers buf).2.entries, e.2 = [] := by
      intro e he
      obtain ⟨c, v⟩ := e
      have hlk : (drainBuffers buf).2.get? c = some v := by
        have := (AList.mem_lookup_iff (s := (drainBuffers buf).2) (a := c) (b := v)).2 he
        exact this
      exact drainBuffers_snd_all_empty buf c v hlk
    show (List.foldl drainStep (∅, (drainBuffers buf).2) (drainBuffers buf).2.entries).1 = ∅
    rw [drain_foldl_of_all_empty _ hall]

theorem ingest_get?_eff (account : Account) (buf : MessageBuffer) (chatID : Int) (e : Inbound) :
    (ingest account chatID buf e).get? chatID =
      some (keepLast (effectiveBufferSize account).toNat
        (buf.getSlice chatID ++ [e.toBuffered])) := by
  unfold ingest
  cases e.via <;>
    simp [pollAppend_eq_bufferAppend, bufferAppend_get?_eff, Inbound.toBuffered]

theorem keepLast_snoc_ne_nil {α : Type} (n : Nat) (hn : 0 < n) (l : List α) (x : α) :
    keepLast n (l ++ [x]) ≠ [] := by
  intro h
  have hlen := keepLast_length n (l ++ [x])
  rw [h] at hlen
  simp at hlen
  omega

theorem ingest_foldl_get?_ne_nil (account : Account) (chatID : Int) (events : List Inbound)
    (hne : events ≠ []) (buf : MessageBuffer) :
    ∃ x xs, (events.foldl (ingest account chatID) buf).get? chatID = some (x :: xs) := by
  induction events using List.reverseRecOn with
  | nil => exact absurd rfl hne
  | append_singleton es e _ =>
    rw [List.foldl_append, List.foldl_cons, List.foldl_nil, ingest_get?_eff]
    have hpos := effectiveBufferSize_pos account
    have hnn := keepLast_snoc_ne_nil (effectiveBufferSize account).toNat (by omega)
      ((es.foldl (ingest account chatID) buf).getSlice chatID) e.toBuffered
    cases hk : keepLast (effectiveBufferSize account).toNat
        ((es.foldl (ingest account chatID) buf).getSlice chatID ++ [e.toBuffered]) with
    | nil => exact absurd hk hnn
    | cons x xs => exact ⟨x, xs, rfl⟩

theorem drainBuffers_snd_getSlice (buf : MessageBuffer) (k : Int) :
    (drainBuffers buf).2.getSlice k = [] := by
  unfold GoMap.getSlice
  cases h : (drainBuffers buf).2.get? k with
  | none => rfl
  | some v => simp [drainBuffers_snd_all_empty buf k v h]

/-- A drained buffer hands nothing over at the next drain. -/
theorem drainBuffers_twice_get? (buf : MessageBuffer) (k : Int) :
    (drainBuffers (drainBuffers buf).2).1.get? k = none := by
  rw [drainBuffers_fst_get?]
  cases h : (drainBuffers buf).2.get? k with
  | none => rfl
  | some v =>
    rw [drainBuffers_snd_all_empty buf k v h]
    rfl

/-- The drain keeps the key of a conversation that held messages, bound to the empty
sequence (client_v2.go, line 455); no read of the buffer tells this from a missing
key. -/
theorem drainBuffers_keeps_slot (account : Account) (buf : MessageBuffer) (chatID : Int)
    (events : List Inbound) (hne : events ≠ []) :
    (drainBuffers (events.foldl (ingest account chatID) buf)).2.get? chatID = some [] := by
  obtain ⟨x, xs, hx⟩ := ingest_foldl_get?_ne_nil account chatID events hne buf
  rw [drainBuffers_snd_get?, hx]
  rfl

/-- C3: for every sequence of appends to a conversation's buffer, after the drain step
the conversation is absent from the buffer: nothing is buffered for it, the next drain
hands nothing over for it, and an append finds the buffer as if the conversation's key
had been deleted from it. A subsequent append to that conversation starts a fresh
sequence: its slot then holds exactly the one newly appended message and none of the
drained ones. -/
theorem C3_drain_then_append_starts_fresh (account : Account) (buf : MessageBuffer)
    (chatID : Int) (events : List Inbound) (e : Inbound) :
    (drainBuffers (events.foldl (ingest account chatID) buf)).2.getSlice chatID = [] ∧
    (drainBuffers (drainBuffers (events.foldl (ingest account chatID) buf)).2).1.get? chatID
      = none ∧
    (ingest account chatID (drainBuffers (events.foldl (ingest account chatID) buf)).2 e).get?
        chatID
      = (ingest account chatID
          ((drainBuffers (events.foldl (ingest account chatID) buf)).2.delete chatID) e).get?
          chatID ∧
    (ingest account chatID (drainBuffers (events.foldl (ingest account chatID) buf)).2 e).get?
      chatID = some [e.toBuffered] := by
  have hfresh : ∀ b : MessageBuffer, b.getSlice chatID = [] →
      (ingest account chatID b e).get? chatID = some [e.toBuffered] := by
    intro b hb
    rw [ingest_get?_eff, hb]
    have hpos := effectiveBufferSize_pos account
    have h0 : ([] ++ [e.toBuffered]).length - (effectiveBufferSize account).toNat = 0 := by
      simp; omega
    rw [keepLast, h0, List.drop_zero, List.nil_append]
  have hdel : ((drainBuffers (events.foldl (ingest account chatID) buf)).2.delete
      chatID).getSlice chatID = [] := by
    simp [GoMap.getSlice, GoMap.get?_delete_self]
  refine ⟨drainBuffers_snd_getSlice _ _, drainBuffers_twice_get? _ _, ?_, ?_⟩
  · rw [hfresh _ (drainBuffers_snd_getSlice _ _), hfresh _ hdel]
  · exact hfresh _ (drainBuffers_snd_getSlice _ _)

/-- Witness of C3: three appends, a drain, one more append. -/
theorem C3_drain_then_append_starts_fresh_witness :
    (drainBuffers (exampleInbound.foldl (ingest exampleAccount 7) ∅)).2.getSlice 7 = [] ∧
    (drainBuffers (drainBuffers (exampleInbound.foldl (ingest exampleAccount 7) ∅)).2).1.get? 7
      = none ∧
    (ingest exampleAccount 7 (drainBuffers (exampleInbound.foldl (ingest exampleAccount 7) ∅)).2
      { via := Source.poller, text := "d", now := 9 }).get? 7
      = some [{ Content := "d", Timestamp := 9 }] :=
  ⟨(C3_drain_then_append_starts_fresh exampleAccount ∅ 7 exampleInbound
      { via := Source.poller, text := "d", now := 9 }).1,
   (C3_drain_then_append_starts_fresh exampleAccount ∅ 7 exampleInbound
      { via := Source.poller, text := "d", now := 9 }).2.1,
   (C3_drain_then_append_starts_fresh exampleAccount ∅ 7 exampleInbound
      { via := Source.poller, text := "d", now := 9 }).2.2.2⟩

/-! ### Retry -/

theorem resultAt_succ {σ ε : Type} (fn : σ → Option ε × σ) (s : σ) (j : Nat) :
    resultAt fn s (j + 1) = resultAt fn (fn s).2 j := rfl

/-- The loop, started with `d` failing invocations ahead of a successful one. -/
theorem retryLoop_success {σ ε : Type} (fn : σ → Option ε × σ) (config : RetryConfig)
    (d : Nat) : ∀ (fuel i : Nat) (delay : Int) (lastErr : Option ε) (s : σ) (calls : Nat)
      (waits : List Int),
      ((i : Int) + d < config.MaxRetries) → d + 1 ≤ fuel →
      (∀ j, j < d → resultAt fn s j ≠ none) → resultAt fn s d = none →
      ∃ o, retryLoop fn neverCancelled config fuel i delay lastErr s calls waits = some o ∧
        o.result = none ∧ o.calls = calls + d + 1 ∧ o.state = stateAfter fn s (d + 1) := by
  induction d with
  | zero =>
    intro fuel i delay lastErr s calls waits hi hfuel _ hok
    obtain ⟨f, rfl⟩ : ∃ f, fuel = f + 1 := ⟨fuel - 1, by omega⟩
    have hi' : (i : Int) < config.MaxRetries := by omega
    have hfn : (fn s).1 = none := hok
    rcases hfs : fn s with ⟨r, s1⟩
    rw [hfs] at hfn
    simp only at hfn
    subst hfn
    refine ⟨{ result := none, state := s1, calls := calls + 1, waits := waits },
      ?_, rfl, rfl, ?_⟩
    · simp only [retryLoop, hi', if_true, hfs]
    · simp [stateAfter, hfs]
  | succ d ih =>
    intro fuel i delay lastErr s calls waits hi hfuel hfail hok
    obtain ⟨f, rfl⟩ : ∃ f, fuel = f + 1 := ⟨fuel - 1, by omega⟩
    have hi' : (i : Int) < config.MaxRetries := by omega
    have hi'' : (i : Int) < config.MaxRetries - 1 := by omega
    have h0 : (fn s).1 ≠ none := hfail 0 (by omega)
    rcases hfs : fn s with ⟨r, s1⟩
    rw [hfs] at h0
    cases r with
    | none => exact absurd rfl h0
    | some err =>
      have hs1 : s1 = (fn s).2 := by rw [hfs]
      obtain ⟨o, ho, h1, h2, h3⟩ := ih f (i + 1)
        (if config.Multiplier.scale delay > config.MaxDelay then config.MaxDelay
          else config.Multiplier.scale delay)
        (some err) s1 (calls + 1) (waits ++ [delay])
        (by push_cast; omega) (by omega)
        (fun j hj => by rw [hs1, ← resultAt_succ]; exact hfail (j + 1) (by omega))
        (by rw [hs1, ← resultAt_succ]; exact hok)
      refine ⟨o, ?_, h1, by omega, ?_⟩
      · simp only [retryLoop, hi', hi'', if_true, hfs, neverCancelled]
        exact ho
      · rw [h3, hs1]
        rfl

/-- The loop, started with exactly `d` attempts left, all of them failing. -/
theorem retryLoop_exhausted {σ ε : Type} (fn : σ → Option ε × σ) (config : RetryConfig)
    (d : Nat) : ∀ (fuel i : Nat) (delay : Int) (lastErr : Option ε) (s : σ) (calls : Nat)
      (waits : List Int),
      ((i : Int) + d = config.MaxRetries) → d + 1 ≤ fuel →
      (∀ j, j < d → resultAt fn s j ≠ none) →
      ∃ o, retryLoop fn neverCancelled config fuel i delay lastErr s calls waits = some o ∧
        o.result = some (RetryError.exhausted config.MaxRetries
          (if d = 0 then lastErr else resultAt fn s (d - 1))) ∧
        o.calls = calls + d ∧ o.state = stateAfter fn s d := by
  induction d with
  | zero =>
    intro fuel i delay lastErr s calls waits hi hfuel _
    obtain ⟨f, rfl⟩ : ∃ f, fuel = f + 1 := ⟨fuel - 1, by omega⟩
    have hi' : ¬ (i : Int) < config.MaxRetries := by omega
    exact ⟨{ result := some (RetryError.exhausted config.MaxRetries lastErr), state := s,
             calls := calls, waits := waits },
      by simp only [retryLoop, hi', if_false], rfl, rfl, rfl⟩
  | succ d ih =>
    intro fuel i delay lastErr s calls waits hi hfuel hfail
    obtain ⟨f, rfl⟩ : ∃ f, fuel = f + 1 := ⟨fuel - 1, by omega⟩
    have hi' : (i : Int) < config.MaxRetries := by omega
    have h0 : (fn s).1 ≠ none := hfail 0 (by omega)
    have hr0 : resultAt fn s 0 = (fn s).1 := rfl
    rcases hfs : fn s with ⟨r, s1⟩
    rw [hfs] at h0 hr0
    cases r with
    | none => exact absurd rfl h0
    | some err =>
      have hs1 : s1 = (fn s).2 := by rw [hfs]
      have hfail' : ∀ j, j < d → resultAt fn s1 j ≠ none :=
        fun j hj => by rw [hs1, ← resultAt_succ]; exact hfail (j + 1) (by omega)
      have hlast : (if d = 0 then some err else resultAt fn s1 (d - 1))
          = resultAt fn s (d + 1 - 1) := by
        by_cases hd : d = 0
        · subst hd
          simp [hr0]
        · obtain ⟨d', rfl⟩ : ∃ d', d = d' + 1 := ⟨d - 1, by omega⟩
          simp only [Nat.add_one_ne_zero, if_false, Nat.add_sub_cancel]
          rw [hs1, ← resultAt_succ]
      by_cases hw : (i : Int) < config.MaxRetries - 1
      · obtain ⟨o, ho, h1, h2, h3⟩ := ih f (i + 1)
          (if config.Multiplier.scale delay > config.MaxDelay then config.MaxDelay
            else config.Multiplier.scale delay)
          (some err) s1 (calls + 1) (waits ++ [delay])
          (by push_cast; omega) (by omega) hfail'
        refine ⟨o, ?_, ?_, by omega, ?_⟩
        · simp only [retryLoop, hi', hw, if_true, hfs, neverCancelled]
          exact ho
        · rw [h1, hlast]
          simp
        · rw [h3, hs1]
          rfl
      · obtain ⟨o, ho, h1, h2, h3⟩ := ih f (i + 1) delay (some err) s1 (calls + 1) waits
          (by push_cast; omega) (by omega) hfail'
        refine ⟨o, ?_, ?_, by omega, ?_⟩
        · simp only [retryLoop, hi', hw, if_true, if_false, hfs]
          exact ho
        · rw [h1, hlast]
          simp
        · rw [h3, hs1]
          rfl

/-- C4: with `MaxRetries` = n >= 1 and k < n, for an operation that fails on its first
k invocations and succeeds on invocation k+1, `Retry` under a context that is never
cancelled returns nil after exactly k+1 invocations: the operation has been run k+1
times and not once more. -/
theorem C4_retry_succeeds_after_k_failures {σ ε : Type} (fn : σ → Option ε × σ)
    (config : RetryConfig) (s : σ) (k : Nat) (hn : 1 ≤ config.MaxRetries)
    (hk : (k : Int) < config.MaxRetries)
    (hfail : ∀ j, j < k → resultAt fn s j ≠ none) (hok : resultAt fn s k = none) :
    ∃ o, Retry neverCancelled fn config s = some o ∧ o.result = none ∧
      o.calls = k + 1 ∧ o.state = stateAfter fn s (k + 1) := by
  obtain ⟨o, ho, h1, h2, h3⟩ := retryLoop_success fn config k
    (config.MaxRetries.toNat + 1) 0 config.InitialDelay none s 0 []
    (by push_cast; omega) (by omega) hfail hok
  exact ⟨o, ho, h1, by omega, h3⟩

/-- Witness of C4: two failures, then success, under the default configuration. -/
theorem C4_retry_succeeds_after_k_failures_witness :
    ∃ o, Retry neverCancelled (failFirst 2) DefaultRetryConfig 0 = some o ∧ o.result = none ∧
      o.calls = 3 ∧ o.state = 3 :=
  C4_retry_succeeds_after_k_failures (failFirst 2) DefaultRetryConfig 0 2
    (by decide) (by decide) (by decide) (by decide)

/-- C5: with `MaxRetries` = n >= 1, for an operation that fails on every invocation,
`Retry` under a context that is never cancelled invokes the operation exactly n times
and returns the retries-exhausted error wrapping the error of the n-th invocation. -/
theorem C5_retry_exhausted_wraps_last_error {σ ε : Type} (fn : σ → Option ε × σ)
    (config : RetryConfig) (s : σ) (hn : 1 ≤ config.MaxRetries)
    (hfail : ∀ j, j < config.MaxRetries.toNat → resultAt fn s j ≠ none) :
    ∃ o, Retry neverCancelled fn config s = some o ∧
      o.result = some (RetryError.exhausted config.MaxRetries
        (resultAt fn s (config.MaxRetries.toNat - 1))) ∧
      o.calls = config.MaxRetries.toNat ∧
      o.state = stateAfter fn s config.MaxRetries.toNat := by
  obtain ⟨o, ho, h1, h2, h3⟩ := retryLoop_exhausted fn config config.MaxRetries.toNat
    (config.MaxRetries.toNat + 1) 0 config.InitialDelay none s 0 []
    (by push_cast; omega) (by omega) hfail
  have hne : config.MaxRetries.toNat ≠ 0 := by omega
  rw [if_neg hne] at h1
  exact ⟨o, ho, h1, by omega, h3⟩

/-- Witness of C5: three failing attempts under the default configuration; the error
wrapped is the third one. -/
theorem C5_retry_exhausted_wraps_last_error_witness :
    ∃ o, Retry neverCancelled alwaysFail DefaultRetryConfig 0 = some o ∧
      o.result = some (RetryError.exhausted 3 (some 3)) ∧ o.calls = 3 ∧ o.state = 3 :=
  C5_retry_exhausted_wraps_last_error alwaysFail DefaultRetryConfig 0
    (by decide) (by decide)

/-! ### AuthHandshake -/

/-- C6, as the claim states it, fails: on a freshly created helper with no `Code` wait
pending, `SubmitCode` returns nil (not the submission-timeout error) and the code
stays queued in the channel, where a `Code` wait started later receives it at once;
the same happens with `SubmitPassword` and `Password`. -/
theorem C6_submit_without_waiter_is_queued :
    (SubmitCode (NewAuthHelper exampleAccount [] 1) "12345").returns
      = [AuthReturn.SubmitCode none] ∧
    (SubmitCode (NewAuthHelper exampleAccount [] 1) "12345").codeChan = ["12345"] ∧
    (Code (SubmitCode (NewAuthHelper exampleAccount [] 1) "12345") 0).returns
      = [AuthReturn.SubmitCode none, AuthReturn.Code "12345" none] ∧
    (SubmitPassword (NewAuthHelper exampleAccount [] 1) "secret").returns
      = [AuthReturn.SubmitPassword none] ∧
    (SubmitPassword (NewAuthHelper exampleAccount [] 1) "secret").passwordChan = ["secret"] ∧
    (Password (SubmitPassword (NewAuthHelper exampleAccount [] 1) "secret") 0).returns
      = [AuthReturn.SubmitPassword none, AuthReturn.Password "secret" none] := by
  decide

/-- C6 (amended): on a freshly created `AuthHelper` with no `Code` wait pending,
`SubmitCode` returns nil and leaves the code queued in the one-slot channel, and a
`Code` wait started later receives exactly that code at once. The submission-timeout
error is what a further `SubmitCode` returns when the slot is still occupied and no
waiter frees it within the five seconds; that second code is not queued. The same
holds for `SubmitPassword` and the password step. -/
theorem C6_submit_on_fresh_helper (account : Account) (db : List AuthSession) (nextID : Nat)
    (code code2 : String) (now : Int) :
    ((SubmitCode (NewAuthHelper account db nextID) code).returns
        = [AuthReturn.SubmitCode none] ∧
      (SubmitCode (NewAuthHelper account db nextID) code).codeChan = [code] ∧
      (Code (SubmitCode (NewAuthHelper account db nextID) code) now).returns
        = [AuthReturn.SubmitCode none, AuthReturn.Code code none] ∧
      (SubmitCodeTimeout (SubmitCode (SubmitCode (NewAuthHelper account db nextID) code)
          code2)).returns
        = [AuthReturn.SubmitCode none, AuthReturn.SubmitCode (some AuthError.submitCodeTimeout)] ∧
      (SubmitCodeTimeout (SubmitCode (SubmitCode (NewAuthHelper account db nextID) code)
          code2)).codeChan = [code]) ∧
    ((SubmitPassword (NewAuthHelper account db nextID) code).returns
        = [AuthReturn.SubmitPassword none] ∧
      (SubmitPassword (NewAuthHelper account db nextID) code).passwordChan = [code] ∧
      (Password (SubmitPassword (NewAuthHelper account db nextID) code) now).returns
        = [AuthReturn.SubmitPassword none, AuthReturn.Password code none] ∧
      (SubmitPasswordTimeout (SubmitPassword (SubmitPassword (NewAuthHelper account db nextID)
          code) code2)).returns
        = [AuthReturn.SubmitPassword none,
           AuthReturn.SubmitPassword (some AuthError.submitPasswordTimeout)] ∧
      (SubmitPasswordTimeout (SubmitPassword (SubmitPassword (NewAuthHelper account db nextID)
          code) code2)).passwordChan = [code]) := by
  refine ⟨⟨?_, ?_, ?_, ?_, ?_⟩, ⟨?_, ?_, ?_, ?_, ?_⟩⟩ <;>
    simp [SubmitCode, SubmitCodeTimeout, Code, codeReceived, SubmitPassword,
      SubmitPasswordTimeout, Password, NewAuthHelper, chanCapacity]

theorem dbSave_mem (db : List AuthSession) (row r : AuthSession) (h : r ∈ dbSave db row) :
    r = row ∨ (r ∈ db ∧ r.ID ≠ row.ID) := by
  unfold dbSave at h
  split at h
  · rw [List.mem_map] at h
    obtain ⟨r0, hr0, hr⟩ := h
    by_cases hid : r0.ID = row.ID
    · left
      simp [hid] at hr
      exact hr.symm
    · right
      simp [hid] at hr
      subst hr
      exact ⟨hr0, hid⟩
  · rw [List.mem_append] at h
    rcases h with h | h
    · right
      rename_i hany
      refine ⟨h, ?_⟩
      intro hid
      apply hany
      rw [List.any_eq_true]
      exact ⟨r, h, by simp [hid]⟩
    · left
      simpa using h

theorem dbSave_row_mem (db : List AuthSession) (row old : AuthSession) (hold : old ∈ db)
    (hid : old.ID = row.ID) : row ∈ dbSave db row := by
  unfold dbSave
  have hany : (db.any (fun r => decide (r.ID = row.ID))) = true := by
    rw [List.any_eq_true]
    exact ⟨old, hold, by simp [hid]⟩
  rw [if_pos hany, List.mem_map]
  exact ⟨old, hold, by simp [hid]⟩

/-- C7: when `Code` is blocked waiting (it found no code queued) and `SubmitCode c` is
called before the wait times out or is cancelled, `SubmitCode` returns nil and `Code`
returns exactly `(c, nil)`, and the session the store holds for the account is then
marked `completed`. -/
theorem C7_submit_unblocks_waiting_code (st : AuthState) (now : Int) (c : String)
    (hempty : st.codeChan = []) :
    (Code st now).codeWaiter ≠ none ∧ (Code st now).returns = st.returns ∧
    (SubmitCode (Code st now) c).returns
      = st.returns ++ [AuthReturn.SubmitCode none, AuthReturn.Code c none] ∧
    (SubmitCode (Code st now) c).codeWaiter = none ∧
    (SubmitCode (Code st now) c).codeChan = [] ∧
    (∃ r ∈ (SubmitCode (Code st now) c).db, r.AccountID = st.accountID) ∧
    (∀ r ∈ (SubmitCode (Code st now) c).db, r.AccountID = st.accountID →
      r.State = "completed") := by
  have hcode : Code st now =
      { st with
        db := st.db.filter (fun r => r.AccountID ≠ st.accountID) ++ [waitingCodeSession st now],
        nextID := st.nextID + 1,
        codeWaiter := some (waitingCodeSession st now) } := by
    simp [Code, hempty]
  rw [hcode]
  refine ⟨by simp, rfl, by simp [SubmitCode, codeReceived], by simp [SubmitCode, codeReceived],
    by simp [SubmitCode, codeReceived, hempty], ?_, ?_⟩
  · refine ⟨{ waitingCodeSession st now with State := "completed" }, ?_, rfl⟩
    simp only [SubmitCode, codeReceived]
    exact dbSave_row_mem _ _ (waitingCodeSession st now) (by simp) rfl
  · intro r hr hacc
    simp only [SubmitCode, codeReceived] at hr
    rcases dbSave_mem _ _ _ hr with h | ⟨h, hid⟩
    · rw [h]
    · rw [List.mem_append] at h
      rcases h with h | h
      · rw [List.mem_filter] at h
        simp at h
        exact absurd hacc h.2
      · simp at h
        rw [h] at hid
        exact absurd rfl hid

/-- Witness of C7: a `Code` wait on a fresh helper, then the submission of "12345". -/
theorem C7_submit_unblocks_waiting_code_witness :
    (SubmitCode (Code (NewAuthHelper exampleAccount [] 1) 0) "12345").returns
      = [AuthReturn.SubmitCode none, AuthReturn.Code "12345" none] ∧
    (SubmitCode (Code (NewAuthHelper exampleAccount [] 1) 0) "12345").db
      = [{ ID := 1, AccountID := 1, PhoneNumber := "+10000000000", State := "completed",
           CodeHash := "", Password := "", ExpiresAt := fiveMinutes, CreatedAt := 0 }] :=
  ⟨(C7_submit_unblocks_waiting_code (NewAuthHelper exampleAccount [] 1) 0 "12345" rfl).2.2.1,
   by decide⟩

/-! ### Eligibility gates -/

/-- C8: whatever was buffered for it, a drained conversation with no assignment for this
account (no group record, or no account-group row), or with a disabled assignment, is
not selected for reply: its cycle leaves the session exactly as it was, so no generation
call and no send is logged and its last-reply time and history are unchanged. -/
theorem C8_unassigned_conversation_is_skipped (env : Env) (inp : ConvInput) (c : ClientV2)
    (chatID : Int) (messages : List BufferedMessage)
    (h : c.DB.groupByChatID chatID = none ∨
      (∃ g, c.DB.groupByChatID chatID = some g ∧ c.DB.accountGroup c.Account.ID g.ID = none) ∨
      (∃ ag, getGroupAssignment c chatID = some ag ∧ ag.Enabled = false)) :
    processConversation env inp c chatID messages = some c := by
  unfold processConversation
  split
  · rfl
  · rcases h with h | ⟨g, hg, hag⟩ | ⟨ag, hag, hen⟩
    · simp [getGroupAssignment, h]
    · simp [getGroupAssignment, hg, hag]
    · simp [hag, hen]

/-- Witness of C8: conversation 9 has no group record, conversation 8 is assigned but
disabled; neither cycle changes the session. -/
theorem C8_unassigned_conversation_is_skipped_witness :
    processConversation exampleEnv (exampleInput 0 "hi") exampleClient 9
        [{ Content := "hello", Timestamp := 0 }] = some exampleClient ∧
    processConversation exampleEnv (exampleInput 0 "hi") exampleClient 8
        [{ Content := "hello", Timestamp := 0 }] = some exampleClient :=
  ⟨C8_unassigned_conversation_is_skipped exampleEnv (exampleInput 0 "hi") exampleClient 9
      [{ Content := "hello", Timestamp := 0 }] (Or.inl (by decide)),
   C8_unassigned_conversation_is_skipped exampleEnv (exampleInput 0 "hi") exampleClient 8
      [{ Content := "hello", Timestamp := 0 }]
      (Or.inr (Or.inr ⟨_, rfl, rfl⟩))⟩

/-- C9: with a configured `ReplyInterval` r > 0, a conversation whose last reply was
r-1 seconds ago fails the interval gate, one whose last reply was r seconds ago or
longer passes it, and one with no recorded last-reply time always passes it; a
conversation that passed the assignment and auto-reply gates and fails the interval
gate is skipped, its cycle leaving the session as it was. -/
theorem C9_interval_gate (c : ClientV2) (chatID : Int) (now : Int)
    (hr : 0 < c.Account.ReplyInterval) :
    (∀ lastTime, c.LastReplyTime.get? chatID = some lastTime →
      (now - lastTime = (c.Account.ReplyInterval - 1) * 1000000000 →
        intervalGate c chatID now = false) ∧
      (c.Account.ReplyInterval * 1000000000 ≤ now - lastTime →
        intervalGate c chatID now = true)) ∧
    (c.LastReplyTime.get? chatID = none → intervalGate c chatID now = true) ∧
    (∀ (env : Env) (inp : ConvInput) (messages : List BufferedMessage) (ag : AccountGroup),
      getGroupAssignment c chatID = some ag → ag.Enabled = true →
      c.Account.AutoReply = true → intervalGate c chatID inp.nowGate = false →
      processConversation env inp c chatID messages = some c) := by
  have heff : effectiveReplyInterval c.Account = c.Account.ReplyInterval := by
    unfold effectiveReplyInterval
    rw [if_neg (by omega)]
  refine ⟨?_, ?_, ?_⟩
  · intro lastTime hlast
    constructor
    · intro hago
      simp only [intervalGate, hlast, heff]
      rw [if_pos (by omega)]
    · intro hago
      simp only [intervalGate, hlast, heff]
      rw [if_neg (by omega)]
  · intro hnone
    simp only [intervalGate, hnone]
  · intro env inp messages ag hag hen hauto hgate
    unfold processConversation
    split
    · rfl
    · simp [hag, hen, hauto, hgate]

/-- Witness of C9: interval 60 s, last reply at time 0; the gate is closed 59 s later,
open 60 s later, and open for conversation 9, which has no last-reply time. -/
theorem C9_interval_gate_witness :
    intervalGate exampleClient 7 59000000000 = false ∧
    intervalGate exampleClient 7 60000000000 = true ∧
    intervalGate exampleClient 9 0 = true :=
  ⟨((C9_interval_gate exampleClient 7 59000000000 (by decide)).1 0 (by decide)).1 (by decide),
   ((C9_interval_gate exampleClient 7 60000000000 (by decide)).1 0 (by decide)).2 (by decide),
   (C9_interval_gate exampleClient 9 0 (by decide)).2.1 (by decide)⟩

/-! ### Split-send -/

theorem utf8Size_of_ascii (c : Char) (h : c.toNat < 128) : c.utf8Size = 1 := by
  have hle : c.val ≤ UInt32.ofNatCore 0x7F (by decide) := by
    show c.val.toNat ≤ 127
    unfold Char.toNat at h
    omega
  unfold Char.utf8Size
  exact if_pos hle

theorem utf8Len_of_ascii (l : List Char) (h : ∀ ch ∈ l, ch.toNat < 128) :
    String.utf8Len l = l.length := by
  induction l with
  | nil => rfl
  | cons c cs ih =>
    rw [String.utf8Len_cons, ih (fun ch hch => h ch (List.mem_cons_of_mem _ hch)),
      utf8Size_of_ascii c (h c (List.mem_cons_self _ _)), List.length_cons]

theorem isASCII_iff (s : String) : isASCII s = true ↔ ∀ ch ∈ s.data, ch.toNat < 128 := by
  simp [isASCII, List.all_eq_true]

/-- On ASCII text the byte length `len` is the number of characters. -/
theorem len_of_ascii (s : String) (h : isASCII s = true) : len s = s.length := by
  rw [isASCII_iff] at h
  show String.utf8Len s.data = s.data.length
  exact utf8Len_of_ascii s.data h

theorem isASCII_append (a b : String) (ha : isASCII a = true) (hb : isASCII b = true) :
    isASCII (a ++ b) = true := by
  rw [isASCII_iff] at *
  intro ch hch
  rw [String.data_append, List.mem_append] at hch
  rcases hch with h | h
  · exact ha ch h
  · exact hb ch h

theorem string_ne_empty_iff (s : String) : s ≠ "" ↔ s.data ≠ [] := by
  constructor
  · intro h hd
    apply h
    exact String.ext hd
  · intro h hs
    apply h
    rw [hs]

theorem append_ne_empty (a b : String) (hb : b ≠ "") : a ++ b ≠ "" := by
  rw [string_ne_empty_iff] at *
  rw [String.data_append]
  intro h
  exact hb (List.append_eq_nil.1 h).2

theorem splitOnNewline_subset (l : List Char) :
    ∀ piece ∈ splitOnNewline l, ∀ ch ∈ piece, ch ∈ l := by
  induction l with
  | nil =>
    intro piece hp ch hch
    simp [splitOnNewline] at hp
    subst hp
    exact absurd hch (List.not_mem_nil _)
  | cons c cs ih =>
    intro piece hp ch hch
    unfold splitOnNewline at hp
    split at hp
    · rcases List.mem_cons.1 hp with h | h
      · subst h
        exact absurd hch (List.not_mem_nil _)
      · exact List.mem_cons_of_mem _ (ih piece h ch hch)
    · split at hp
      · simp at hp
        subst hp
        simp at hch
        simp [hch]
      · rename_i l ls heq
        rcases List.mem_cons.1 hp with h | h
        · subst h
          rcases List.mem_cons.1 hch with h1 | h1
          · simp [h1]
          · exact List.mem_cons_of_mem _ (ih l (by rw [heq]; exact List.mem_cons_self _ _) ch h1)
        · exact List.mem_cons_of_mem _ (ih piece (by rw [heq]; exact List.mem_cons_of_mem _ h) ch hch)

theorem stringsTrimSpace_subset (s : String) :
    ∀ ch ∈ (stringsTrimSpace s).data, ch ∈ s.data := by
  intro ch hch
  simp only [stringsTrimSpace, List.mem_reverse] at hch
  have h1 := (List.dropWhile_sublist isSpace
    (l := (s.data.dropWhile isSpace).reverse)).subset hch
  rw [List.mem_reverse] at h1
  exact (List.dropWhile_sublist isSpace (l := s.data)).subset h1

theorem trimmedLines_spec (reply : String) (h : isASCII reply = true) :
    ∀ t ∈ trimmedLines reply, t ≠ "" ∧ isASCII t = true := by
  intro t ht
  simp only [trimmedLines, List.mem_filter, List.mem_map, stringsSplitNewline] at ht
  obtain ⟨⟨line, ⟨piece, hpiece, hline⟩, hlt⟩, hne⟩ := ht
  refine ⟨by simpa using hne, ?_⟩
  rw [isASCII_iff] at h ⊢
  intro ch hch
  subst hlt
  have h1 := stringsTrimSpace_subset line ch hch
  subst hline
  exact h ch (splitOnNewline_subset reply.data piece hpiece ch h1)

theorem splitStep_eq (st : List String × String) (line : String) :
    splitStep st line
      = if stringsTrimSpace line = "" then st else mergeStep st (stringsTrimSpace line) := rfl

theorem foldl_splitStep (lines : List String) (st : List String × String) :
    lines.foldl splitStep st
      = ((lines.map stringsTrimSpace).filter (fun l => decide (l ≠ ""))).foldl mergeStep st := by
  induction lines generalizing st with
  | nil => rfl
  | cons line rest ih =>
    rw [List.foldl_cons, ih, splitStep_eq, List.map_cons]
    by_cases h : stringsTrimSpace line = ""
    · simp [h]
    · simp [h]

theorem foldl_mergeStep (ts : List String) :
    ∀ (parts : List String) (cur : String), cur ≠ "" → isASCII cur = true →
      (∀ t ∈ ts, t ≠ "" ∧ isASCII t = true) →
      (if (ts.foldl mergeStep (parts, cur)).2 ≠ "" then
          (ts.foldl mergeStep (parts, cur)).1 ++ [(ts.foldl mergeStep (parts, cur)).2]
        else (ts.foldl mergeStep (parts, cur)).1)
        = parts ++ mergeShortFrom 20 cur ts := by
  induction ts with
  | nil =>
    intro parts cur hcur _ _
    simp [mergeShortFrom, hcur]
  | cons t rest ih =>
    intro parts cur hcur hascii hts
    have ht := hts t (List.mem_cons_self _ _)
    have hrest : ∀ t' ∈ rest, t' ≠ "" ∧ isASCII t' = true :=
      fun t' h' => hts t' (List.mem_cons_of_mem _ h')
    rw [List.foldl_cons]
    have hlen := len_of_ascii cur hascii
    by_cases hshort : cur.length < 20
    · have hstep : mergeStep (parts, cur) t = (parts, cur ++ " " ++ t) := by
        simp [mergeStep, hcur, hlen, hshort]
      rw [hstep, ih parts (cur ++ " " ++ t) (append_ne_empty _ _ ht.1)
        (isASCII_append _ _ (isASCII_append _ _ hascii (by decide)) ht.2) hrest]
      simp [mergeShortFrom, hshort]
    · have hstep : mergeStep (parts, cur) t = (parts ++ [cur], t) := by
        simp [mergeStep, hcur, hlen, hshort]
      rw [hstep, ih (parts ++ [cur]) t ht.1 ht.2 hrest]
      simp [mergeShortFrom, hshort]

theorem splitReply_eq_foldl (reply : String) :
    splitReply reply
      = if ((trimmedLines reply).foldl mergeStep ([], "")).2 ≠ "" then
          ((trimmedLines reply).foldl mergeStep ([], "")).1 ++
            [((trimmedLines reply).foldl mergeStep ([], "")).2]
        else ((trimmedLines reply).foldl mergeStep ([], "")).1 := by
  unfold splitReply trimmedLines
  rw [foldl_splitStep]

theorem foldl_mergeStep_start (ts : List String)
    (hts : ∀ t ∈ ts, t ≠ "" ∧ isASCII t = true) :
    (if (ts.foldl mergeStep ([], "")).2 ≠ "" then
        (ts.foldl mergeStep ([], "")).1 ++ [(ts.foldl mergeStep ([], "")).2]
      else (ts.foldl mergeStep ([], "")).1)
      = mergeShort 20 ts := by
  cases ts with
  | nil => simp [mergeShort]
  | cons t rest =>
    have ht := hts t (List.mem_cons_self _ _)
    have hstep : mergeStep ([], "") t = ([], t) := by simp [mergeStep]
    rw [List.foldl_cons, hstep,
      foldl_mergeStep rest [] t ht.1 ht.2 (fun t' h' => hts t' (List.mem_cons_of_mem _ h'))]
    simp [mergeShort]

/-- C10: for an ASCII reply the parts computed by `sendReplyWithSplit` are those obtained
by scanning the trimmed non-blank lines in order, appending a line (after one space) to
the fragment being accumulated exactly when that fragment is shorter than 20, otherwise
closing it and starting a new one. The reply "a\nb\nshort\nc" becomes the single
fragment "a b short c", so exactly one message is sent for it. -/
theorem C10_split_merges_short_fragments (reply : String) (hascii : isASCII reply = true) :
    splitReply reply = mergeShort 20 (trimmedLines reply) ∧
    splitReply "a\nb\nshort\nc" = ["a b short c"] ∧
    (∀ (env : Env) (c : ClientV2) (chatID : Int),
      sendReplyWithSplit env c chatID "a\nb\nshort\nc"
        = sendMessageDirect env c chatID "a\nb\nshort\nc") ∧
    (sendReplyWithSplit exampleEnv exampleClient 7 "a\nb\nshort\nc").map
        (fun r => (r.1.calls, r.2))
      = some ([ExternalCall.sendMessage (InputPeer.InputPeerChat 7) "a\nb\nshort\nc"], none) := by
  have hparts : splitReply "a\nb\nshort\nc" = ["a b short c"] := by decide
  refine ⟨?_, hparts, ?_, by decide⟩
  · rw [splitReply_eq_foldl]
    exact foldl_mergeStep_start _ (trimmedLines_spec reply hascii)
  · intro env c chatID
    unfold sendReplyWithSplit
    rw [hparts]
    simp

/-- Witness of C10: the ASCII reply "one\ntwo\nthis line has over twenty characters\nend". -/
theorem C10_split_merges_short_fragments_witness :
    splitReply "one\ntwo\nthis line has over twenty characters\nend"
      = mergeShort 20 (trimmedLines "one\ntwo\nthis line has over twenty characters\nend") ∧
    splitReply "one\ntwo\nthis line has over twenty characters\nend"
      = ["one two this line has over twenty characters", "end"] :=
  ⟨(C10_split_merges_short_fragments "one\ntwo\nthis line has over twenty characters\nend"
      (by decide)).1, by decide⟩

/-! ### Retry always returns -/

theorem retryLoop_isSome {σ ε : Type} (fn : σ → Option ε × σ) (ctx : Nat → Option ε)
    (config : RetryConfig) (fuel : Nat) :
    ∀ (i : Nat) (delay : Int) (lastErr : Option ε) (s : σ) (calls : Nat) (waits : List Int),
      (config.MaxRetries - i).toNat < fuel →
      (retryLoop fn ctx config fuel i delay lastErr s calls waits).isSome = true := by
  induction fuel with
  | zero =>
    intro i delay lastErr s calls waits h
    omega
  | succ f ih =>
    intro i delay lastErr s calls waits h
    unfold retryLoop
    split
    · rename_i hi
      have hnext : (config.MaxRetries - ((i + 1 : Nat) : Int)).toNat < f := by
        push_cast
        omega
      rcases hfs : fn s with ⟨r, s1⟩
      cases r with
      | none => rfl
      | some err =>
        simp only []
        split
        · cases hc : ctx waits.length with
          | some e => rfl
          | none => exact ih _ _ _ _ _ _ hnext
        · exact ih _ _ _ _ _ _ hnext
    · rfl

/-- `Retry` returns for every operation, context and configuration. -/
theorem Retry_isSome {σ ε : Type} (ctx : Nat → Option ε) (fn : σ → Option ε × σ)
    (config : RetryConfig) (s : σ) : (Retry ctx fn config s).isSome = true := by
  unfold Retry
  apply retryLoop_isSome
  simp

/-! ### Single send -/

/-- A send the transport accepts at the first attempt: the log gains exactly one
`sendMessage` entry carrying the text, and nil is returned. -/
theorem sendMessageDirect_accepted (env : Env) (c : ClientV2) (chatID : Int) (text : String)
    (db : Store) (peer : InputPeer) (hpeer : resolvePeer c.DB chatID = Except.ok (db, peer))
    (hok : env.sendResult (sendCount c.calls) = none) :
    sendMessageDirect env c chatID text
      = some ({ c with DB := db, calls := c.calls ++ [ExternalCall.sendMessage peer text] },
          none) := by
  simp [sendMessageDirect, hpeer, RetryWithBackoff, Retry, DefaultRetryConfig, retryLoop,
    sendFn, hok]

theorem splitOnNewline_of_no_newline (l : List Char) (h : '\n' ∉ l) :
    splitOnNewline l = [l] := by
  induction l with
  | nil => rfl
  | cons ch cs ih =>
    have hch : ch ≠ '\n' := fun hc => h (by simp [hc])
    have hcs : '\n' ∉ cs := fun hc => h (List.mem_cons_of_mem _ hc)
    simp [splitOnNewline, hch, ih hcs]

theorem splitReply_of_no_newline (reply : String) (h : '\n' ∉ reply.data) :
    (splitReply reply).length ≤ 1 := by
  unfold splitReply stringsSplitNewline
  rw [splitOnNewline_of_no_newline _ h]
  simp only [List.map_cons, List.map_nil, List.foldl_cons, List.foldl_nil, splitStep]
  by_cases ht : stringsTrimSpace (String.mk reply.data) = ""
  · simp [ht]
  · simp [ht]

/-- C11: when the account has split-by-newline disabled, or the reply contains no
newline, or the split collapses to at most one part, `sendReplyWithSplit` is exactly one
call of the send path with the reply itself; when the transport accepts that send, one
message is logged and its text is the reply, unchanged. -/
theorem C11_single_send_is_the_reply (env : Env) (c : ClientV2) (chatID : Int)
    (reply : String)
    (h : c.Account.SplitByNewline = false ∨ '\n' ∉ reply.data ∨ (splitReply reply).length ≤ 1) :
    sendReplyWithSplit env c chatID reply = sendMessageDirect env c chatID reply ∧
    (∀ (db : Store) (peer : InputPeer), resolvePeer c.DB chatID = Except.ok (db, peer) →
      env.sendResult (sendCount c.calls) = none →
      sendReplyWithSplit env c chatID reply
        = some ({ c with DB := db, calls := c.calls ++ [ExternalCall.sendMessage peer reply] },
            none)) := by
  have hone : sendReplyWithSplit env c chatID reply = sendMessageDirect env c chatID reply := by
    unfold sendReplyWithSplit
    rcases h with h | h | h
    · simp [h]
    · simp [splitReply_of_no_newline reply h]
    · simp [h]
  refine ⟨hone, ?_⟩
  intro db peer hpeer hok
  rw [hone]
  exact sendMessageDirect_accepted env c chatID reply db peer hpeer hok

/-- Witness of C11: a reply without newline, sent by the example session (split
enabled) to conversation 7. -/
theorem C11_single_send_is_the_reply_witness :
    (sendReplyWithSplit exampleEnv exampleClient 7 "hello there").map
        (fun r => (r.1.calls, r.2))
      = some ([ExternalCall.sendMessage (InputPeer.InputPeerChat 7) "hello there"], none) := by
  rw [(C11_single_send_is_the_reply exampleEnv exampleClient 7 "hello there"
    (Or.inr (Or.inl (by decide)))).2 exampleStore (InputPeer.InputPeerChat 7) rfl rfl]
  rfl

/-! ### Conversation history -/

theorem keepLast_ten_snoc_pair {α : Type} (h : List α) (u a : α) :
    keepLast 10 (h ++ [u, a]) = keepLast 8 h ++ [u, a] := by
  unfold keepLast
  have hlen : (h ++ [u, a]).length - 10 = h.length - 8 := by simp
  rw [hlen, List.drop_append_of_le_length (by omega)]

/-- C17: `addMessageContext` leaves the conversation's history equal to the last 10
entries of the old history followed by the user entry and the assistant entry (all of
them when there are 10 or fewer): entries are dropped from the front only, the result
never has more than 10 entries, its two newest entries are the pair just appended, and
the histories of the other conversations are untouched. -/
theorem C17_history_keeps_last_ten (c : ClientV2) (chatID : Int) (userMsg aiReply : String) :
    (addMessageContext c chatID userMsg aiReply).MessageContext.get? chatID
      = some (keepLast 10 (c.MessageContext.getSlice chatID ++
          [{ Role := "user", Content := userMsg }, { Role := "assistant", Content := aiReply }])) ∧
    keepLast 10 (c.MessageContext.getSlice chatID ++
          [{ Role := "user", Content := userMsg }, { Role := "assistant", Content := aiReply }])
      = keepLast 8 (c.MessageContext.getSlice chatID) ++
          [{ Role := "user", Content := userMsg }, { Role := "assistant", Content := aiReply }] ∧
    ((addMessageContext c chatID userMsg aiReply).MessageContext.getSlice chatID).length ≤ 10 ∧
    (∀ k, k ≠ chatID →
      (addMessageContext c chatID userMsg aiReply).MessageContext.get? k
        = c.MessageContext.get? k) := by
  have hsl : (if c.MessageContext.get? chatID = none then c.MessageContext.set chatID []
      else c.MessageContext).getSlice chatID = c.MessageContext.getSlice chatID := by
    by_cases h : c.MessageContext.get? chatID = none
    · simp [h, GoMap.getSlice, GoMap.get?_set_self]
    · simp [h]
  have hother : ∀ k, k ≠ chatID →
      (if c.MessageContext.get? chatID = none then c.MessageContext.set chatID []
        else c.MessageContext).get? k = c.MessageContext.get? k := by
    intro k hk
    by_cases h : c.MessageContext.get? chatID = none
    · simp [h, GoMap.get?_set_ne _ _ hk]
    · simp [h]
  have hget : (addMessageContext c chatID userMsg aiReply).MessageContext.get? chatID
      = some (keepLast 10 (c.MessageContext.getSlice chatID ++
          [{ Role := "user", Content := userMsg },
           { Role := "assistant", Content := aiReply }])) := by
    simp only [addMessageContext, hsl, GoMap.getSlice_set_self]
    split
    · rw [GoMap.get?_set_self]
      rfl
    · rename_i hlen
      rw [GoMap.get?_set_self]
      have h0 : (c.MessageContext.getSlice chatID ++
          [({ Role := "user", Content := userMsg } : MessageContext),
           { Role := "assistant", Content := aiReply }]).length - 10 = 0 := by omega
      rw [keepLast, h0, List.drop_zero]
  refine ⟨hget, keepLast_ten_snoc_pair _ _ _, ?_, ?_⟩
  · rw [GoMap.getSlice, hget, Option.getD_some, keepLast_length]
    omega
  · intro k hk
    simp only [addMessageContext, hsl, GoMap.getSlice_set_self]
    split
    · rw [GoMap.get?_set_ne _ _ hk, GoMap.get?_set_ne _ _ hk, hother k hk]
    · rw [GoMap.get?_set_ne _ _ hk, hother k hk]

/-! ### Reply probability -/

theorem Factor.scale_hundred_pos_iff (f : Factor) (hden : 0 < f.den) :
    0 < f.scale 100 ↔ (f.den : Int) ≤ 100 * f.num := by
  unfold Factor.scale
  by_cases hnum : 0 ≤ f.num
  · rw [Int.tdiv_eq_ediv (by omega) (by omega)]
    have hd : (0 : Int) < (f.den : Int) := by omega
    constructor
    · intro h
      have h1 : (1 : Int) ≤ 100 * f.num / (f.den : Int) := h
      rw [Int.le_ediv_iff_mul_le hd] at h1
      omega
    · intro h
      have h1 : (1 : Int) ≤ 100 * f.num / (f.den : Int) := by
        rw [Int.le_ediv_iff_mul_le hd]
        omega
      exact h1
  · have hneg : 100 * f.num = -(100 * (-f.num)) := by omega
    rw [hneg, Int.neg_tdiv]
    have h0 : 0 ≤ (100 * (-f.num)).tdiv (f.den : Int) := Int.tdiv_nonneg (by omega) (by omega)
    constructor
    · intro h
      omega
    · intro h
      omega

/-- C13, as the claim states it, fails: an assignment with the positive reply
probability 0.005 scales to 0 percent, so the effective probability is the account's
value (80 for one account, 50 for another), not the scaled assignment value. -/
theorem C13_tiny_positive_probability_falls_back :
    (0 : Int) < tinyProbabilityAssignment.ReplyProbability.num ∧
    tinyProbabilityAssignment.ReplyProbability.scale 100 = 0 ∧
    effectiveReplyProbability (accountWithProbability 80) tinyProbabilityAssignment = 80 ∧
    effectiveReplyProbability (accountWithProbability 50) tinyProbabilityAssignment = 50 := by
  decide

/-- C13 (amended): when the assignment's reply probability scaled to a whole percent,
`int(p * 100)`, is positive (for a fraction with positive denominator: when p is at
least 0.01), the effective probability is that whole percent, whatever the account-level
`ReplyProbability` is; when the whole percent is not positive, the account-level value
is used (100 in its place when it is not positive either). -/
theorem C13_effective_probability (account : Account) (accountGroup : AccountGroup) :
    (0 < accountGroup.ReplyProbability.scale 100 →
      effectiveReplyProbability account accountGroup
        = accountGroup.ReplyProbability.scale 100) ∧
    (accountGroup.ReplyProbability.scale 100 ≤ 0 →
      effectiveReplyProbability account accountGroup
        = if account.ReplyProbability ≤ 0 then 100 else account.ReplyProbability) ∧
    (0 < accountGroup.ReplyProbability.den →
      (0 < accountGroup.ReplyProbability.scale 100 ↔
        (accountGroup.ReplyProbability.den : Int) ≤ 100 * accountGroup.ReplyProbability.num)) := by
  refine ⟨?_, ?_, Factor.scale_hundred_pos_iff _⟩
  · intro h
    have h1 : ¬ accountGroup.ReplyProbability.scale 100 ≤ 0 := by omega
    simp only [effectiveReplyProbability, h1, if_false]
  · intro h
    simp only [effectiveReplyProbability, h, if_true]

/-- Witness of C13 (amended): an assignment probability of 0.3 gives 30 percent for an
account configured with 80; the assignment probability 0.005 gives the account's 80. -/
theorem C13_effective_probability_witness :
    effectiveReplyProbability (accountWithProbability 80) exampleAssignment = 30 ∧
    effectiveReplyProbability (accountWithProbability 80) tinyProbabilityAssignment = 80 :=
  ⟨(C13_effective_probability (accountWithProbability 80) exampleAssignment).1 (by decide),
   (C13_effective_probability (accountWithProbability 80) tinyProbabilityAssignment).2.1
      (by decide)⟩

/-! ### Retry: cancellation and backoff -/

/-- The loop, started with `d` rounds of failure and completed wait ahead of a failure
whose wait is cancelled. -/
theorem retryLoop_cancelled {σ ε : Type} (fn : σ → Option ε × σ) (ctx : Nat → Option ε)
    (config : RetryConfig) (e : ε) (d : Nat) :
    ∀ (fuel i : Nat) (delay : Int) (lastErr : Option ε) (s : σ) (calls : Nat)
      (waits : List Int),
      ((i : Int) + d < config.MaxRetries - 1) → d + 1 ≤ fuel →
      (∀ j, j ≤ d → resultAt fn s j ≠ none) →
      (∀ j, j < d → ctx (waits.length + j) = none) → ctx (waits.length + d) = some e →
      ∃ o, retryLoop fn ctx config fuel i delay lastErr s calls waits = some o ∧
        o.result = some (RetryError.cancelled e) ∧ o.calls = calls + d + 1 ∧
        o.state = stateAfter fn s (d + 1) := by
  induction d with
  | zero =>
    intro fuel i delay lastErr s calls waits hi hfuel hfail _ hcancel
    obtain ⟨f, rfl⟩ : ∃ f, fuel = f + 1 := ⟨fuel - 1, by omega⟩
    have hi' : (i : Int) < config.MaxRetries := by omega
    have hi'' : (i : Int) < config.MaxRetries - 1 := by omega
    have h0 : (fn s).1 ≠ none := hfail 0 (by omega)
    rcases hfs : fn s with ⟨r, s1⟩
    rw [hfs] at h0
    cases r with
    | none => exact absurd rfl h0
    | some err =>
      have hc : ctx waits.length = some e := by simpa using hcancel
      refine ⟨{ result := some (RetryError.cancelled e), state := s1, calls := calls + 1,
                waits := waits ++ [delay] }, ?_, rfl, rfl, ?_⟩
      · simp only [retryLoop, hi', hi'', if_true, hfs, hc]
      · simp [stateAfter, hfs]
  | succ d ih =>
    intro fuel i delay lastErr s calls waits hi hfuel hfail hwait hcancel
    obtain ⟨f, rfl⟩ : ∃ f, fuel = f + 1 := ⟨fuel - 1, by omega⟩
    have hi' : (i : Int) < config.MaxRetries := by omega
    have hi'' : (i : Int) < config.MaxRetries - 1 := by omega
    have h0 : (fn s).1 ≠ none := hfail 0 (by omega)
    rcases hfs : fn s with ⟨r, s1⟩
    rw [hfs] at h0
    cases r with
    | none => exact absurd rfl h0
    | some err =>
      have hs1 : s1 = (fn s).2 := by rw [hfs]
      have hc : ctx waits.length = none := by simpa using hwait 0 (by omega)
      obtain ⟨o, ho, h1, h2, h3⟩ := ih f (i + 1)
        (if config.Multiplier.scale delay > config.MaxDelay then config.MaxDelay
          else config.Multiplier.scale delay)
        (some err) s1 (calls + 1) (waits ++ [delay])
        (by push_cast; omega) (by omega)
        (fun j hj => by rw [hs1, ← resultAt_succ]; exact hfail (j + 1) (by omega))
        (fun j hj => by
          have := hwait (j + 1) (by omega)
          simpa [Nat.add_assoc, Nat.add_comm 1 j] using this)
        (by simpa [Nat.add_assoc, Nat.add_comm 1 d] using hcancel)
      refine ⟨o, ?_, h1, by omega, ?_⟩
      · simp only [retryLoop, hi', hi'', if_true, hfs, hc]
        exact ho
      · rw [h3, hs1]
        rfl

/-- C14: when the context is cancelled while `Retry` waits after the i-th failed attempt
(1 <= i < `MaxRetries`), `Retry` returns the context's error, not the retries-exhausted
error, and the operation has been invoked exactly i times. -/
theorem C14_retry_cancelled_during_wait {σ ε : Type} (fn : σ → Option ε × σ)
    (ctx : Nat → Option ε) (config : RetryConfig) (s : σ) (e : ε) (i : Nat)
    (hi1 : 1 ≤ i) (hi2 : (i : Int) < config.MaxRetries)
    (hfail : ∀ j, j < i → resultAt fn s j ≠ none)
    (hwait : ∀ w, w + 1 < i → ctx w = none) (hcancel : ctx (i - 1) = some e) :
    ∃ o, Retry ctx fn config s = some o ∧ o.result = some (RetryError.cancelled e) ∧
      o.calls = i ∧ o.state = stateAfter fn s i := by
  obtain ⟨d, rfl⟩ : ∃ d, i = d + 1 := ⟨i - 1, by omega⟩
  obtain ⟨o, ho, h1, h2, h3⟩ := retryLoop_cancelled fn ctx config e d
    (config.MaxRetries.toNat + 1) 0 config.InitialDelay none s 0 []
    (by push_cast at hi2 ⊢; omega) (by push_cast at hi2; omega)
    (fun j hj => hfail j (by omega))
    (fun j hj => by simpa using hwait j (by omega))
    (by simpa using hcancel)
  exact ⟨o, ho, h1, by omega, h3⟩

/-- Witness of C14: under the default configuration the context is cancelled during the
wait after the second failed attempt; the operation has run twice. -/
theorem C14_retry_cancelled_during_wait_witness :
    ∃ o, Retry (cancelledDuringWait 1 99) alwaysFail DefaultRetryConfig 0 = some o ∧
      o.result = some (RetryError.cancelled 99) ∧ o.calls = 2 ∧ o.state = 2 :=
  C14_retry_cancelled_during_wait alwaysFail (cancelledDuringWait 1 99) DefaultRetryConfig 0 99 2
    (by decide) (by decide) (by decide)
    (fun w hw => by
      have hw0 : w = 0 := by omega
      subst hw0
      rfl)
    (by decide)

theorem backoffDelays_length (config : RetryConfig) (n : Nat) :
    ∀ delay, (backoffDelays config n delay).length = n := by
  induction n with
  | zero => intro delay; rfl
  | succ n ih => intro delay; simp [backoffDelays, ih]

theorem nextDelay_le (config : RetryConfig) (delay : Int) :
    nextDelay config delay ≤ config.MaxDelay := by
  unfold nextDelay
  split <;> omega

theorem backoffDelays_step (config : RetryConfig) (n : Nat) :
    ∀ (delay : Int) (j : Nat) (d : Int), (backoffDelays config n delay)[j]? = some d →
      j + 1 < n → (backoffDelays config n delay)[j + 1]? = some (nextDelay config d) := by
  induction n with
  | zero => intro delay j d _ hj; omega
  | succ n ih =>
    intro delay j d hd hj
    cases j with
    | zero =>
      simp only [backoffDelays, List.getElem?_cons_zero, Option.some.injEq] at hd
      subst hd
      obtain ⟨m, rfl⟩ : ∃ m, n = m + 1 := ⟨n - 1, by omega⟩
      simp [backoffDelays]
    | succ j =>
      simp only [backoffDelays, List.getElem?_cons_succ] at hd ⊢
      exact ih _ j d hd (by omega)

theorem backoffDelays_capped (config : RetryConfig) (n : Nat) :
    ∀ (delay : Int) (j : Nat) (d : Int), (backoffDelays config n delay)[j + 1]? = some d →
      d ≤ config.MaxDelay := by
  induction n with
  | zero => intro delay j d hd; simp [backoffDelays] at hd
  | succ n ih =>
    intro delay j d hd
    simp only [backoffDelays, List.getElem?_cons_succ] at hd
    cases j with
    | zero =>
      cases n with
      | zero => simp [backoffDelays] at hd
      | succ m =>
        simp only [backoffDelays, List.getElem?_cons_zero, Option.some.injEq] at hd
        rw [← hd]
        exact nextDelay_le config delay
    | succ j => exact ih _ j d hd

/-- The waits of the loop, started with exactly `d` attempts left, all of them
failing. -/
theorem retryLoop_exhausted_waits {σ ε : Type} (fn : σ → Option ε × σ) (config : RetryConfig)
    (d : Nat) : ∀ (fuel i : Nat) (delay : Int) (lastErr : Option ε) (s : σ) (calls : Nat)
      (waits : List Int),
      ((i : Int) + d = config.MaxRetries) → d + 1 ≤ fuel →
      (∀ j, j < d → resultAt fn s j ≠ none) →
      ∃ o, retryLoop fn neverCancelled config fuel i delay lastErr s calls waits = some o ∧
        o.waits = waits ++ backoffDelays config (d - 1) delay ∧ o.calls = calls + d := by
  induction d with
  | zero =>
    intro fuel i delay lastErr s calls waits hi hfuel _
    obtain ⟨f, rfl⟩ : ∃ f, fuel = f + 1 := ⟨fuel - 1, by omega⟩
    have hi' : ¬ (i : Int) < config.MaxRetries := by omega
    exact ⟨{ result := some (RetryError.exhausted config.MaxRetries lastErr), state := s,
             calls := calls, waits := waits },
      by simp only [retryLoop, hi', if_false], by simp [backoffDelays], rfl⟩
  | succ d ih =>
    intro fuel i delay lastErr s calls waits hi hfuel hfail
    obtain ⟨f, rfl⟩ : ∃ f, fuel = f + 1 := ⟨fuel - 1, by omega⟩
    have hi' : (i : Int) < config.MaxRetries := by omega
    have h0 : (fn s).1 ≠ none := hfail 0 (by omega)
    rcases hfs : fn s with ⟨r, s1⟩
    rw [hfs] at h0
    cases r with
    | none => exact absurd rfl h0
    | some err =>
      have hs1 : s1 = (fn s).2 := by rw [hfs]
      have hfail' : ∀ j, j < d → resultAt fn s1 j ≠ none :=
        fun j hj => by rw [hs1, ← resultAt_succ]; exact hfail (j + 1) (by omega)
      by_cases hw : (i : Int) < config.MaxRetries - 1
      · obtain ⟨o, ho, h1, h2⟩ := ih f (i + 1) (nextDelay config delay)
          (some err) s1 (calls + 1) (waits ++ [delay])
          (by push_cast; omega) (by omega) hfail'
        refine ⟨o, ?_, ?_, by omega⟩
        · simp only [retryLoop, hi', hw, if_true, hfs, neverCancelled]
          exact ho
        · obtain ⟨m, rfl⟩ : ∃ m, d = m + 1 := ⟨d - 1, by omega⟩
          rw [h1]
          simp [backoffDelays]
      · obtain ⟨o, ho, h1, h2⟩ := ih f (i + 1) delay (some err) s1 (calls + 1) waits
          (by push_cast; omega) (by omega) hfail'
        have hd0 : d = 0 := by omega
        subst hd0
        refine ⟨o, ?_, ?_, by omega⟩
        · simp only [retryLoop, hi', hw, if_true, if_false, hfs]
          exact ho
        · rw [h1]

/-- C15, as the claim states it, fails: with an initial delay of 20 s, a cap of 10 s and
multiplier 2, the waits of three failing attempts are 20 s then 10 s; the first wait is
longer than `MaxDelay`, and the second is not the first times the multiplier. -/
theorem C15_first_wait_is_not_capped :
    (Retry neverCancelled alwaysFail slowStartConfig 0).map (fun o => o.waits)
      = some [20000000000, 10000000000] ∧
    slowStartConfig.MaxDelay < 20000000000 ∧
    slowStartConfig.Multiplier.scale 20000000000 ≠ 10000000000 := by
  decide

/-- C15 (amended): with `MaxRetries` >= 1, for an operation that fails on every
invocation under a context that is never cancelled, `Retry` waits exactly
`MaxRetries` - 1 times (never after the last attempt); the first wait is `InitialDelay`,
every later wait is the previous wait times the multiplier, replaced by `MaxDelay` when
that product exceeds it, so no wait after the first is longer than `MaxDelay`. With the
default configuration the waits are exactly 1 s then 2 s. -/
theorem C15_retry_backoff_waits {σ ε : Type} (fn : σ → Option ε × σ) (config : RetryConfig)
    (s : σ) (hn : 1 ≤ config.MaxRetries)
    (hfail : ∀ j, j < config.MaxRetries.toNat → resultAt fn s j ≠ none) :
    ∃ o, Retry neverCancelled fn config s = some o ∧
      o.calls = config.MaxRetries.toNat ∧
      o.waits = backoffDelays config (config.MaxRetries.toNat - 1) config.InitialDelay ∧
      o.waits.length = config.MaxRetries.toNat - 1 ∧
      (2 ≤ config.MaxRetries → o.waits[0]? = some config.InitialDelay) ∧
      (∀ (j : Nat) (d : Int), o.waits[j]? = some d → j + 1 < o.waits.length →
        o.waits[j + 1]? = some (nextDelay config d)) ∧
      (∀ (j : Nat) (d : Int), o.waits[j + 1]? = some d → d ≤ config.MaxDelay) ∧
      backoffDelays DefaultRetryConfig (DefaultRetryConfig.MaxRetries.toNat - 1)
        DefaultRetryConfig.InitialDelay = [1000000000, 2000000000] := by
  obtain ⟨o, ho, h1, h2⟩ := retryLoop_exhausted_waits fn config config.MaxRetries.toNat
    (config.MaxRetries.toNat + 1) 0 config.InitialDelay none s 0 []
    (by push_cast; omega) (by omega) hfail
  rw [List.nil_append] at h1
  refine ⟨o, ho, by omega, h1, ?_, ?_, ?_, ?_, by decide⟩
  · rw [h1, backoffDelays_length]
  · intro h2'
    rw [h1]
    obtain ⟨m, hm⟩ : ∃ m, config.MaxRetries.toNat - 1 = m + 1 :=
      ⟨config.MaxRetries.toNat - 2, by omega⟩
    rw [hm]
    simp [backoffDelays]
  · intro j d hd hj
    rw [h1] at hd hj ⊢
    rw [backoffDelays_length] at hj
    exact backoffDelays_step config _ _ j d hd hj
  · intro j d hd
    rw [h1] at hd
    exact backoffDelays_capped config _ _ j d hd

/-- Witness of C15 (amended): three failing attempts under the default configuration
wait 1 s, then 2 s. -/
theorem C15_retry_backoff_waits_witness :
    ∃ o, Retry neverCancelled alwaysFail DefaultRetryConfig 0 = some o ∧ o.calls = 3 ∧
      o.waits = [1000000000, 2000000000] := by
  obtain ⟨o, ho, h1, h2, _⟩ :=
    C15_retry_backoff_waits alwaysFail DefaultRetryConfig 0 (by decide) (by decide)
  exact ⟨o, ho, h1, h2⟩

/-! ### Split-send: the threshold counts bytes -/

theorem trimmedLines_ne_empty (reply : String) : ∀ t ∈ trimmedLines reply, t ≠ "" := by
  intro t ht
  simp only [trimmedLines, List.mem_filter] at ht
  simpa using ht.2

theorem foldl_mergeStep_bytes (ts : List String) :
    ∀ (parts : List String) (cur : String), cur ≠ "" → (∀ t ∈ ts, t ≠ "") →
      (if (ts.foldl mergeStep (parts, cur)).2 ≠ "" then
          (ts.foldl mergeStep (parts, cur)).1 ++ [(ts.foldl mergeStep (parts, cur)).2]
        else (ts.foldl mergeStep (parts, cur)).1)
        = parts ++ mergeShortBytesFrom 20 cur ts := by
  induction ts with
  | nil =>
    intro parts cur hcur _
    simp [mergeShortBytesFrom, hcur]
  | cons t rest ih =>
    intro parts cur hcur hts
    have ht := hts t (List.mem_cons_self _ _)
    have hrest : ∀ t' ∈ rest, t' ≠ "" := fun t' h' => hts t' (List.mem_cons_of_mem _ h')
    rw [List.foldl_cons]
    by_cases hshort : len cur < 20
    · have hstep : mergeStep (parts, cur) t = (parts, cur ++ " " ++ t) := by
        simp [mergeStep, hcur, hshort]
      rw [hstep, ih parts (cur ++ " " ++ t) (append_ne_empty _ _ ht) hrest]
      simp [mergeShortBytesFrom, hshort]
    · have hstep : mergeStep (parts, cur) t = (parts ++ [cur], t) := by
        simp [mergeStep, hcur, hshort]
      rw [hstep, ih (parts ++ [cur]) t ht hrest]
      simp [mergeShortBytesFrom, hshort]

theorem foldl_mergeStep_bytes_start (ts : List String) (hts : ∀ t ∈ ts, t ≠ "") :
    (if (ts.foldl mergeStep ([], "")).2 ≠ "" then
        (ts.foldl mergeStep ([], "")).1 ++ [(ts.foldl mergeStep ([], "")).2]
      else (ts.foldl mergeStep ([], "")).1)
      = mergeShortBytes 20 ts := by
  cases ts with
  | nil => simp [mergeShortBytes]
  | cons t rest =>
    have ht := hts t (List.mem_cons_self _ _)
    have hstep : mergeStep ([], "") t = ([], t) := by simp [mergeStep]
    rw [List.foldl_cons, hstep,
      foldl_mergeStep_bytes rest [] t ht (fun t' h' => hts t' (List.mem_cons_of_mem _ h'))]
    simp [mergeShortBytes]

/-- C18, as the claim states it, fails: in the reply "一二三四五六七\n八" the first
fragment has 7 characters, fewer than 20, yet the next line is not merged into it,
because the fragment is 21 bytes long; merging by characters would give one part. -/
theorem C18_chinese_fragment_is_not_merged :
    "一二三四五六七".length = 7 ∧ len "一二三四五六七" = 21 ∧
    splitReply "一二三四五六七\n八" = ["一二三四五六七", "八"] ∧
    mergeShort 20 (trimmedLines "一二三四五六七\n八") = ["一二三四五六七 八"] := by
  decide

/-- C18 (amended): the merge threshold of split-send is measured in bytes: for every
reply the parts are those obtained by scanning the trimmed non-blank lines and merging
the next line into the fragment being accumulated exactly when that fragment is shorter
than 20 bytes of UTF-8 (for ASCII text: fewer than 20 characters; a Chinese fragment of
7 characters is 21 bytes long and is closed). -/
theorem C18_split_threshold_counts_bytes (reply : String) :
    splitReply reply = mergeShortBytes 20 (trimmedLines reply) ∧
    (isASCII reply = true → splitReply reply = mergeShort 20 (trimmedLines reply)) := by
  refine ⟨?_, ?_⟩
  · rw [splitReply_eq_foldl]
    exact foldl_mergeStep_bytes_start _ (trimmedLines_ne_empty reply)
  · intro hascii
    rw [splitReply_eq_foldl]
    exact foldl_mergeStep_start _ (trimmedLines_spec reply hascii)

/-- Witness of C18 (amended): an ASCII reply and a Chinese reply. -/
theorem C18_split_threshold_counts_bytes_witness :
    splitReply "one\ntwo" = mergeShort 20 (trimmedLines "one\ntwo") ∧
    splitReply "一二三四五六七\n八" = mergeShortBytes 20 (trimmedLines "一二三四五六七\n八") :=
  ⟨(C18_split_threshold_counts_bytes "one\ntwo").2 (by decide),
   (C18_split_threshold_counts_bytes "一二三四五六七\n八").1⟩

/-! ### The send path -/

/-- Every run of the retry loop leaves the state that its invocations of `fn` built, and
a nil result takes at least one invocation. -/
theorem retryLoop_state {σ ε : Type} (fn : σ → Option ε × σ) (ctx : Nat → Option ε)
    (config : RetryConfig) (fuel : Nat) :
    ∀ (i : Nat) (delay : Int) (lastErr : Option ε) (s : σ) (calls : Nat) (waits : List Int)
      (o : RetryOutcome σ ε),
      retryLoop fn ctx config fuel i delay lastErr s calls waits = some o →
      ∃ k, o.calls = calls + k ∧ o.state = stateAfter fn s k ∧ (o.result = none → 1 ≤ k) := by
  induction fuel with
  | zero =>
    intro i delay lastErr s calls waits o h
    simp [retryLoop] at h
  | succ f ih =>
    intro i delay lastErr s calls waits o h
    unfold retryLoop at h
    split at h
    · rcases hfs : fn s with ⟨r, s1⟩
      have hs1 : s1 = (fn s).2 := by rw [hfs]
      rw [hfs] at h
      cases r with
      | none =>
        simp only [Option.some.injEq] at h
        subst h
        exact ⟨1, rfl, by simp [stateAfter, hfs], fun _ => Nat.le_refl 1⟩
      | some err =>
        simp only [] at h
        split at h
        · cases hc : ctx waits.length with
          | some e =>
            rw [hc] at h
            simp only [Option.some.injEq] at h
            subst h
            exact ⟨1, rfl, by simp [stateAfter, hfs], fun hr => by simp at hr⟩
          | none =>
            rw [hc] at h
            obtain ⟨k, h1, h2, h3⟩ := ih _ _ _ _ _ _ o h
            exact ⟨k + 1, by omega, by rw [h2, hs1]; rfl, fun _ => by omega⟩
        · obtain ⟨k, h1, h2, h3⟩ := ih _ _ _ _ _ _ o h
          exact ⟨k + 1, by omega, by rw [h2, hs1]; rfl, fun _ => by omega⟩
    · simp only [Option.some.injEq] at h
      subst h
      exact ⟨0, rfl, rfl, fun hr => by simp at hr⟩

theorem stateAfter_sendFn (env : Env) (peer : InputPeer) (text : String) (k : Nat) :
    ∀ calls : List ExternalCall, stateAfter (sendFn env peer text) calls k
      = calls ++ List.replicate k (ExternalCall.sendMessage peer text) := by
  induction k with
  | zero => intro calls; simp [stateAfter]
  | succ k ih =>
    intro calls
    simp only [stateAfter, sendFn]
    rw [ih, List.replicate_succ, List.append_assoc]
    rfl

/-- The peer resolution never changes the store: the only write follows a successful
`GetGroupAccessHash`, which always fails. -/
theorem resolvePeer_db (db db1 : Store) (chatID : Int) (peer : InputPeer)
    (h : resolvePeer db chatID = Except.ok (db1, peer)) : db1 = db := by
  unfold resolvePeer at h
  split at h
  · cases h; rfl
  · split at h
    · split at h
      · simp [GetGroupAccessHash] at h
      · cases h; rfl
    · cases h; rfl

theorem peerOf_of_ok (db db1 : Store) (chatID : Int) (peer : InputPeer)
    (h : resolvePeer db chatID = Except.ok (db1, peer)) : peerOf db chatID = peer := by
  simp [peerOf, h]

/-- What a call of `sendMessageDirect` does: it returns, it changes nothing but the log
of calls, to which it adds only invocations of `MessagesSendMessage` with the text, at
least one when the call returns nil. -/
theorem sendMessageDirect_spec (env : Env) (c : ClientV2) (chatID : Int) (text : String) :
    ∃ (r : Option SendError) (k : Nat),
      sendMessageDirect env c chatID text
        = some ({ c with calls := c.calls ++
            List.replicate k (ExternalCall.sendMessage (peerOf c.DB chatID) text) }, r) ∧
      (r = none → 1 ≤ k) := by
  unfold sendMessageDirect
  cases hres : resolvePeer c.DB chatID with
  | error e =>
    refine ⟨some e, 0, ?_, fun h => by simp at h⟩
    simp
  | ok dp =>
    obtain ⟨db, peer⟩ := dp
    have hdb := resolvePeer_db _ _ _ _ hres
    have hpeer := peerOf_of_ok _ _ _ _ hres
    subst hdb
    rw [hpeer]
    simp only []
    have hsome := Retry_isSome (fun w => env.ctxDone (sendCount c.calls + w))
      (sendFn env peer text) DefaultRetryConfig c.calls
    cases hret : RetryWithBackoff (fun w => env.ctxDone (sendCount c.calls + w))
        (sendFn env peer text) c.calls with
    | none =>
      unfold RetryWithBackoff at hret
      rw [hret] at hsome
      simp at hsome
    | some o =>
      obtain ⟨k, _, hstate, hnil⟩ := retryLoop_state _ _ _ _ _ _ _ _ _ _ o hret
      rw [stateAfter_sendFn] at hstate
      simp only []
      cases hr : o.result with
      | none => exact ⟨none, k, by simp [hstate], fun _ => hnil hr⟩
      | some e => exact ⟨some (SendError.retry e), k, by simp [hstate], fun h => by simp at h⟩

theorem partsLog_singleton (interval : Int) (peer : InputPeer) (part : String) (k : Nat) :
    partsLog interval peer [(part, k)]
      = List.replicate k (ExternalCall.sendMessage peer part) := by
  simp [partsLog]

theorem partsLog_cons_cons (interval : Int) (peer : InputPeer) (part : String) (k : Nat)
    (pk2 : String × Nat) (rest : List (String × Nat)) :
    partsLog interval peer ((part, k) :: pk2 :: rest)
      = List.replicate k (ExternalCall.sendMessage peer part) ++
          ExternalCall.sleep interval :: partsLog interval peer (pk2 :: rest) := by
  rw [partsLog]

/-- The pauses of a split send: one less than the number of parts, each of `interval`
seconds. -/
theorem pauses_partsLog (interval : Int) (peer : InputPeer) (l : List (String × Nat)) :
    pauses (partsLog interval peer l) = List.replicate (l.length - 1) interval := by
  have hrep : ∀ (k : Nat) (part : String) (tl : List ExternalCall),
      pauses (List.replicate k (ExternalCall.sendMessage peer part) ++ tl) = pauses tl := by
    intro k part tl
    induction k with
    | zero => simp
    | succ k ih => simp [List.replicate_succ, pauses]
  induction l with
  | nil => rfl
  | cons pk rest ih =>
    obtain ⟨part, k⟩ := pk
    cases rest with
    | nil =>
      rw [partsLog_singleton]
      have := hrep k part []
      simp only [List.append_nil] at this
      rw [this]
      rfl
    | cons pk2 rest2 =>
      rw [partsLog_cons_cons, hrep]
      have hcons : pauses (ExternalCall.sleep interval :: partsLog interval peer (pk2 :: rest2))
          = interval :: pauses (partsLog interval peer (pk2 :: rest2)) := by
        simp [pauses]
      rw [hcons, ih]
      simp [List.replicate_succ]

theorem appendCalls_appendCalls (c : ClientV2) (l1 l2 : List ExternalCall) :
    appendCalls (appendCalls c l1) l2 = appendCalls c (l1 ++ l2) := by
  simp [appendCalls, List.append_assoc]

theorem sendMessageDirect_appendCalls (env : Env) (c : ClientV2) (chatID : Int)
    (text : String) :
    ∃ (r : Option SendError) (k : Nat),
      sendMessageDirect env c chatID text
        = some (appendCalls c
            (List.replicate k (ExternalCall.sendMessage (peerOf c.DB chatID) text)), r) ∧
      (r = none → 1 ≤ k) :=
  sendMessageDirect_spec env c chatID text

theorem sendParts_cons_cons (env : Env) (interval : Int) (chatID : Int) (c : ClientV2)
    (part p2 : String) (rest : List String) :
    sendParts env interval chatID c (part :: p2 :: rest)
      = match sendMessageDirect env c chatID part with
        | none => none
        | some (c1, some err) => some (c1, some err)
        | some (c1, none) =>
          sendParts env interval chatID
            { c1 with calls := c1.calls ++ [ExternalCall.sleep interval] } (p2 :: rest) := by
  rw [sendParts]

theorem sendParts_singleton (env : Env) (interval : Int) (chatID : Int) (c : ClientV2)
    (part : String) :
    sendParts env interval chatID c [part]
      = match sendMessageDirect env c chatID part with
        | none => none
        | some (c1, some err) => some (c1, some err)
        | some (c1, none) => some (c1, none) := by
  rw [sendParts]

/-- What the sending loop does on a non-empty list of parts: it returns, it changes
nothing but the log of calls, and what it adds to the log is the log of a split send of
a non-empty prefix `sent` of the parts; when it returns nil that prefix is the whole
list and every part took at least one transport invocation. -/
theorem sendParts_spec (env : Env) (interval : Int) (chatID : Int) (parts : List String) :
    ∀ (c : ClientV2), parts ≠ [] →
      ∃ (r : Option SendError) (sent : List String) (ks : List Nat),
        sendParts env interval chatID c parts
          = some (appendCalls c (partsLog interval (peerOf c.DB chatID) (sent.zip ks)), r) ∧
        sent <+: parts ∧ sent ≠ [] ∧ ks.length = sent.length ∧
        (r = none → sent = parts ∧ ∀ k ∈ ks, 1 ≤ k) := by
  induction parts with
  | nil => intro c h; exact absurd rfl h
  | cons part rest ih =>
    intro c _
    obtain ⟨r1, k, hsend, hk⟩ := sendMessageDirect_appendCalls env c chatID part
    cases rest with
    | nil =>
      refine ⟨r1, [part], [k], ?_, List.prefix_refl _, by simp, rfl, ?_⟩
      · rw [sendParts_singleton, hsend]
        cases r1 <;> simp [partsLog_singleton]
      · intro hr
        exact ⟨rfl, by simpa using hk hr⟩
    | cons p2 rest2 =>
      cases r1 with
      | some err =>
        refine ⟨some err, [part], [k], ?_, ?_, by simp, rfl, fun h => by simp at h⟩
        · rw [sendParts_cons_cons, hsend]
          simp [partsLog_singleton]
        · exact ⟨p2 :: rest2, rfl⟩
      | none =>
        obtain ⟨r, sent, ks, hrec, hpre, hne, hlen, hnil⟩ :=
          ih (appendCalls c
                (List.replicate k (ExternalCall.sendMessage (peerOf c.DB chatID) part) ++
                  [ExternalCall.sleep interval])) (by simp)
        refine ⟨r, part :: sent, k :: ks, ?_, ?_, by simp, by simp [hlen], ?_⟩
        · rw [sendParts_cons_cons, hsend]
          simp only []
          have hst : ({ appendCalls c
                (List.replicate k (ExternalCall.sendMessage (peerOf c.DB chatID) part)) with
              calls := (appendCalls c
                (List.replicate k (ExternalCall.sendMessage (peerOf c.DB chatID) part))).calls ++
                  [ExternalCall.sleep interval] } : ClientV2)
              = appendCalls c
                (List.replicate k (ExternalCall.sendMessage (peerOf c.DB chatID) part) ++
                  [ExternalCall.sleep interval]) := by
            simp [appendCalls, List.append_assoc]
          rw [hst, hrec]
          cases sent with
          | nil => exact absurd rfl hne
          | cons s0 sent0 =>
            cases ks with
            | nil => simp at hlen
            | cons k0 ks0 =>
              simp only [List.zip_cons_cons]
              rw [partsLog_cons_cons, appendCalls_appendCalls]
              simp [appendCalls, List.append_assoc]
        · obtain ⟨t, ht⟩ := hpre
          exact ⟨t, by simp [← ht]⟩
        · intro hr
          obtain ⟨h1, h2⟩ := hnil hr
          refine ⟨by rw [h1], ?_⟩
          intro k' hk'
          rcases List.mem_cons.1 hk' with h | h
          · rw [h]; exact hk rfl
          · exact h2 k' h

/-- When the send of a part finally fails after the parts before it were sent, the loop
stops there: it returns that part's error and the session that failed send left,
whatever parts come after. -/
theorem sendParts_failure (env : Env) (interval : Int) (chatID : Int) (before : List String) :
    ∀ (c cb c2 : ClientV2) (part : String) (after : List String) (err : SendError),
      sendParts env interval chatID c before = some (cb, none) →
      sendMessageDirect env (pauseAfter interval cb before) chatID part = some (c2, some err) →
      sendParts env interval chatID c (before ++ part :: after) = some (c2, some err) := by
  induction before with
  | nil =>
    intro c cb c2 part after err hb hsend
    simp only [sendParts, Option.some.injEq, Prod.mk.injEq, and_true] at hb
    subst hb
    simp only [pauseAfter] at hsend
    cases after with
    | nil => rw [List.nil_append, sendParts_singleton, hsend]
    | cons a as => rw [List.nil_append, sendParts_cons_cons, hsend]
  | cons b bs ih =>
    intro c cb c2 part after err hb hsend
    cases bs with
    | nil =>
      rw [sendParts_singleton] at hb
      cases h1 : sendMessageDirect env c chatID b with
      | none => rw [h1] at hb; simp at hb
      | some res =>
        obtain ⟨c1, r1⟩ := res
        rw [h1] at hb
        cases r1 with
        | some e => simp at hb
        | none =>
          simp only [Option.some.injEq, Prod.mk.injEq, and_true] at hb
          subst hb
          simp only [pauseAfter] at hsend
          show sendParts env interval chatID c (b :: part :: after) = _
          rw [sendParts_cons_cons, h1]
          simp only []
          cases after with
          | nil => rw [sendParts_singleton, hsend]
          | cons a as => rw [sendParts_cons_cons, hsend]
    | cons b2 bs2 =>
      rw [sendParts_cons_cons] at hb
      cases h1 : sendMessageDirect env c chatID b with
      | none => rw [h1] at hb; simp at hb
      | some res =>
        obtain ⟨c1, r1⟩ := res
        rw [h1] at hb
        cases r1 with
        | some e => simp at hb
        | none =>
          simp only [] at hb
          show sendParts env interval chatID c (b :: b2 :: (bs2 ++ part :: after)) = _
          rw [sendParts_cons_cons, h1]
          simp only []
          exact ih _ cb c2 part after err hb hsend

theorem sendReplyWithSplit_eq_sendParts (env : Env) (c : ClientV2) (chatID : Int)
    (reply : String) (hsplit : c.Account.SplitByNewline = true)
    (hn : 2 ≤ (splitReply reply).length) :
    sendReplyWithSplit env c chatID reply
      = sendParts env (effectiveMultiMsgInterval c.Account) chatID c (splitReply reply) := by
  have hn' : ¬ (splitReply reply).length ≤ 1 := by omega
  simp [sendReplyWithSplit, hsplit, hn', effectiveMultiMsgInterval]

theorem sendCount_append (l1 l2 : List ExternalCall) :
    sendCount (l1 ++ l2) = sendCount l1 + sendCount l2 := by
  simp [sendCount]

theorem sendCount_nil : sendCount [] = 0 := rfl

theorem sendCount_cons_send (peer : InputPeer) (text : String) (l : List ExternalCall) :
    sendCount (ExternalCall.sendMessage peer text :: l) = sendCount l + 1 := by
  simp [sendCount]

theorem sendCount_append_send (calls : List ExternalCall) (peer : InputPeer) (text : String) :
    sendCount (calls ++ [ExternalCall.sendMessage peer text]) = sendCount calls + 1 := by
  simp [sendCount]

theorem sendCount_append_sleep (calls : List ExternalCall) (seconds : Int) :
    sendCount (calls ++ [ExternalCall.sleep seconds]) = sendCount calls := by
  simp [sendCount]

theorem sendCount_append_replicate (calls : List ExternalCall) (peer : InputPeer)
    (text : String) (k : Nat) :
    sendCount (calls ++ List.replicate k (ExternalCall.sendMessage peer text))
      = sendCount calls + k := by
  induction k generalizing calls with
  | zero => simp
  | succ k ih =>
    rw [List.replicate_succ, ← List.singleton_append, ← List.append_assoc, ih,
      sendCount_append_send]
    omega

/-- One send, read off the transport: when the peer resolves, `sendMessageDirect` makes
the invocations `transportOutcome` counts, each logged with the peer and the text, and
returns the error it gives. -/
theorem sendMessageDirect_transportOutcome (env : Env) (c : ClientV2) (chatID : Int)
    (text : String) (peer : InputPeer)
    (hpeer : resolvePeer c.DB chatID = Except.ok (c.DB, peer)) :
    sendMessageDirect env c chatID text
      = some (appendCalls c (List.replicate (transportOutcome env (sendCount c.calls)).1
            (ExternalCall.sendMessage peer text)),
          (transportOutcome env (sendCount c.calls)).2.map SendError.retry) := by
  cases h0 : env.sendResult (sendCount c.calls) with
  | none =>
    simp [sendMessageDirect, hpeer, transportOutcome, RetryWithBackoff, Retry,
      DefaultRetryConfig, retryLoop, sendFn, h0, appendCalls]
  | some e0 =>
    cases hc0 : env.ctxDone (sendCount c.calls) with
    | some x0 =>
      simp [sendMessageDirect, hpeer, transportOutcome, RetryWithBackoff, Retry,
        DefaultRetryConfig, retryLoop, sendFn, h0, hc0, appendCalls]
    | none =>
      cases h1 : env.sendResult (sendCount c.calls + 1) with
      | none =>
        simp [sendMessageDirect, hpeer, transportOutcome, RetryWithBackoff, Retry,
          DefaultRetryConfig, retryLoop, sendFn, h0, hc0, h1, appendCalls,
          sendCount_append, sendCount_cons_send, sendCount_nil, List.replicate]
      | some e1 =>
        cases hc1 : env.ctxDone (sendCount c.calls + 1) with
        | some x1 =>
          simp [sendMessageDirect, hpeer, transportOutcome, RetryWithBackoff, Retry,
            DefaultRetryConfig, retryLoop, sendFn, h0, hc0, h1, hc1, appendCalls,
            sendCount_append, sendCount_cons_send, sendCount_nil, List.replicate]
        | none =>
          cases h2 : env.sendResult (sendCount c.calls + 1 + 1) with
          | none =>
            simp [sendMessageDirect, hpeer, transportOutcome, RetryWithBackoff, Retry,
              DefaultRetryConfig, retryLoop, sendFn, h0, hc0, h1, hc1, h2, appendCalls,
              sendCount_append, sendCount_cons_send, sendCount_nil, List.replicate]
          | some e2 =>
            simp [sendMessageDirect, hpeer, transportOutcome, RetryWithBackoff, Retry,
              DefaultRetryConfig, retryLoop, sendFn, h0, hc0, h1, hc1, h2, appendCalls,
              sendCount_append, sendCount_cons_send, sendCount_nil, List.replicate]

theorem sendParts_step_err (env : Env) (interval : Int) (chatID : Int) (c c1 : ClientV2)
    (part : String) (rest : List String) (err : SendError)
    (h : sendMessageDirect env c chatID part = some (c1, some err)) :
    sendParts env interval chatID c (part :: rest) = some (c1, some err) := by
  cases rest with
  | nil => rw [sendParts_singleton, h]
  | cons p2 rest2 => rw [sendParts_cons_cons, h]

theorem sendParts_step_ok (env : Env) (interval : Int) (chatID : Int) (c c1 : ClientV2)
    (part : String) (rest : List String) (hrest : rest ≠ [])
    (h : sendMessageDirect env c chatID part = some (c1, none)) :
    sendParts env interval chatID c (part :: rest)
      = sendParts env interval chatID (appendCalls c1 [ExternalCall.sleep interval]) rest := by
  cases rest with
  | nil => exact absurd rfl hrest
  | cons p2 rest2 =>
    rw [sendParts_cons_cons, h]
    rfl

theorem partsLog_cons_of_ne_nil (interval : Int) (peer : InputPeer) (part : String) (k : Nat)
    (rest : List (String × Nat)) (hrest : rest ≠ []) :
    partsLog interval peer ((part, k) :: rest)
      = List.replicate k (ExternalCall.sendMessage peer part) ++
          ExternalCall.sleep interval :: partsLog interval peer rest := by
  cases rest with
  | nil => exact absurd rfl hrest
  | cons pk rest2 => rw [partsLog_cons_cons]

/-- The session the loop has reached when a part was sent with `k` invocations and the
pause after it is over: the peer still resolves and the log holds `k` invocations
more. -/
theorem afterPart_facts (c : ClientV2) (chatID : Int) (peer : InputPeer) (interval : Int)
    (part : String) (k : Nat) (hpeer : resolvePeer c.DB chatID = Except.ok (c.DB, peer)) :
    resolvePeer (appendCalls (appendCalls c
        (List.replicate k (ExternalCall.sendMessage peer part)))
        [ExternalCall.sleep interval]).DB chatID
      = Except.ok ((appendCalls (appendCalls c
          (List.replicate k (ExternalCall.sendMessage peer part)))
          [ExternalCall.sleep interval]).DB, peer) ∧
    sendCount (appendCalls (appendCalls c
        (List.replicate k (ExternalCall.sendMessage peer part)))
        [ExternalCall.sleep interval]).calls = sendCount c.calls + k := by
  constructor
  · exact hpeer
  · show sendCount ((c.calls ++ List.replicate k (ExternalCall.sendMessage peer part)) ++
      [ExternalCall.sleep interval]) = _
    rw [sendCount_append_sleep, sendCount_append_replicate]

/-- When the send of every part succeeds, the loop returns nil and the log gains the
sends of all the parts, in order, with one pause between consecutive parts. -/
theorem sendParts_allSucceed (env : Env) (interval : Int) (chatID : Int) (peer : InputPeer)
    (parts : List String) :
    ∀ (c : ClientV2) (ks : List Nat), parts ≠ [] →
      resolvePeer c.DB chatID = Except.ok (c.DB, peer) → ks.length = parts.length →
      allSucceed env (sendCount c.calls) ks = true →
      sendParts env interval chatID c parts
        = some (appendCalls c (partsLog interval peer (parts.zip ks)), none) := by
  induction parts with
  | nil => intro c ks h; exact absurd rfl h
  | cons part rest ih =>
    intro c ks _ hpeer hlen hall
    cases ks with
    | nil => simp at hlen
    | cons k ks1 =>
      simp only [allSucceed, Bool.and_eq_true, decide_eq_true_eq] at hall
      obtain ⟨hk, hrest⟩ := hall
      have hsend := sendMessageDirect_transportOutcome env c chatID part peer hpeer
      rw [hk] at hsend
      simp only [Option.map_none'] at hsend
      by_cases hr : rest = []
      · subst hr
        have hks1 : ks1 = [] := by
          simp at hlen
          exact hlen
        subst hks1
        rw [sendParts_singleton, hsend]
        simp [partsLog_singleton]
      · obtain ⟨hp1, hc1⟩ := afterPart_facts c chatID peer interval part k hpeer
        rw [sendParts_step_ok env interval chatID c _ part rest hr hsend]
        rw [ih _ ks1 hr hp1 (by simpa using hlen) (by rw [hc1]; exact hrest)]
        have hz : rest.zip ks1 ≠ [] := by
          cases rest with
          | nil => exact absurd rfl hr
          | cons p2 r2 =>
            cases ks1 with
            | nil => simp at hlen
            | cons k2 ks2 => simp
        rw [List.zip_cons_cons, partsLog_cons_of_ne_nil _ _ _ _ _ hz, appendCalls_appendCalls,
          appendCalls_appendCalls]
        simp [List.append_assoc]

/-- When the sends of the parts `before` succeed and the send of the next part finally
fails, the loop returns that part's error; the log holds the sends of these parts, with
one pause between consecutive ones, and nothing of the parts `after`. -/
theorem sendParts_firstFailure (env : Env) (interval : Int) (chatID : Int) (peer : InputPeer)
    (part : String) (after : List String) (k : Nat) (err : RetryError String)
    (before : List String) :
    ∀ (c : ClientV2) (ks : List Nat),
      resolvePeer c.DB chatID = Except.ok (c.DB, peer) → ks.length = before.length →
      allSucceed env (sendCount c.calls) ks = true →
      transportOutcome env (sendCount c.calls + ks.sum) = (k, some err) →
      sendParts env interval chatID c (before ++ part :: after)
        = some (appendCalls c (partsLog interval peer ((before ++ [part]).zip (ks ++ [k]))),
            some (SendError.retry err)) := by
  induction before with
  | nil =>
    intro c ks hpeer hlen _ hout
    have hks : ks = [] := by simpa using hlen
    subst hks
    simp only [List.sum_nil, Nat.add_zero] at hout
    have hsend := sendMessageDirect_transportOutcome env c chatID part peer hpeer
    rw [hout] at hsend
    simp only [Option.map_some'] at hsend
    rw [List.nil_append, sendParts_step_err env interval chatID c _ part after _ hsend]
    simp [partsLog_singleton]
  | cons b bs ih =>
    intro c ks hpeer hlen hall hout
    cases ks with
    | nil => simp at hlen
    | cons k0 ks1 =>
      simp only [allSucceed, Bool.and_eq_true, decide_eq_true_eq] at hall
      obtain ⟨hk, hrest⟩ := hall
      have hsend := sendMessageDirect_transportOutcome env c chatID b peer hpeer
      rw [hk] at hsend
      simp only [Option.map_none'] at hsend
      obtain ⟨hp1, hc1⟩ := afterPart_facts c chatID peer interval b k0 hpeer
      have hsum : sendCount c.calls + (k0 :: ks1).sum = sendCount c.calls + k0 + ks1.sum := by
        simp [Nat.add_assoc]
      rw [hsum] at hout
      rw [List.cons_append,
        sendParts_step_ok env interval chatID c _ b (bs ++ part :: after) (by simp) hsend,
        ih _ ks1 hp1 (by simpa using hlen) (by rw [hc1]; exact hrest) (by rw [hc1]; exact hout)]
      have hz : (bs ++ [part]).zip (ks1 ++ [k]) ≠ [] := by
        cases bs with
        | nil =>
          cases ks1 with
          | nil => simp
          | cons k2 ks2 => simp at hlen
        | cons p2 r2 =>
          cases ks1 with
          | nil => simp at hlen
          | cons k2 ks2 => simp
      rw [List.cons_append, List.cons_append, List.zip_cons_cons,
        partsLog_cons_of_ne_nil _ _ _ _ _ hz, appendCalls_appendCalls, appendCalls_appendCalls]
      simp [List.append_assoc]

theorem transportOutcome_nil_pos (env : Env) (n k : Nat)
    (h : transportOutcome env n = (k, none)) : 1 ≤ k := by
  unfold transportOutcome at h
  cases hret : RetryWithBackoff (fun w => env.ctxDone (n + w))
      (fun j => (env.sendResult j, j + 1)) n with
  | none =>
    have hsome := Retry_isSome (fun w => env.ctxDone (n + w))
      (fun j => (env.sendResult j, j + 1)) DefaultRetryConfig n
    unfold RetryWithBackoff at hret
    rw [hret] at hsome
    simp at hsome
  | some o =>
    rw [hret] at h
    simp only [Prod.mk.injEq] at h
    obtain ⟨k1, hcalls, _, hpos⟩ := retryLoop_state _ _ _ _ _ _ _ _ _ _ o hret
    have := hpos h.2
    omega

theorem allSucceed_pos (env : Env) (ks : List Nat) :
    ∀ n, allSucceed env n ks = true → ∀ k ∈ ks, 1 ≤ k := by
  induction ks with
  | nil => intro n _ k hk; exact absurd hk (List.not_mem_nil _)
  | cons k0 ks1 ih =>
    intro n hall k hk
    simp only [allSucceed, Bool.and_eq_true, decide_eq_true_eq] at hall
    rcases List.mem_cons.1 hk with h | h
    · rw [h]
      exact transportOutcome_nil_pos env n k0 hall.1
    · exact ih _ hall.2 k h

/-- The log of a split send ends with a send of the last part, not with a pause, when
every part took at least one invocation. -/
theorem partsLog_getLast? (interval : Int) (peer : InputPeer) (l : List (String × Nat)) :
    (∀ pk ∈ l, 1 ≤ pk.2) → ∀ last, l.getLast? = some last →
      (partsLog interval peer l).getLast? = some (ExternalCall.sendMessage peer last.1) := by
  induction l with
  | nil => intro _ last h; simp at h
  | cons pk rest ih =>
    intro hpos last hlast
    obtain ⟨part, k⟩ := pk
    cases rest with
    | nil =>
      simp only [List.getLast?_singleton, Option.some.injEq] at hlast
      subst hlast
      rw [partsLog_singleton]
      have hk : 1 ≤ k := hpos (part, k) (List.mem_cons_self _ _)
      obtain ⟨j, rfl⟩ : ∃ j, k = j + 1 := ⟨k - 1, by omega⟩
      rw [List.replicate_succ', List.getLast?_append_of_ne_nil _ (by simp)]
      rfl
    | cons pk2 rest2 =>
      rw [List.getLast?_cons_cons] at hlast
      have hrec := ih (fun pk hpk => hpos pk (List.mem_cons_of_mem _ hpk)) last hlast
      rw [partsLog_cons_cons, List.getLast?_append_of_ne_nil _ (by simp)]
      cases hpl : partsLog interval peer (pk2 :: rest2) with
      | nil =>
        rw [hpl] at hrec
        simp at hrec
      | cons y ys =>
        rw [hpl] at hrec
        rw [List.getLast?_cons_cons]
        exact hrec

theorem zip_getLast? (parts : List String) :
    ∀ (ks : List Nat) (last : String), ks.length = parts.length →
      parts.getLast? = some last → ∃ k, (parts.zip ks).getLast? = some (last, k) := by
  induction parts with
  | nil => intro ks last _ h; simp at h
  | cons p rest ih =>
    intro ks last hlen hlast
    cases ks with
    | nil => simp at hlen
    | cons k ks1 =>
      cases rest with
      | nil =>
        simp only [List.getLast?_singleton, Option.some.injEq] at hlast
        subst hlast
        have hks1 : ks1 = [] := by simpa using hlen
        subst hks1
        exact ⟨k, rfl⟩
      | cons p2 rest2 =>
        cases ks1 with
        | nil => simp at hlen
        | cons k2 ks2 =>
          rw [List.getLast?_cons_cons] at hlast
          obtain ⟨k', hk'⟩ := ih (k2 :: ks2) last (by simpa using hlen) hlast
          refine ⟨k', ?_⟩
          rw [List.zip_cons_cons, List.zip_cons_cons, List.getLast?_cons_cons,
            ← List.zip_cons_cons]
          exact hk'

/-- C19: a reply that splits into n >= 2 parts is sent part by part, in order, each part
by one retried send whose outcome `transportOutcome` reads off the transport. The call
returns, changing nothing but the log of calls, and the log gains the sends of a
non-empty prefix of the parts. When the send of every part succeeds (part i at its
`ks[i]`-th invocation) the call returns nil and the log gains the sends of all the
parts, in order, with exactly n-1 pauses of `MultiMsgInterval` seconds (5 when the
configured value is not positive), one between consecutive parts, and it ends with a
send of the last part, not with a pause. When the sends of the parts before part i
succeed and the send of part i finally fails, the call returns that part's error and
the log holds the sends of the parts up to i and nothing of the parts after it. When
the peer cannot be resolved the first send fails with that error and nothing is sent. -/
theorem C19_split_send_sequence (env : Env) (c : ClientV2) (chatID : Int) (reply : String)
    (hsplit : c.Account.SplitByNewline = true) (hn : 2 ≤ (splitReply reply).length) :
    (∃ (r : Option SendError) (sent : List String) (ks : List Nat),
      sendReplyWithSplit env c chatID reply
        = some (appendCalls c (partsLog (effectiveMultiMsgInterval c.Account)
            (peerOf c.DB chatID) (sent.zip ks)), r) ∧
      sent <+: splitReply reply ∧ sent ≠ [] ∧ ks.length = sent.length) ∧
    (∀ (peer : InputPeer) (ks : List Nat),
      resolvePeer c.DB chatID = Except.ok (c.DB, peer) →
      ks.length = (splitReply reply).length →
      allSucceed env (sendCount c.calls) ks = true →
      sendReplyWithSplit env c chatID reply
        = some (appendCalls c (partsLog (effectiveMultiMsgInterval c.Account) peer
            ((splitReply reply).zip ks)), none) ∧
      pauses (partsLog (effectiveMultiMsgInterval c.Account) peer ((splitReply reply).zip ks))
        = List.replicate ((splitReply reply).length - 1)
            (effectiveMultiMsgInterval c.Account) ∧
      (∀ last, (splitReply reply).getLast? = some last →
        (partsLog (effectiveMultiMsgInterval c.Account) peer
            ((splitReply reply).zip ks)).getLast?
          = some (ExternalCall.sendMessage peer last))) ∧
    (∀ (peer : InputPeer) (before : List String) (part : String) (after : List String)
        (ks : List Nat) (k : Nat) (err : RetryError String),
      resolvePeer c.DB chatID = Except.ok (c.DB, peer) →
      splitReply reply = before ++ part :: after →
      ks.length = before.length →
      allSucceed env (sendCount c.calls) ks = true →
      transportOutcome env (sendCount c.calls + ks.sum) = (k, some err) →
      sendReplyWithSplit env c chatID reply
        = some (appendCalls c (partsLog (effectiveMultiMsgInterval c.Account) peer
            ((before ++ [part]).zip (ks ++ [k]))), some (SendError.retry err))) ∧
    (∀ e : SendError, resolvePeer c.DB chatID = Except.error e →
      sendReplyWithSplit env c chatID reply = some (c, some e)) := by
  have heq := sendReplyWithSplit_eq_sendParts env c chatID reply hsplit hn
  have hne : splitReply reply ≠ [] := by
    intro h
    rw [h] at hn
    simp at hn
  refine ⟨?_, ?_, ?_, ?_⟩
  · obtain ⟨r, sent, ks, hres, hpre, hsne, hlen, _⟩ :=
      sendParts_spec env (effectiveMultiMsgInterval c.Account) chatID (splitReply reply) c hne
    exact ⟨r, sent, ks, by rw [heq, hres], hpre, hsne, hlen⟩
  · intro peer ks hpeer hlen hall
    refine ⟨?_, ?_, ?_⟩
    · rw [heq]
      exact sendParts_allSucceed env _ chatID peer (splitReply reply) c ks hne hpeer hlen hall
    · rw [pauses_partsLog, List.length_zip, hlen, Nat.min_self]
    · intro last hlast
      have hpos := allSucceed_pos env ks _ hall
      obtain ⟨k, hk⟩ := zip_getLast? (splitReply reply) ks last hlen hlast
      exact partsLog_getLast? (effectiveMultiMsgInterval c.Account) peer
        ((splitReply reply).zip ks)
        (fun pk hpk => hpos pk.2 (List.of_mem_zip hpk).2) (last, k) hk
  · intro peer before part after ks k err hpeer hparts hlen hall hout
    rw [heq, hparts]
    exact sendParts_firstFailure env _ chatID peer part after k err before c ks hpeer hlen hall
      hout
  · intro e hres
    have hsend : ∀ text, sendMessageDirect env c chatID text = some (c, some e) := by
      intro text
      unfold sendMessageDirect
      rw [hres]
    rw [heq]
    cases hsp : splitReply reply with
    | nil => exact absurd hsp hne
    | cons part rest =>
      exact sendParts_step_err env _ chatID c c part rest e (hsend part)

/-- Witness of C19: a two-part reply sent by the example session (pause 5 s). Over a
transport that accepts every send both parts are sent, with one pause between them;
over a transport that accepts only the first invocation the second part is tried three
times and its error is returned. -/
theorem C19_split_send_sequence_witness :
    splitReply twoPartReply = ["this first line is long enough", "second line"] ∧
    (sendReplyWithSplit exampleEnv exampleClient 7 twoPartReply).map
        (fun r => (r.1.calls, r.2))
      = some ([ExternalCall.sendMessage (InputPeer.InputPeerChat 7)
                 "this first line is long enough",
               ExternalCall.sleep 5,
               ExternalCall.sendMessage (InputPeer.InputPeerChat 7) "second line"], none) ∧
    sendReplyWithSplit exampleEnv exampleClient 7 twoPartReply
      = some (appendCalls exampleClient (partsLog (effectiveMultiMsgInterval exampleClient.Account)
          (InputPeer.InputPeerChat 7) ((splitReply twoPartReply).zip [1, 1])), none) ∧
    sendReplyWithSplit firstOnlyEnv exampleClient 7 twoPartReply
      = some (appendCalls exampleClient (partsLog (effectiveMultiMsgInterval exampleClient.Account)
          (InputPeer.InputPeerChat 7)
          ((["this first line is long enough"] ++ ["second line"]).zip ([1] ++ [3]))),
          some (SendError.retry (RetryError.exhausted 3 (some "FLOOD_WAIT")))) ∧
    (sendReplyWithSplit firstOnlyEnv exampleClient 7 twoPartReply).map
        (fun r => (r.1.calls, r.2))
      = some ([ExternalCall.sendMessage (InputPeer.InputPeerChat 7)
                 "this first line is long enough",
               ExternalCall.sleep 5,
               ExternalCall.sendMessage (InputPeer.InputPeerChat 7) "second line",
               ExternalCall.sendMessage (InputPeer.InputPeerChat 7) "second line",
               ExternalCall.sendMessage (InputPeer.InputPeerChat 7) "second line"],
              some (SendError.retry (RetryError.exhausted 3 (some "FLOOD_WAIT")))) :=
  ⟨by decide, by decide,
   ((C19_split_send_sequence exampleEnv exampleClient 7 twoPartReply rfl (by decide)).2.1
      (InputPeer.InputPeerChat 7) [1, 1] rfl (by decide) (by decide)).1,
   (C19_split_send_sequence firstOnlyEnv exampleClient 7 twoPartReply rfl (by decide)).2.2.1
      (InputPeer.InputPeerChat 7) ["this first line is long enough"] "second line" [] [1] 3
      (RetryError.exhausted 3 (some "FLOOD_WAIT")) rfl (by decide) rfl (by decide) (by decide),
   by decide⟩

/-! ### The cycle of one conversation -/

/-- What a call of `sendReplyWithSplit` does: it returns, and it changes nothing but the
log of calls. -/
theorem sendReplyWithSplit_spec (env : Env) (c : ClientV2) (chatID : Int) (reply : String) :
    ∃ (r : Option SendError) (log : List ExternalCall),
      sendReplyWithSplit env c chatID reply = some (appendCalls c log, r) := by
  unfold sendReplyWithSplit
  split
  · obtain ⟨r, k, h, _⟩ := sendMessageDirect_appendCalls env c chatID reply
    exact ⟨r, _, h⟩
  · split
    · obtain ⟨r, k, h, _⟩ := sendMessageDirect_appendCalls env c chatID reply
      exact ⟨r, _, h⟩
    · rename_i hlen
      have hne : splitReply reply ≠ [] := by
        intro h
        rw [h] at hlen
        simp at hlen
      obtain ⟨r, sent, ks, h, _⟩ := sendParts_spec env
        (if c.Account.MultiMsgInterval ≤ 0 then 5 else c.Account.MultiMsgInterval) chatID
        (splitReply reply) c hne
      exact ⟨r, _, h⟩

/-- The cycle of a conversation whose gates are all open, up to the dispatch. -/
theorem processConversation_dispatch (env : Env) (inp : ConvInput) (c : ClientV2)
    (chatID : Int) (messages : List BufferedMessage) (accountGroup : AccountGroup)
    (reply : String) (hmsg : messages ≠ [])
    (hag : getGroupAssignment c chatID = some accountGroup)
    (hen : accountGroup.Enabled = true) (hauto : c.Account.AutoReply = true)
    (hgate : intervalGate c chatID inp.nowGate = true)
    (hdraw : inp.draw < effectiveReplyProbability c.Account accountGroup)
    (hgen : GenerateReply c.Account.AIApiKey inp.completion = Except.ok reply)
    (hreply : reply ≠ "") :
    processConversation env inp c chatID messages
      = match sendReplyWithSplit env (withGenerateCall c chatID messages) chatID reply with
        | none => none
        | some (c2, some _) => some c2
        | some (c2, none) =>
          some (saveMessageDirect
            (addMessageContext { c2 with LastReplyTime := c2.LastReplyTime.set chatID inp.nowSent }
              chatID (stimulus messages) reply) chatID reply) := by
  have hlen : ¬ messages.length = 0 := by
    intro h
    exact hmsg (List.length_eq_zero.1 h)
  have hdraw' : ¬ inp.draw ≥ effectiveReplyProbability c.Account accountGroup := by omega
  unfold processConversation
  simp only [hlen, if_false, hag, hen, hauto, hgate, hdraw', not_true_eq_false, hgen, hreply]
  rfl

/-- C16: when the generation of a cycle returns an error or an empty string, or the
dispatch of the reply fails, the cycle returns and leaves the last-reply times, the
histories and the store (with its sent-message log) exactly as they were; only the log
of calls made to the collaborators has grown. -/
theorem C16_failed_cycle_changes_nothing (env : Env) (inp : ConvInput) (c : ClientV2)
    (chatID : Int) (messages : List BufferedMessage)
    (hfail : (∃ e, GenerateReply c.Account.AIApiKey inp.completion = Except.error e) ∨
      GenerateReply c.Account.AIApiKey inp.completion = Except.ok "" ∨
      (∃ reply c2 err, GenerateReply c.Account.AIApiKey inp.completion = Except.ok reply ∧
        sendReplyWithSplit env (withGenerateCall c chatID messages) chatID reply
          = some (c2, some err))) :
    ∃ c1, processConversation env inp c chatID messages = some c1 ∧
      c1.LastReplyTime = c.LastReplyTime ∧ c1.MessageContext = c.MessageContext ∧
      c1.DB = c.DB ∧ c1.DB.messages = c.DB.messages ∧
      c1.Account = c.Account ∧ c1.messageBuffer = c.messageBuffer := by
  by_cases hmsg : messages = []
  · exact ⟨c, by simp [processConversation, hmsg], rfl, rfl, rfl, rfl, rfl, rfl⟩
  have hlen : ¬ messages.length = 0 := fun h => hmsg (List.length_eq_zero.1 h)
  cases hag : getGroupAssignment c chatID with
  | none => exact ⟨c, by simp [processConversation, hag], rfl, rfl, rfl, rfl, rfl, rfl⟩
  | some accountGroup =>
    by_cases hen : accountGroup.Enabled = true
    swap
    · exact ⟨c, by simp [processConversation, hag, hen], rfl, rfl, rfl, rfl, rfl, rfl⟩
    by_cases hauto : c.Account.AutoReply = true
    swap
    · exact ⟨c, by simp [processConversation, hag, hen, hauto], rfl, rfl, rfl, rfl, rfl, rfl⟩
    by_cases hgate : intervalGate c chatID inp.nowGate = true
    swap
    · exact ⟨c, by simp [processConversation, hag, hen, hauto, hgate],
        rfl, rfl, rfl, rfl, rfl, rfl⟩
    by_cases hdraw : inp.draw < effectiveReplyProbability c.Account accountGroup
    swap
    · have hdraw' : inp.draw ≥ effectiveReplyProbability c.Account accountGroup := by omega
      exact ⟨c, by simp [processConversation, hag, hen, hauto, hgate, hdraw'],
        rfl, rfl, rfl, rfl, rfl, rfl⟩
    have hdraw' : ¬ inp.draw ≥ effectiveReplyProbability c.Account accountGroup := by omega
    cases hgen : GenerateReply c.Account.AIApiKey inp.completion with
    | error e =>
      refine ⟨withGenerateCall c chatID messages, ?_, rfl, rfl, rfl, rfl, rfl, rfl⟩
      unfold processConversation
      simp only [hlen, if_false, hag, hen, hauto, hgate, hdraw', not_true_eq_false, hgen]
      rfl
    | ok reply =>
      by_cases hreply : reply = ""
      · refine ⟨withGenerateCall c chatID messages, ?_, rfl, rfl, rfl, rfl, rfl, rfl⟩
        unfold processConversation
        simp only [hlen, if_false, hag, hen, hauto, hgate, hdraw', not_true_eq_false, hgen,
          hreply, if_true]
        rfl
      · rw [processConversation_dispatch env inp c chatID messages accountGroup reply hmsg hag
          hen hauto hgate hdraw hgen hreply]
        obtain ⟨r, log, hsend⟩ :=
          sendReplyWithSplit_spec env (withGenerateCall c chatID messages) chatID reply
        rw [hsend]
        cases r with
        | some err => exact ⟨_, rfl, rfl, rfl, rfl, rfl, rfl, rfl⟩
        | none =>
          exfalso
          rcases hfail with ⟨e, he⟩ | he | ⟨reply', c2, err, hg, hs⟩
          · rw [hgen] at he
            cases he
          · rw [hgen] at he
            cases he
            exact hreply rfl
          · rw [hgen] at hg
            cases hg
            rw [hsend] at hs
            cases hs

/-- Witness of C16: a cycle of conversation 7 whose completion request fails, and one
whose reply is rejected by the transport; the last-reply time of 7 stays 0 and the
sent-message log stays empty. -/
theorem C16_failed_cycle_changes_nothing_witness :
    (∃ c1, processConversation exampleEnv failedGenerationInput exampleClient 7
        [{ Content := "hello", Timestamp := 0 }] = some c1 ∧
      c1.LastReplyTime = exampleClient.LastReplyTime ∧
      c1.MessageContext = exampleClient.MessageContext ∧ c1.DB = exampleClient.DB) ∧
    (processConversation rejectingEnv (exampleInput 100000000000 "hi") exampleClient 7
        [{ Content := "hello", Timestamp := 0 }]).map
        (fun c1 => (c1.LastReplyTime.get? 7, c1.DB.messages, c1.calls.length))
      = some (some 0, [], 4) := by
  refine ⟨?_, by decide⟩
  obtain ⟨c1, h, h1, h2, h3, _⟩ :=
    C16_failed_cycle_changes_nothing exampleEnv failedGenerationInput exampleClient 7
      [{ Content := "hello", Timestamp := 0 }] (Or.inl ⟨_, rfl⟩)
  exact ⟨c1, h, h1, h2, h3⟩

/-! ### The end-to-end tick -/

theorem reloadAccountConfig_fields (c : ClientV2) :
    (reloadAccountConfig c).DB = c.DB ∧
    (reloadAccountConfig c).LastReplyTime = c.LastReplyTime ∧
    (reloadAccountConfig c).MessageContext = c.MessageContext ∧
    (reloadAccountConfig c).messageBuffer = c.messageBuffer ∧
    (reloadAccountConfig c).calls = c.calls := by
  unfold reloadAccountConfig
  split <;> exact ⟨rfl, rfl, rfl, rfl, rfl⟩

theorem addMessageContext_fields (c : ClientV2) (chatID : Int) (userMsg aiReply : String) :
    (addMessageContext c chatID userMsg aiReply).DB = c.DB ∧
    (addMessageContext c chatID userMsg aiReply).LastReplyTime = c.LastReplyTime ∧
    (addMessageContext c chatID userMsg aiReply).messageBuffer = c.messageBuffer ∧
    (addMessageContext c chatID userMsg aiReply).calls = c.calls ∧
    (addMessageContext c chatID userMsg aiReply).Account = c.Account := by
  unfold addMessageContext
  simp only []
  split_ifs <;> exact ⟨rfl, rfl, rfl, rfl, rfl⟩

theorem saveMessageDirect_fields (c : ClientV2) (chatID : Int) (content : String) :
    (saveMessageDirect c chatID content).LastReplyTime = c.LastReplyTime ∧
    (saveMessageDirect c chatID content).MessageContext = c.MessageContext ∧
    (saveMessageDirect c chatID content).messageBuffer = c.messageBuffer ∧
    (saveMessageDirect c chatID content).calls = c.calls ∧
    (saveMessageDirect c chatID content).Account = c.Account := by
  unfold saveMessageDirect
  split <;> exact ⟨rfl, rfl, rfl, rfl, rfl⟩

/-- A map with a single bound key has a single entry. -/
theorem GoMap.entries_of_single {V : Type} (m : GoMap Int V) (k : Int) (v : V)
    (hk : m.get? k = some v) (hother : ∀ k', k' ≠ k → m.get? k' = none) :
    m.entries = [⟨k, v⟩] := by
  have hall : ∀ e ∈ m.entries, e = ⟨k, v⟩ := by
    intro e he
    obtain ⟨k', v'⟩ := e
    have hl : m.get? k' = some v' :=
      (AList.mem_lookup_iff (s := m) (a := k') (b := v')).2 he
    by_cases hkk : k' = k
    · subst hkk
      rw [hk] at hl
      cases hl
      rfl
    · rw [hother k' hkk] at hl
      cases hl
  have hmem : (⟨k, v⟩ : Sigma (fun _ : Int => V)) ∈ m.entries :=
    (AList.mem_lookup_iff (s := m) (a := k) (b := v)).1 hk
  have hnd := m.nodupKeys
  cases hent : m.entries with
  | nil => rw [hent] at hmem; exact absurd hmem (List.not_mem_nil _)
  | cons e rest =>
    rw [hent] at hall hnd
    have he := hall e (List.mem_cons_self _ _)
    cases rest with
    | nil => rw [he]
    | cons e2 rest2 =>
      have he2 := hall e2 (List.mem_cons_of_mem _ (List.mem_cons_self _ _))
      rw [List.nodupKeys_cons] at hnd
      exfalso
      apply hnd.1
      rw [he, he2]
      simp [List.keys]

theorem stimulus_three (m1 m2 m3 : BufferedMessage) :
    stimulus [m1, m2, m3]
      = m1.Content ++ "\n---\n" ++ m2.Content ++ "\n---\n" ++ m3.Content := by
  simp [stimulus, stringsJoin, String.intercalate, String.intercalate.go]

/-- Over a transport that accepts every send, the sending loop sends each part with one
invocation and returns nil. -/
theorem sendParts_accepted (env : Env) (interval : Int) (chatID : Int) (peer : InputPeer)
    (hsend : ∀ n, env.sendResult n = none) (parts : List String) :
    ∀ (c : ClientV2), parts ≠ [] → resolvePeer c.DB chatID = Except.ok (c.DB, peer) →
      sendParts env interval chatID c parts
        = some (appendCalls c (partsLog interval peer (parts.map (fun part => (part, 1)))),
            none) := by
  induction parts with
  | nil => intro c h; exact absurd rfl h
  | cons part rest ih =>
    intro c _ hpeer
    have h1 := sendMessageDirect_accepted env c chatID part c.DB peer hpeer (hsend _)
    cases rest with
    | nil =>
      rw [sendParts_singleton, h1]
      simp [partsLog_singleton, appendCalls]
    | cons p2 rest2 =>
      rw [sendParts_cons_cons, h1]
      have hrec := ih (appendCalls (appendCalls c [ExternalCall.sendMessage peer part])
        [ExternalCall.sleep interval]) (by simp) hpeer
      show sendParts env interval chatID
        (appendCalls (appendCalls c [ExternalCall.sendMessage peer part])
          [ExternalCall.sleep interval]) (p2 :: rest2) = _
      rw [hrec]
      simp only [List.map_cons]
      rw [partsLog_cons_cons, appendCalls_appendCalls, appendCalls_appendCalls]
      simp [List.append_assoc]

/-- Over a transport that accepts every send, `sendReplyWithSplit` returns nil and the
log gains exactly the dispatch of the reply. -/
theorem sendReplyWithSplit_accepted (env : Env) (c : ClientV2) (chatID : Int)
    (reply : String) (peer : InputPeer) (hsend : ∀ n, env.sendResult n = none)
    (hpeer : resolvePeer c.DB chatID = Except.ok (c.DB, peer)) :
    sendReplyWithSplit env c chatID reply
      = some (appendCalls c (dispatchLog c.Account peer reply), none) := by
  have h1 := sendMessageDirect_accepted env c chatID reply c.DB peer hpeer (hsend _)
  unfold sendReplyWithSplit dispatchLog
  by_cases hs : c.Account.SplitByNewline = true
  · by_cases hlen : (splitReply reply).length ≤ 1
    · simp only [hs, hlen, not_true_eq_false, if_false, if_true, false_or]
      rw [h1]
      rfl
    · have hne : splitReply reply ≠ [] := by
        intro h
        rw [h] at hlen
        simp at hlen
      simp only [hs, hlen, not_true_eq_false, if_false, false_or]
      exact sendParts_accepted env _ chatID peer hsend _ c hne hpeer
  · simp only [hs, not_false_eq_true, if_true, true_or]
    rw [h1]
    rfl
theorem processBufferedMessages_eq (env : Env) (inputs : Int → ConvInput) (c : ClientV2) :
    processBufferedMessages env inputs c
      = (drainBuffers (reloadAccountConfig c).messageBuffer).1.entries.foldl
          (fun acc e => acc.bind (fun c2 => processConversation env (inputs e.1) c2 e.1 e.2))
          (some (afterDrain c)) := rfl

/-- C12, as the claim states it, fails: in the end-to-end scenario the assignment of the
conversation carries the reply probability 0.3, which takes precedence over the
account's 100; with the draw 50 the tick drains the three messages but calls no
generation, sends nothing and records no last-reply time. -/
theorem C12_draw_can_block_the_tick :
    tickAccount.AutoReply = true ∧ tickAccount.ReplyProbability = 100 ∧
    tickAccount.ReplyInterval = 0 ∧
    (getGroupAssignment tickClient 7).map (fun ag => ag.Enabled) = some true ∧
    (processBufferedMessages exampleEnv (tickInputs 50) tickClient).map
        (fun c => (c.calls, c.LastReplyTime.get? 7, c.messageBuffer.getSlice 7))
      = some ([], none, []) := by
  decide

/-- C12 (amended): in a tick of an account with auto-reply on, for a conversation that
is assigned and enabled, has three messages buffered (the only pending ones) and no
earlier reply, with generation and every send succeeding, and with a draw below the
effective reply probability (the assignment's whole percent when that is positive,
otherwise the account's value): the tick drains the three messages, calls generation
exactly once with the three texts joined in arrival order, dispatches exactly one reply
(one send, or the sends of its parts) and records the current time as the
conversation's last-reply time. With an account-level probability of 100 every draw
below 100 qualifies when the assignment's whole percent is not positive. -/
theorem C12_end_to_end_tick (env : Env) (inputs : Int → ConvInput) (c : ClientV2)
    (chatID : Int) (m1 m2 m3 : BufferedMessage) (accountGroup : AccountGroup)
    (reply : String) (peer : InputPeer)
    (hauto : (reloadAccountConfig c).Account.AutoReply = true)
    (hag : getGroupAssignment (reloadAccountConfig c) chatID = some accountGroup)
    (hen : accountGroup.Enabled = true)
    (hbuf : c.messageBuffer.get? chatID = some [m1, m2, m3])
    (hothers : ∀ k, k ≠ chatID → c.messageBuffer.getSlice k = [])
    (hlast : c.LastReplyTime.get? chatID = none)
    (hdraw : (inputs chatID).draw
      < effectiveReplyProbability (reloadAccountConfig c).Account accountGroup)
    (hkey : (reloadAccountConfig c).Account.AIApiKey ≠ "")
    (hgen : (inputs chatID).completion = Completion.content reply) (hreply : reply ≠ "")
    (hpeer : resolvePeer c.DB chatID = Except.ok (c.DB, peer))
    (hsend : ∀ n, env.sendResult n = none) :
    (∃ c1, processBufferedMessages env inputs c = some c1 ∧
      c1.messageBuffer.getSlice chatID = [] ∧
      c1.calls = c.calls ++
        [ExternalCall.generate (reloadAccountConfig c).Account.AIApiKey
          (reloadAccountConfig c).Account.AIModel (reloadAccountConfig c).Account.SystemPrompt
          (promptPrefix ++ stimulus [m1, m2, m3]) (getMessageContext c chatID)] ++
        dispatchLog (reloadAccountConfig c).Account peer reply ∧
      c1.LastReplyTime.get? chatID = some (inputs chatID).nowSent) ∧
    stimulus [m1, m2, m3]
      = m1.Content ++ "\n---\n" ++ m2.Content ++ "\n---\n" ++ m3.Content ∧
    ((reloadAccountConfig c).Account.ReplyProbability = 100 →
      accountGroup.ReplyProbability.scale 100 ≤ 0 →
      ∀ draw : Int, draw < 100 →
        draw < effectiveReplyProbability (reloadAccountConfig c).Account accountGroup) := by
  obtain ⟨hDB, hLRT, hMC, hMB, hcalls⟩ := reloadAccountConfig_fields c
  refine ⟨?_, stimulus_three m1 m2 m3, ?_⟩
  · -- the drained map holds the conversation and nothing else
    have hentries : (drainBuffers (reloadAccountConfig c).messageBuffer).1.entries
        = [⟨chatID, [m1, m2, m3]⟩] := by
      rw [hMB]
      apply GoMap.entries_of_single
      · rw [drainBuffers_fst_get?, hbuf]
        rfl
      · intro k hk
        rw [drainBuffers_fst_get?]
        have hs := hothers k hk
        unfold GoMap.getSlice at hs
        cases hb : c.messageBuffer.get? k with
        | none => rfl
        | some l =>
          rw [hb] at hs
          simp only [Option.getD_some] at hs
          subst hs
          rfl
    have htick : processBufferedMessages env inputs c
        = processConversation env (inputs chatID) (afterDrain c) chatID [m1, m2, m3] := by
      rw [processBufferedMessages_eq, hentries]
      rfl
    have hgate : intervalGate (afterDrain c) chatID (inputs chatID).nowGate = true := by
      have h : (afterDrain c).LastReplyTime = c.LastReplyTime := hLRT
      simp only [intervalGate, h, hlast]
    have hgenr : GenerateReply (afterDrain c).Account.AIApiKey
        (inputs chatID).completion = Except.ok reply := by
      have h : (afterDrain c).Account = (reloadAccountConfig c).Account := rfl
      simp [GenerateReply, h, hkey, hgen]
    have hcycle := processConversation_dispatch env (inputs chatID) (afterDrain c)
      chatID [m1, m2, m3] accountGroup reply (by simp) hag hen hauto hgate hdraw hgenr hreply
    have hdispatch := sendReplyWithSplit_accepted env
      (withGenerateCall (afterDrain c) chatID [m1, m2, m3]) chatID reply peer hsend
      (by
        show resolvePeer (reloadAccountConfig c).DB chatID
          = Except.ok ((reloadAccountConfig c).DB, peer)
        rw [hDB]
        exact hpeer)
    rw [hdispatch] at hcycle
    rw [htick, hcycle]
    refine ⟨_, rfl, ?_, ?_, ?_⟩
    · rw [(saveMessageDirect_fields _ _ _).2.2.1, (addMessageContext_fields _ _ _ _).2.2.1]
      show (drainBuffers (reloadAccountConfig c).messageBuffer).2.getSlice chatID = []
      exact drainBuffers_snd_getSlice _ _
    · rw [(saveMessageDirect_fields _ _ _).2.2.2.1, (addMessageContext_fields _ _ _ _).2.2.2.1]
      show ((reloadAccountConfig c).calls ++ [generateCall (afterDrain c) chatID [m1, m2, m3]]) ++
        dispatchLog (reloadAccountConfig c).Account peer reply = _
      rw [hcalls]
      have hctx : getMessageContext (afterDrain c) chatID = getMessageContext c chatID := by
        have h : (afterDrain c).MessageContext = c.MessageContext := hMC
        simp only [getMessageContext, h]
      simp only [generateCall, hctx]
      rfl
    · rw [(saveMessageDirect_fields _ _ _).1, (addMessageContext_fields _ _ _ _).2.1]
      exact GoMap.get?_set_self _ _ _
  · intro hp hscale draw hd
    have heff : effectiveReplyProbability (reloadAccountConfig c).Account accountGroup = 100 := by
      simp only [effectiveReplyProbability, hscale, if_true, hp]
      rfl
    rw [heff]
    exact hd

/-- Witness of C12 (amended): the end-to-end scenario with the draw 20, below the
assignment's 30 percent. -/
theorem C12_end_to_end_tick_witness :
    (∃ c1, processBufferedMessages exampleEnv (tickInputs 20) tickClient = some c1 ∧
      c1.messageBuffer.getSlice 7 = [] ∧
      c1.calls = [ExternalCall.generate "key" "gpt-4o-mini" ""
          (promptPrefix ++ "a\n---\nb\n---\nc") [],
        ExternalCall.sendMessage (InputPeer.InputPeerChat 7) "hi"] ∧
      c1.LastReplyTime.get? 7 = some 2000) := by
  obtain ⟨c1, h1, h2, h3, h4⟩ := (C12_end_to_end_tick exampleEnv (tickInputs 20) tickClient 7
    { Content := "a", Timestamp := 1 } { Content := "b", Timestamp := 2 }
    { Content := "c", Timestamp := 3 } exampleAssignment "hi" (InputPeer.InputPeerChat 7)
    rfl rfl rfl (by decide)
    (fun k hk => by
      show (AList.lookup k (AList.insert (7 : Int) _ (∅ : MessageBuffer))).getD [] = []
      rw [AList.lookup_insert_ne hk]
      rfl)
    (by decide) (by decide) (by decide) rfl (by decide) rfl (fun _ => rfl)).1
  exact ⟨c1, h1, h2, h3, h4⟩

/-! ### Manual send -/

/-- The manual send path never writes to the store: whatever `SendMessageToGroup`
returns, the store, and with it the sent-message log, is as before. -/
theorem SendMessageToGroup_store (env : Env) (m m1 : Manager) (accountID groupID : Nat)
    (text : String) (r : Option ManagerError)
    (h : SendMessageToGroup env m accountID groupID text = some (m1, r)) :
    m1.db = m.db := by
  unfold SendMessageToGroup at h
  split at h
  · cases h; rfl
  · split at h
    · cases h; rfl
    · rename_i _ client _ _ group _
      have hsame : sendMessage env { client with DB := m.db } group.ChatID text 0
          = sendMessageDirect env { client with DB := m.db } group.ChatID text := rfl
      obtain ⟨r1, k, hsend, _⟩ :=
        sendMessageDirect_appendCalls env { client with DB := m.db } group.ChatID text
      rw [hsame, hsend] at h
      cases h
      rfl

/-- C20 fails on the code: a manual send of "hello" by account 1 to group 1, over a
transport that accepts it, returns nil and the message is transmitted, but the
sent-message log of the store is still empty: no record has been appended. -/
theorem C20_manual_send_writes_no_record :
    (SendMessageToGroup exampleEnv exampleManager 1 1 "hello").map
        (fun res => (res.2, res.1.db.messages,
          (res.1.clients.get? 1).map (fun client => client.calls)))
      = some (none, [],
          some [ExternalCall.sendMessage (InputPeer.InputPeerChat 7) "hello"]) := by
  decide

/-! ### Retry without attempts, reply probability zero -/

/-- C30: with `MaxRetries` <= 0, `Retry` never invokes the operation and never waits; it
returns the (non-nil) retries-exhausted error, and the error it wraps is nil. -/
theorem C30_retry_without_attempts {σ ε : Type} (ctx : Nat → Option ε)
    (fn : σ → Option ε × σ) (config : RetryConfig) (s : σ) (h : config.MaxRetries ≤ 0) :
    Retry ctx fn config s
      = some { result := some (RetryError.exhausted config.MaxRetries none), state := s,
               calls := 0, waits := [] } := by
  have h0 : config.MaxRetries.toNat = 0 := by omega
  have hlt : ¬ ((0 : Nat) : Int) < config.MaxRetries := by omega
  unfold Retry
  rw [h0]
  simp only [retryLoop, hlt, if_false]

/-- Witness of C30: zero attempts allowed, an operation that would fail. -/
theorem C30_retry_without_attempts_witness :
    Retry neverCancelled alwaysFail noAttemptConfig 5
      = some { result := some (RetryError.exhausted 0 none), state := 5, calls := 0,
               waits := [] } :=
  C30_retry_without_attempts neverCancelled alwaysFail noAttemptConfig 5 (by decide)

/-- C29: when the assignment's reply probability scaled to percent is not positive and
the account-level `ReplyProbability` is not positive either, the effective probability
is 100 and every draw of `rand.Intn(100)` passes the probability gate: a cycle whose
other gates are open goes on to the dispatch whatever the draw is. -/
theorem C29_zero_probability_always_replies (account : Account) (accountGroup : AccountGroup)
    (hgroup : accountGroup.ReplyProbability.scale 100 ≤ 0)
    (haccount : account.ReplyProbability ≤ 0) :
    effectiveReplyProbability account accountGroup = 100 ∧
    (∀ draw : Int, draw < 100 → ¬ draw ≥ effectiveReplyProbability account accountGroup) ∧
    (∀ (env : Env) (inp : ConvInput) (c : ClientV2) (chatID : Int)
        (messages : List BufferedMessage) (reply : String),
      c.Account = account → messages ≠ [] →
      getGroupAssignment c chatID = some accountGroup → accountGroup.Enabled = true →
      c.Account.AutoReply = true → intervalGate c chatID inp.nowGate = true →
      inp.draw < 100 →
      GenerateReply c.Account.AIApiKey inp.completion = Except.ok reply → reply ≠ "" →
      processConversation env inp c chatID messages
        = match sendReplyWithSplit env (withGenerateCall c chatID messages) chatID reply with
          | none => none
          | some (c2, some _) => some c2
          | some (c2, none) =>
            some (saveMessageDirect
              (addMessageContext
                { c2 with LastReplyTime := c2.LastReplyTime.set chatID inp.nowSent }
                chatID (stimulus messages) reply) chatID reply)) := by
  have heff : effectiveReplyProbability account accountGroup = 100 := by
    simp only [effectiveReplyProbability, hgroup, if_true, haccount]
  refine ⟨heff, ?_, ?_⟩
  · intro draw hd
    rw [heff]
    omega
  · intro env inp c chatID messages reply hacc hmsg hag hen hauto hgate hdraw hgen hreply
    exact processConversation_dispatch env inp c chatID messages accountGroup reply hmsg hag hen
      hauto hgate (by rw [hacc, heff]; exact hdraw) hgen hreply

/-- Witness of C29: an account configured with reply probability 0 and an assignment
with probability 0; the effective probability is 100. -/
theorem C29_zero_probability_always_replies_witness :
    effectiveReplyProbability (accountWithProbability 0) zeroProbabilityAssignment = 100 :=
  (C29_zero_probability_always_replies (accountWithProbability 0) zeroProbabilityAssignment
    (by decide) (by decide)).1

/-! ### Split-send: the shape of the parts -/

theorem splitReply_eq_mergeShortBytes (reply : String) :
    splitReply reply = mergeShortBytes 20 (trimmedLines reply) := by
  rw [splitReply_eq_foldl]
  exact foldl_mergeStep_bytes_start _ (trimmedLines_ne_empty reply)

theorem splitOnNewline_no_newline (l : List Char) :
    ∀ piece ∈ splitOnNewline l, '\n' ∉ piece := by
  induction l with
  | nil =>
    intro piece hp
    simp [splitOnNewline] at hp
    subst hp
    exact List.not_mem_nil _
  | cons c cs ih =>
    intro piece hp
    unfold splitOnNewline at hp
    split at hp
    · rcases List.mem_cons.1 hp with h | h
      · subst h
        exact List.not_mem_nil _
      · exact ih piece h
    · rename_i hc
      split at hp
      · simp at hp
        subst hp
        intro hmem
        simp at hmem
        exact hc hmem.symm
      · rename_i l ls heq
        rcases List.mem_cons.1 hp with h | h
        · subst h
          intro hmem
          rcases List.mem_cons.1 hmem with h1 | h1
          · exact hc h1.symm
          · exact ih l (by rw [heq]; exact List.mem_cons_self _ _) h1
        · exact ih piece (by rw [heq]; exact List.mem_cons_of_mem _ h)

theorem stringsTrimSpace_data (s : String) :
    (stringsTrimSpace s).data = List.rdropWhile isSpace (s.data.dropWhile isSpace) := rfl

theorem stringsTrimSpace_head (s : String) (ch : Char)
    (h : (stringsTrimSpace s).data.head? = some ch) : isSpace ch = false := by
  rw [stringsTrimSpace_data] at h
  obtain ⟨t, ht⟩ := List.rdropWhile_prefix isSpace (l := s.data.dropWhile isSpace)
  have h1 : (s.data.dropWhile isSpace).head? = some ch := by
    rw [← ht]
    cases hr : List.rdropWhile isSpace (s.data.dropWhile isSpace) with
    | nil => rw [hr] at h; simp at h
    | cons a as => rw [hr] at h; simpa using h
  have h2 := List.head?_dropWhile_not isSpace s.data
  rw [h1] at h2
  simpa using h2

theorem stringsTrimSpace_last (s : String) (ch : Char)
    (h : (stringsTrimSpace s).data.getLast? = some ch) : isSpace ch = false := by
  rw [stringsTrimSpace_data] at h
  have hne : List.rdropWhile isSpace (s.data.dropWhile isSpace) ≠ [] := by
    intro hnil
    rw [hnil] at h
    simp at h
  have h1 := List.rdropWhile_last_not isSpace (s.data.dropWhile isSpace) hne
  rw [List.getLast?_eq_getLast _ hne] at h
  have h2 := Option.some.inj h
  rw [h2] at h1
  simpa using h1

theorem trimmedLines_trimmedPart (reply : String) :
    ∀ t ∈ trimmedLines reply, trimmedPart t := by
  intro t ht
  have hne := trimmedLines_ne_empty reply t ht
  simp only [trimmedLines, List.mem_filter, List.mem_map, stringsSplitNewline] at ht
  obtain ⟨⟨line, ⟨piece, hpiece, hline⟩, hlt⟩, _⟩ := ht
  subst hlt
  refine ⟨hne, ?_, stringsTrimSpace_head line, stringsTrimSpace_last line⟩
  intro hmem
  have h1 := stringsTrimSpace_subset line _ hmem
  subst hline
  exact splitOnNewline_no_newline reply.data piece hpiece h1

theorem trimmedPart_merge (a b : String) (ha : trimmedPart a) (hb : trimmedPart b) :
    trimmedPart (a ++ " " ++ b) := by
  obtain ⟨ha0, ha1, ha2, _⟩ := ha
  obtain ⟨hb0, hb1, _, hb3⟩ := hb
  have hda : a.data ≠ [] := (string_ne_empty_iff a).1 ha0
  have hdb : b.data ≠ [] := (string_ne_empty_iff b).1 hb0
  refine ⟨append_ne_empty _ _ hb0, ?_, ?_, ?_⟩
  · simp only [String.data_append, List.mem_append, not_or]
    refine ⟨⟨ha1, ?_⟩, hb1⟩
    decide
  · intro ch hch
    apply ha2 ch
    rw [String.data_append, String.data_append, List.append_assoc] at hch
    cases hd : a.data with
    | nil => exact absurd hd hda
    | cons x xs => rw [hd] at hch; simpa using hch
  · intro ch hch
    apply hb3 ch
    rw [String.data_append, List.getLast?_append_of_ne_nil _ hdb] at hch
    exact hch

theorem trimmedPart_fixed (p : String) (h : trimmedPart p) : stringsTrimSpace p = p := by
  obtain ⟨h0, _, h2, h3⟩ := h
  have hd : p.data ≠ [] := (string_ne_empty_iff p).1 h0
  apply String.ext
  rw [stringsTrimSpace_data]
  have h1 : p.data.dropWhile isSpace = p.data := by
    cases hp : p.data with
    | nil => rfl
    | cons x xs =>
      have hx := h2 x (by rw [hp]; rfl)
      simp [List.dropWhile, hx]
  rw [h1, List.rdropWhile_eq_self_iff]
  intro hl
  have hx := h3 (p.data.getLast hl) (List.getLast?_eq_getLast _ hl)
  simp [hx]

theorem mergeShortBytesFrom_ne_nil (ts : List String) :
    ∀ cur : String, mergeShortBytesFrom 20 cur ts ≠ [] := by
  induction ts with
  | nil => intro cur; simp [mergeShortBytesFrom]
  | cons t rest ih =>
    intro cur
    rw [mergeShortBytesFrom]
    split
    · exact ih _
    · exact List.cons_ne_nil _ _

theorem mergeShortBytesFrom_trimmedPart (ts : List String) :
    ∀ cur : String, trimmedPart cur → (∀ t ∈ ts, trimmedPart t) →
      ∀ p ∈ mergeShortBytesFrom 20 cur ts, trimmedPart p := by
  induction ts with
  | nil =>
    intro cur hcur _ p hp
    simp [mergeShortBytesFrom] at hp
    subst hp
    exact hcur
  | cons t rest ih =>
    intro cur hcur hts p hp
    have ht := hts t (List.mem_cons_self _ _)
    have hrest : ∀ t' ∈ rest, trimmedPart t' :=
      fun t' h' => hts t' (List.mem_cons_of_mem _ h')
    rw [mergeShortBytesFrom] at hp
    split at hp
    · exact ih _ (trimmedPart_merge cur t hcur ht) hrest p hp
    · rcases List.mem_cons.1 hp with h | h
      · subst h
        exact hcur
      · exact ih t ht hrest p h

theorem mergeShortBytesFrom_dropLast (ts : List String) :
    ∀ cur : String, ∀ p ∈ (mergeShortBytesFrom 20 cur ts).dropLast, 20 ≤ len p := by
  induction ts with
  | nil =>
    intro cur p hp
    simp [mergeShortBytesFrom] at hp
  | cons t rest ih =>
    intro cur p hp
    rw [mergeShortBytesFrom] at hp
    split at hp
    · exact ih _ p hp
    · rename_i hlong
      rw [List.dropLast_cons_of_ne_nil (mergeShortBytesFrom_ne_nil rest t)] at hp
      rcases List.mem_cons.1 hp with h | h
      · subst h
        omega
      · exact ih t p h

/-- C27: every part computed by the split of `sendReplyWithSplit` is non-empty, contains
no newline, and neither starts nor ends with a space character (trimming it changes
nothing); every part except possibly the last is at least 20 bytes long. -/
theorem C27_split_parts_are_trimmed (reply : String) :
    (∀ p ∈ splitReply reply,
      p ≠ "" ∧ '\n' ∉ p.data ∧
      (∀ ch, p.data.head? = some ch → isSpace ch = false) ∧
      (∀ ch, p.data.getLast? = some ch → isSpace ch = false) ∧
      stringsTrimSpace p = p) ∧
    (∀ p ∈ (splitReply reply).dropLast, 20 ≤ len p) := by
  rw [splitReply_eq_mergeShortBytes]
  have hts := trimmedLines_trimmedPart reply
  cases hl : trimmedLines reply with
  | nil =>
    simp [mergeShortBytes]
  | cons t rest =>
    rw [hl] at hts
    simp only [mergeShortBytes]
    refine ⟨?_, mergeShortBytesFrom_dropLast rest t⟩
    intro p hp
    have hp1 := mergeShortBytesFrom_trimmedPart rest t (hts t (List.mem_cons_self _ _))
      (fun t' h' => hts t' (List.mem_cons_of_mem _ h')) p hp
    exact ⟨hp1.1, hp1.2.1, hp1.2.2.1, hp1.2.2.2, trimmedPart_fixed p hp1⟩

theorem intercalateGo_nil (acc sep : String) : String.intercalate.go acc sep [] = acc := rfl

theorem intercalateGo_cons (acc sep a : String) (l : List String) :
    String.intercalate.go acc sep (a :: l) = String.intercalate.go (acc ++ sep ++ a) sep l :=
  rfl

theorem intercalateGo_mergeShortBytesFrom (ts : List String) :
    ∀ acc cur : String,
      String.intercalate.go acc " " (mergeShortBytesFrom 20 cur ts)
        = String.intercalate.go (acc ++ " " ++ cur) " " ts := by
  induction ts with
  | nil =>
    intro acc cur
    simp [mergeShortBytesFrom, intercalateGo_cons, intercalateGo_nil]
  | cons t rest ih =>
    intro acc cur
    rw [mergeShortBytesFrom]
    split
    · rw [ih, intercalateGo_cons]
      simp only [String.append_assoc]
    · rw [intercalateGo_cons, ih, intercalateGo_cons]

theorem intercalate_mergeShortBytesFrom (ts : List String) :
    ∀ cur : String,
      " ".intercalate (mergeShortBytesFrom 20 cur ts) = String.intercalate.go cur " " ts := by
  induction ts with
  | nil =>
    intro cur
    simp [mergeShortBytesFrom, String.intercalate, intercalateGo_nil]
  | cons t rest ih =>
    intro cur
    rw [mergeShortBytesFrom]
    split
    · rw [ih, intercalateGo_cons]
    · rw [intercalateGo_cons]
      simp only [String.intercalate]
      rw [intercalateGo_mergeShortBytesFrom]

/-- C28: splitting loses and reorders no text: joining the parts computed by the split
of `sendReplyWithSplit` with single spaces gives the reply's non-blank lines, each
trimmed with `strings.TrimSpace`, joined in their original order with single spaces. -/
theorem C28_split_loses_no_text (reply : String) :
    stringsJoin (splitReply reply) " "
      = stringsJoin
          (((stringsSplitNewline reply).map stringsTrimSpace).filter
            (fun l => decide (l ≠ ""))) " " := by
  rw [splitReply_eq_mergeShortBytes]
  unfold stringsJoin
  change " ".intercalate (mergeShortBytes 20 (trimmedLines reply))
    = " ".intercalate (trimmedLines reply)
  cases trimmedLines reply with
  | nil => rfl
  | cons t rest =>
    simp only [mergeShortBytes]
    rw [intercalate_mergeShortBytesFrom]
    rfl

/-- Witness of C27: a reply of three lines, one of them blank; the first part is
25 bytes long and the last part is already trimmed. -/
theorem C27_split_parts_are_trimmed_witness :
    splitReply " first line is long enough \n\n  second " = ["first line is long enough", "second"] ∧
    20 ≤ len "first line is long enough" ∧ stringsTrimSpace "second" = "second" :=
  ⟨by decide,
   (C27_split_parts_are_trimmed " first line is long enough \n\n  second ").2
     "first line is long enough" (by decide),
   ((C27_split_parts_are_trimmed " first line is long enough \n\n  second ").1
     "second" (by decide)).2.2.2.2⟩

/-! ### The push sink -/

theorem bufferAppend_get?_ne (account : Account) (buf : MessageBuffer) (chatID k : Int)
    (text : String) (now : Int) (hk : k ≠ chatID) :
    (bufferAppend account buf chatID text now).get? k = buf.get? k := by
  unfold bufferAppend
  simp only []
  split_ifs <;> simp only [GoMap.get?_set_ne _ _ hk]

theorem keepLast_snoc_getLast? {α : Type} (n : Nat) (hn : 0 < n) (l : List α) (x : α) :
    (keepLast n (l ++ [x])).getLast? = some x := by
  unfold keepLast
  rw [List.drop_append_of_le_length (by simp; omega)]
  simp

/-- C24: `bufferMessage` never returns an error. A message that is not self-authored,
has a non-empty text and whose peer is a channel or a group gets exactly one entry,
carrying its text, appended to the buffer of its channel or chat id (the buffer then
keeps its most recent `bufferSize` entries, the new one among them) and the buffers of
the other conversations are unchanged; for anything else (a self-authored message, an
empty text, a private peer, no peer, something that is not a message) the buffer is
left unchanged. -/
theorem C24_push_sink_filter (account : Account) (buf : MessageBuffer) (msg : MessageClass)
    (now : Int) :
    (bufferMessage account buf msg now).2 = none ∧
    (∀ (message : TgMessage) (chatID : Int), msg = MessageClass.Message message →
      message.Out = false → message.Message ≠ "" → groupPeerID message = some chatID →
      (bufferMessage account buf msg now).1 = bufferAppend account buf chatID message.Message now ∧
      (bufferMessage account buf msg now).1.get? chatID
        = some (keepLast (effectiveBufferSize account).toNat
            (buf.getSlice chatID ++ [{ Content := message.Message, Timestamp := now }])) ∧
      ((bufferMessage account buf msg now).1.getSlice chatID).getLast?
        = some { Content := message.Message, Timestamp := now } ∧
      (∀ k, k ≠ chatID → (bufferMessage account buf msg now).1.get? k = buf.get? k)) ∧
    ((∀ message, msg = MessageClass.Message message →
        message.Out = true ∨ message.Message = "" ∨ groupPeerID message = none) →
      (bufferMessage account buf msg now).1 = buf) := by
  refine ⟨?_, ?_, ?_⟩
  · unfold bufferMessage
    split
    · split
      · rfl
      · simp only []
        split
        · rfl
        · split <;> rfl
    · rfl
  · intro message chatID hmsg hout htext hpeer
    have hbuf : (bufferMessage account buf msg now).1
        = bufferAppend account buf chatID message.Message now := by
      subst hmsg
      unfold bufferMessage
      simp only [hout, htext, if_false, Bool.false_eq_true]
      unfold groupPeerID at hpeer
      split at hpeer
      · rename_i h
        rw [h]
        simp only [Option.some.injEq] at hpeer
        rw [hpeer]
      · rename_i h
        rw [h]
        simp only [Option.some.injEq] at hpeer
        rw [hpeer]
      · exact absurd hpeer (by simp)
    rw [hbuf]
    refine ⟨rfl, bufferAppend_get?_eff _ _ _ _ _, ?_, ?_⟩
    · have hpos := effectiveBufferSize_pos account
      simp only [GoMap.getSlice, bufferAppend_get?_eff, Option.getD_some]
      exact keepLast_snoc_getLast? _ (by omega) _ _
    · intro k hk
      exact bufferAppend_get?_ne _ _ _ _ _ _ hk
  · intro h
    unfold bufferMessage
    split
    · rename_i message
      rcases h message rfl with h1 | h1 | h1
      · simp [h1]
      · simp [h1]
      · split
        · rfl
        · simp only []
          split
          · rfl
          · unfold groupPeerID at h1
            split <;> rename_i hp <;> simp [hp] at h1 <;> rfl
    · rfl

/-- Witness of C24: the message "hello" of chat 7 reaches the buffer of conversation 7,
which held nothing; the same message marked as self-authored changes nothing. -/
theorem C24_push_sink_filter_witness :
    (bufferMessage exampleAccount ∅ (MessageClass.Message exampleGroupMessage) 5).1.get? 7
      = some [{ Content := "hello", Timestamp := 5 }] ∧
    (bufferMessage exampleAccount ∅
      (MessageClass.Message { exampleGroupMessage with Out := true }) 5).1 = ∅ :=
  ⟨((C24_push_sink_filter exampleAccount ∅ (MessageClass.Message exampleGroupMessage) 5).2.1
      exampleGroupMessage 7 rfl rfl (by decide) rfl).2.1,
   (C24_push_sink_filter exampleAccount ∅
      (MessageClass.Message { exampleGroupMessage with Out := true }) 5).2.2
      (fun message h => Or.inl (by cases h; rfl))⟩

/-! ### The poller: de-duplication -/

theorem GoMap.getInt_set_self (m : GoMap Int Int) (k v : Int) : (m.set k v).getInt k = v := by
  simp [GoMap.getInt, GoMap.get?_set_self]

/-- The loop of one poll, from a state whose mark is at least `lastID`: the ids reported
are those of the accepted messages, the mark is the maximum of the mark and these ids,
the buffer received the accepted messages in order. -/
theorem foldl_pollStep (account : Account) (chatID lastID now : Int) (messages : List TgMessage) :
    ∀ st : PollState,
      (messages.foldl (pollStep account chatID lastID now) st).buffered
        = st.buffered ++ (pollAccepted lastID messages).map (fun m => m.ID) ∧
      (messages.foldl (pollStep account chatID lastID now) st).lastMsgIDs.getInt chatID
        = ((pollAccepted lastID messages).map (fun m => m.ID)).foldl max
            (st.lastMsgIDs.getInt chatID) ∧
      (messages.foldl (pollStep account chatID lastID now) st).messageBuffer
        = (pollAccepted lastID messages).foldl
            (fun b m => pollAppend account b chatID m.Message now) st.messageBuffer := by
  induction messages with
  | nil => intro st; simp [pollAccepted]
  | cons msg rest ih =>
    intro st
    rw [List.foldl_cons]
    by_cases hacc : (decide (lastID < msg.ID) && !msg.Out && decide (msg.Message ≠ "")) = true
    · have hfilter : pollAccepted lastID (msg :: rest) = msg :: pollAccepted lastID rest := by
        simp only [pollAccepted, List.filter_cons]
        rw [if_pos hacc]
      simp only [Bool.and_eq_true, decide_eq_true_eq, Bool.not_eq_true'] at hacc
      obtain ⟨⟨h1, h2⟩, h3⟩ := hacc
      have hstep : pollStep account chatID lastID now st msg
          = { lastMsgIDs :=
                if msg.ID > st.lastMsgIDs.getInt chatID then st.lastMsgIDs.set chatID msg.ID
                else st.lastMsgIDs,
              messageBuffer := pollAppend account st.messageBuffer chatID msg.Message now,
              buffered := st.buffered ++ [msg.ID] } := by
        unfold pollStep
        rw [if_neg (by omega), h2, if_neg (by simp), if_neg h3]
      have hmark : (pollStep account chatID lastID now st msg).lastMsgIDs.getInt chatID
          = max (st.lastMsgIDs.getInt chatID) msg.ID := by
        rw [hstep]
        simp only []
        split
        · rw [GoMap.getInt_set_self]
          omega
        · omega
      obtain ⟨ih1, ih2, ih3⟩ := ih (pollStep account chatID lastID now st msg)
      rw [ih1, ih2, ih3, hfilter, hmark]
      refine ⟨?_, ?_, ?_⟩
      · rw [hstep]
        simp
      · simp
      · rw [hstep]
        simp
    · have hfilter : pollAccepted lastID (msg :: rest) = pollAccepted lastID rest := by
        simp only [pollAccepted, List.filter_cons]
        rw [if_neg hacc]
      have hstep : pollStep account chatID lastID now st msg = st := by
        unfold pollStep
        by_cases h1 : msg.ID ≤ lastID
        · rw [if_pos h1]
        · rw [if_neg h1]
          cases h2 : msg.Out with
          | true => simp
          | false =>
            by_cases h3 : msg.Message = ""
            · simp [h3]
            · exfalso
              apply hacc
              simp only [Bool.and_eq_true, decide_eq_true_eq, Bool.not_eq_true']
              exact ⟨⟨by omega, h2⟩, h3⟩
      rw [hstep, hfilter]
      exact ih st

theorem foldl_max_ge_init (l : List Int) : ∀ a : Int, a ≤ l.foldl max a := by
  induction l with
  | nil => intro a; simp
  | cons x xs ih =>
    intro a
    rw [List.foldl_cons]
    exact le_trans (le_max_left a x) (ih _)

theorem foldl_max_ge_mem (l : List Int) : ∀ a : Int, ∀ x ∈ l, x ≤ l.foldl max a := by
  induction l with
  | nil => intro a x hx; exact absurd hx (List.not_mem_nil _)
  | cons y ys ih =>
    intro a x hx
    rw [List.foldl_cons]
    rcases List.mem_cons.1 hx with h | h
    · subst h
      exact le_trans (le_max_right a x) (foldl_max_ge_init ys _)
    · exact ih _ x h

theorem pollAccepted_spec (lastID : Int) (messages : List TgMessage) :
    ∀ m ∈ pollAccepted lastID messages,
      m ∈ messages ∧ lastID < m.ID ∧ m.Out = false ∧ m.Message ≠ "" := by
  intro m hm
  simp only [pollAccepted, List.mem_filter, Bool.and_eq_true, decide_eq_true_eq,
    Bool.not_eq_true'] at hm
  exact ⟨hm.1, hm.2.1.1, hm.2.1.2, hm.2.2⟩

theorem pollAccepted_nodup (lastID : Int) (messages : List TgMessage)
    (h : (messages.map (fun m => m.ID)).Nodup) :
    ((pollAccepted lastID messages).map (fun m => m.ID)).Nodup :=
  List.Nodup.sublist (List.Sublist.map _ (List.filter_sublist _)) h

/-- One poll, described: the summary of `foldl_pollStep` at the mark read by the poll. -/
theorem pollMessages_spec (account : Account) (chatID now : Int) (st : PollState)
    (messages : List TgMessage) :
    (pollMessages account chatID now st messages).buffered
      = st.buffered ++
          (pollAccepted (st.lastMsgIDs.getInt chatID) messages).map (fun m => m.ID) ∧
    (pollMessages account chatID now st messages).lastMsgIDs.getInt chatID
      = ((pollAccepted (st.lastMsgIDs.getInt chatID) messages).map (fun m => m.ID)).foldl max
          (st.lastMsgIDs.getInt chatID) ∧
    (pollMessages account chatID now st messages).messageBuffer
      = (pollAccepted (st.lastMsgIDs.getInt chatID) messages).foldl
          (fun b m => pollAppend account b chatID m.Message now) st.messageBuffer :=
  foldl_pollStep account chatID (st.lastMsgIDs.getInt chatID) now messages st

/-- The invariant of the poller: the reported ids are distinct and none is above the
mark. -/
theorem pollMessages_invariant (account : Account) (chatID now : Int) (st : PollState)
    (messages : List TgMessage) (hdistinct : (messages.map (fun m => m.ID)).Nodup)
    (hnodup : st.buffered.Nodup)
    (hmark : ∀ id ∈ st.buffered, id ≤ st.lastMsgIDs.getInt chatID) :
    (pollMessages account chatID now st messages).buffered.Nodup ∧
    (∀ id ∈ (pollMessages account chatID now st messages).buffered,
      id ≤ (pollMessages account chatID now st messages).lastMsgIDs.getInt chatID) ∧
    st.lastMsgIDs.getInt chatID
      ≤ (pollMessages account chatID now st messages).lastMsgIDs.getInt chatID := by
  obtain ⟨h1, h2, _⟩ := pollMessages_spec account chatID now st messages
  rw [h1, h2]
  refine ⟨?_, ?_, foldl_max_ge_init _ _⟩
  · rw [List.nodup_append]
    refine ⟨hnodup, pollAccepted_nodup _ _ hdistinct, ?_⟩
    intro id hold hnew
    obtain ⟨m, hm, hid⟩ := List.mem_map.1 hnew
    have := (pollAccepted_spec _ _ m hm).2.1
    have := hmark id hold
    omega
  · intro id hid
    rcases List.mem_append.1 hid with h | h
    · exact le_trans (hmark id h) (foldl_max_ge_init _ _)
    · exact foldl_max_ge_mem _ _ id h

theorem pollAll_invariant (account : Account) (chatID : Int)
    (polls : List (Int × List TgMessage)) :
    ∀ st : PollState, (∀ poll ∈ polls, (poll.2.map (fun m => m.ID)).Nodup) →
      st.buffered.Nodup → (∀ id ∈ st.buffered, id ≤ st.lastMsgIDs.getInt chatID) →
      (pollAll account chatID st polls).buffered.Nodup ∧
      st.lastMsgIDs.getInt chatID ≤ (pollAll account chatID st polls).lastMsgIDs.getInt chatID := by
  induction polls with
  | nil => intro st _ hn _; exact ⟨hn, le_refl _⟩
  | cons poll rest ih =>
    intro st hd hn hm
    obtain ⟨h1, h2, h3⟩ := pollMessages_invariant account chatID poll.1 st poll.2
      (hd poll (List.mem_cons_self _ _)) hn hm
    obtain ⟨h4, h5⟩ := ih (pollMessages account chatID poll.1 st poll.2)
      (fun p hp => hd p (List.mem_cons_of_mem _ hp)) h1 h2
    exact ⟨h4, le_trans h3 h5⟩

/-- C25: the poller of one conversation never appends a message id twice: over any
sequence of polls whose fetched histories each list distinct ids, started with nothing
reported yet, the ids reported as appended are pairwise distinct and the high-water
mark at the end is not below the one at the start. For every single poll, from any
state: the messages appended are those of the history whose id is above the mark read
by the poll, that are not self-authored and whose text is not empty, in the order of
the history; the mark after the poll is the maximum of the mark before it and the ids
of these messages, hence never below the mark before it. -/
theorem C25_poller_appends_each_id_once (account : Account) (chatID : Int) (st : PollState)
    (polls : List (Int × List TgMessage)) (hstart : st.buffered = [])
    (hdistinct : ∀ poll ∈ polls, (poll.2.map (fun m => m.ID)).Nodup) :
    (pollAll account chatID st polls).buffered.Nodup ∧
    st.lastMsgIDs.getInt chatID ≤ (pollAll account chatID st polls).lastMsgIDs.getInt chatID ∧
    (∀ (s : PollState) (now : Int) (messages : List TgMessage),
      (pollMessages account chatID now s messages).buffered
        = s.buffered ++
            (pollAccepted (s.lastMsgIDs.getInt chatID) messages).map (fun m => m.ID) ∧
      (pollMessages account chatID now s messages).messageBuffer
        = (pollAccepted (s.lastMsgIDs.getInt chatID) messages).foldl
            (fun b m => pollAppend account b chatID m.Message now) s.messageBuffer ∧
      (pollMessages account chatID now s messages).lastMsgIDs.getInt chatID
        = ((pollAccepted (s.lastMsgIDs.getInt chatID) messages).map (fun m => m.ID)).foldl max
            (s.lastMsgIDs.getInt chatID) ∧
      s.lastMsgIDs.getInt chatID
        ≤ (pollMessages account chatID now s messages).lastMsgIDs.getInt chatID ∧
      (∀ m ∈ pollAccepted (s.lastMsgIDs.getInt chatID) messages,
        m ∈ messages ∧ s.lastMsgIDs.getInt chatID < m.ID ∧ m.Out = false ∧ m.Message ≠ "")) := by
  obtain ⟨h1, h2⟩ := pollAll_invariant account chatID polls st hdistinct
    (by rw [hstart]; exact List.nodup_nil) (by rw [hstart]; intro id hid; simp at hid)
  refine ⟨h1, h2, ?_⟩
  intro s now messages
  obtain ⟨h3, h4, h5⟩ := pollMessages_spec account chatID now s messages
  refine ⟨h3, h5, h4, ?_, pollAccepted_spec _ _⟩
  rw [h4]
  exact foldl_max_ge_init _ _

/-- Witness of C25: two overlapping histories of conversation 7; the ids 5 and 3 are
appended by the first poll, only 6 by the second, and the mark ends at 6. -/
theorem C25_poller_appends_each_id_once_witness :
    (pollAll exampleAccount 7 freshPollState examplePolls).buffered = [5, 3, 6] ∧
    (pollAll exampleAccount 7 freshPollState examplePolls).lastMsgIDs.getInt 7 = 6 ∧
    (pollAll exampleAccount 7 freshPollState examplePolls).buffered.Nodup :=
  ⟨by decide, by decide,
   (C25_poller_appends_each_id_once exampleAccount 7 freshPollState examplePolls rfl
      (by decide)).1⟩

/-! ### Send path: the missing access hash -/

theorem resolvePeer_eq_with : resolvePeer = resolvePeerWith GetGroupAccessHash := rfl

theorem sendMessageDirect_eq_with :
    sendMessageDirect = sendMessageDirectWith GetGroupAccessHash := rfl

theorem sendMessage_eq_with : sendMessage = sendMessageWith GetGroupAccessHash := rfl

/-- The retried send returns; it adds to the log only invocations of
`MessagesSendMessage` with the peer and the text, at least one when it returns nil. -/
theorem retrySend_spec (env : Env) (calls : List ExternalCall) (peer : InputPeer)
    (text : String) :
    ∃ (o : RetryOutcome (List ExternalCall) String) (k : Nat),
      RetryWithBackoff (fun w => env.ctxDone (sendCount calls + w)) (sendFn env peer text) calls
        = some o ∧
      o.state = calls ++ List.replicate k (ExternalCall.sendMessage peer text) ∧
      (o.result = none → 1 ≤ k) := by
  have hsome := Retry_isSome (fun w => env.ctxDone (sendCount calls + w))
    (sendFn env peer text) DefaultRetryConfig calls
  cases hret : RetryWithBackoff (fun w => env.ctxDone (sendCount calls + w))
      (sendFn env peer text) calls with
  | none =>
    unfold RetryWithBackoff at hret
    rw [hret] at hsome
    simp at hsome
  | some o =>
    obtain ⟨k, _, hstate, hnil⟩ := retryLoop_state _ _ _ _ _ _ _ _ _ _ o hret
    rw [stateAfter_sendFn] at hstate
    exact ⟨o, k, rfl, hstate, hnil⟩

theorem resolvePeerWith_missing (fetch : Int → Except String Int) (db : Store) (chatID : Int)
    (group : Group) (hgroup : db.groupByChatID chatID = some group)
    (htype : group.GroupType = "channel" ∨ group.GroupType = "supergroup")
    (hhash : group.AccessHash = 0) :
    resolvePeerWith fetch db chatID
      = match fetch chatID with
        | Except.error _ => Except.error SendError.needAccessHash
        | Except.ok accessHash =>
          Except.ok (db.saveGroup { group with AccessHash := accessHash },
            InputPeer.InputPeerChannel (if chatID < 0 then -chatID else chatID) accessHash) := by
  unfold resolvePeerWith
  rw [hgroup]
  simp only [htype, hhash, if_true]

theorem sendWith_fetched (fetch : Int → Except String Int) (env : Env) (c : ClientV2)
    (chatID : Int) (text : String) (db : Store) (peer : InputPeer)
    (h : resolvePeerWith fetch c.DB chatID = Except.ok (db, peer)) :
    ∃ (r : Option SendError) (k : Nat),
      sendMessageDirectWith fetch env c chatID text
        = some ({ c with DB := db, calls := c.calls ++
            List.replicate k (ExternalCall.sendMessage peer text) }, r) ∧
      (r = none → 1 ≤ k) := by
  obtain ⟨o, k, hret, hstate, hnil⟩ := retrySend_spec env c.calls peer text
  unfold sendMessageDirectWith
  rw [h]
  simp only [hret]
  cases hr : o.result with
  | none => exact ⟨none, k, by simp [hstate], fun _ => hnil hr⟩
  | some e => exact ⟨some (SendError.retry e), k, by simp [hstate], fun h => by simp at h⟩

/-- Reading a group back after `DB.Save`: the lookup by chat id that found `group` finds
the saved record, when that record keeps the key and the chat id. -/
theorem saveGroup_groupByChatID (db : Store) (chatID : Int) (group saved : Group)
    (h : db.groupByChatID chatID = some group) (hid : saved.ID = group.ID)
    (hchat : saved.ChatID = chatID) :
    (db.saveGroup saved).groupByChatID chatID = some saved := by
  unfold Store.groupByChatID Store.saveGroup at *
  simp only []
  generalize db.groups = l at h
  induction l with
  | nil => simp at h
  | cons x xs ih =>
    rw [List.map_cons, List.find?_cons]
    rw [List.find?_cons] at h
    by_cases hx : x.ID = saved.ID
    · simp [hx, hchat]
    · rw [if_neg hx]
      by_cases hc : x.ChatID = chatID
      · simp only [hc, decide_True] at h
        have hxg : x = group := Option.some.inj h
        rw [hxg, hid] at hx
        exact absurd rfl hx
      · simp only [hc, decide_False] at h ⊢
        exact ih h

theorem sendMessageWith_eq_direct (fetch : Int → Except String Int) (env : Env) (c : ClientV2)
    (chatID : Int) (text : String) (replyToMsgID : Int) :
    sendMessageWith fetch env c chatID text replyToMsgID
      = sendMessageDirectWith fetch env c chatID text := rfl

/-- C26: for a conversation stored as a channel or a supergroup with `AccessHash` = 0,
both `sendMessageDirect` and `sendMessage` call `GetGroupAccessHash` before anything is
sent. When the fetch fails the send returns the access-hash error and the session,
its store and its log of transport calls included, is unchanged. When the fetch returns
a hash, the group record is saved with it whatever the outcome of the send is: the
lookup of the conversation in the store the call leaves finds the record carrying the
fetched hash, every invocation of `MessagesSendMessage` addresses the channel with that
hash, and a later send finds the hash stored and fetches nothing. In this repository
`GetGroupAccessHash` always fails, so such a send always ends in the error. -/
theorem C26_missing_access_hash (env : Env) (c : ClientV2) (chatID : Int) (text : String)
    (replyToMsgID : Int) (group : Group) (hgroup : c.DB.groupByChatID chatID = some group)
    (htype : group.GroupType = "channel" ∨ group.GroupType = "supergroup")
    (hhash : group.AccessHash = 0) :
    (sendMessageDirect = sendMessageDirectWith GetGroupAccessHash ∧
      sendMessage = sendMessageWith GetGroupAccessHash) ∧
    (∀ (fetch : Int → Except String Int) (e : String), fetch chatID = Except.error e →
      sendMessageDirectWith fetch env c chatID text = some (c, some SendError.needAccessHash) ∧
      sendMessageWith fetch env c chatID text replyToMsgID
        = some (c, some SendError.needAccessHash)) ∧
    (∀ (fetch : Int → Except String Int) (accessHash : Int),
      fetch chatID = Except.ok accessHash →
      (∃ (r : Option SendError) (k : Nat),
        sendMessageDirectWith fetch env c chatID text
          = some ({ c with
              DB := c.DB.saveGroup { group with AccessHash := accessHash },
              calls := c.calls ++ List.replicate k (ExternalCall.sendMessage
                (InputPeer.InputPeerChannel (if chatID < 0 then -chatID else chatID) accessHash)
                text) }, r) ∧
        (r = none → 1 ≤ k)) ∧
      (∃ (r : Option SendError) (k : Nat),
        sendMessageWith fetch env c chatID text replyToMsgID
          = some ({ c with
              DB := c.DB.saveGroup { group with AccessHash := accessHash },
              calls := c.calls ++ List.replicate k (ExternalCall.sendMessage
                (InputPeer.InputPeerChannel (if chatID < 0 then -chatID else chatID) accessHash)
                text) }, r) ∧
        (r = none → 1 ≤ k)) ∧
      (∀ (c1 : ClientV2) (r : Option SendError),
        (sendMessageDirectWith fetch env c chatID text = some (c1, r) ∨
          sendMessageWith fetch env c chatID text replyToMsgID = some (c1, r)) →
        c1.DB.groupByChatID chatID = some { group with AccessHash := accessHash } ∧
        (accessHash ≠ 0 →
          resolvePeer c1.DB chatID
            = Except.ok (c1.DB, InputPeer.InputPeerChannel
                (if chatID < 0 then -chatID else chatID) accessHash)))) ∧
    sendMessageDirect env c chatID text = some (c, some SendError.needAccessHash) ∧
    sendMessage env c chatID text replyToMsgID = some (c, some SendError.needAccessHash) := by
  have hfail : ∀ (fetch : Int → Except String Int) (e : String),
      fetch chatID = Except.error e →
      sendMessageDirectWith fetch env c chatID text = some (c, some SendError.needAccessHash) ∧
      sendMessageWith fetch env c chatID text replyToMsgID
        = some (c, some SendError.needAccessHash) := by
    intro fetch e hf
    have hres := resolvePeerWith_missing fetch c.DB chatID group hgroup htype hhash
    rw [hf] at hres
    simp only [] at hres
    constructor
    · unfold sendMessageDirectWith
      rw [hres]
    · unfold sendMessageWith
      rw [hres]
  refine ⟨⟨rfl, rfl⟩, hfail, ?_, ?_⟩
  · intro fetch accessHash hf
    have hres := resolvePeerWith_missing fetch c.DB chatID group hgroup htype hhash
    rw [hf] at hres
    simp only [] at hres
    have hsent := sendWith_fetched fetch env c chatID text _ _ hres
    have hchat : group.ChatID = chatID := by
      have := List.find?_some hgroup
      simpa using this
    have hback : (c.DB.saveGroup { group with AccessHash := accessHash }).groupByChatID chatID
        = some { group with AccessHash := accessHash } :=
      saveGroup_groupByChatID c.DB chatID group _ hgroup rfl hchat
    refine ⟨hsent, hsent, ?_⟩
    intro c1 r hc1
    have hc1' : sendMessageDirectWith fetch env c chatID text = some (c1, r) := by
      rcases hc1 with h | h
      · exact h
      · rw [sendMessageWith_eq_direct] at h
        exact h
    obtain ⟨r0, k, hk, _⟩ := hsent
    rw [hk] at hc1'
    have hc1eq := (Prod.mk.inj (Option.some.inj hc1')).1
    have hdb : c1.DB = c.DB.saveGroup { group with AccessHash := accessHash } := by
      rw [← hc1eq]
    rw [hdb]
    refine ⟨hback, ?_⟩
    intro hne
    unfold resolvePeer
    rw [hback]
    simp only [htype, if_true, hne, if_false]
  · exact hfail GetGroupAccessHash "需要从数据库获取AccessHash" rfl

/-- Witness of C26: a send to the supergroup -1007, stored without access hash, through
a transport that accepts it. With the fetch of this repository the send ends in the
access-hash error and the session is unchanged; with a fetch that returns 99 the message
goes to the channel 1007 with the hash 99 and the stored record carries the hash. -/
theorem C26_missing_access_hash_witness :
    sendMessageDirect exampleEnv supergroupClient (-1007) "hi"
      = some (supergroupClient, some SendError.needAccessHash) ∧
    (sendMessageDirectWith fetched99 exampleEnv supergroupClient (-1007) "hi").map
        (fun res => (res.1.calls, res.1.DB.groupByChatID (-1007), res.2))
      = some ([ExternalCall.sendMessage (InputPeer.InputPeerChannel 1007 99) "hi"],
          some { exampleSupergroup with AccessHash := 99 }, none) ∧
    (∀ (c1 : ClientV2) (r : Option SendError),
      sendMessageDirectWith fetched99 exampleEnv supergroupClient (-1007) "hi" = some (c1, r) →
      c1.DB.groupByChatID (-1007) = some { exampleSupergroup with AccessHash := 99 }) :=
  ⟨(C26_missing_access_hash exampleEnv supergroupClient (-1007) "hi" 0 exampleSupergroup
      (by decide) (Or.inr rfl) rfl).2.2.2.1,
   by decide,
   fun c1 r h =>
     (((C26_missing_access_hash exampleEnv supergroupClient (-1007) "hi" 0 exampleSupergroup
        (by decide) (Or.inr rfl) rfl).2.2.1 fetched99 99 rfl).2.2 c1 r (Or.inl h)).1⟩

/-! ### The registry of sessions -/

theorem GoMap.mem_entries_get? {K V : Type} [DecidableEq K] (m : GoMap K V) (k : K) (v : V)
    (h : (⟨k, v⟩ : Sigma (fun _ : K => V)) ∈ m.entries) : m.get? k = some v :=
  (AList.mem_lookup_iff (s := m) (a := k) (b := v)).2 h

theorem stopExisting_get?_ne (m : Manager) (accountID k : Nat) (hk : k ≠ accountID) :
    (stopExisting m accountID).clients.get? k = m.clients.get? k := by
  unfold stopExisting
  split
  · exact GoMap.get?_set_ne _ _ hk
  · rfl

theorem stopExisting_authHelpers (m : Manager) (accountID : Nat) :
    (stopExisting m accountID).authHelpers = m.authHelpers := by
  unfold stopExisting
  split <;> rfl

theorem stopExisting_of_some (m : Manager) (accountID : Nat) (old : ClientV2)
    (h : m.clients.get? accountID = some old) :
    stopExisting m accountID
      = { m with clients := m.clients.set accountID (Stop { old with DB := m.db }),
                 db := (Stop { old with DB := m.db }).DB,
                 events := m.events ++
                   [ManagerEvent.stop accountID (Stop { old with DB := m.db })] } := by
  unfold stopExisting
  rw [h]

theorem stopExisting_of_none (m : Manager) (accountID : Nat)
    (h : m.clients.get? accountID = none) : stopExisting m accountID = m := by
  unfold stopExisting
  rw [h]

theorem AddClient_ok (inp : NewClientInput) (m : Manager) (account : Account)
    (h : (AddClient inp m account).2 = none) :
    inp.mkdirAll = none ∧
    (AddClient inp m account).1
      = { stopExisting m account.ID with
          clients := (stopExisting m account.ID).clients.set account.ID
            { Account := account, DB := (stopExisting m account.ID).db, LastReplyTime := ∅,
              MessageContext := ∅, messageBuffer := ∅, calls := [],
              AuthHelper := some (NewAuthHelper account inp.authSessions inp.nextID),
              cancelled := false },
          authHelpers := (stopExisting m account.ID).authHelpers.set account.ID
            (NewAuthHelper account inp.authSessions inp.nextID),
          events := (stopExisting m account.ID).events ++
            [ManagerEvent.register account.ID
              { Account := account, DB := (stopExisting m account.ID).db, LastReplyTime := ∅,
                MessageContext := ∅, messageBuffer := ∅, calls := [],
                AuthHelper := some (NewAuthHelper account inp.authSessions inp.nextID),
                cancelled := false },
             ManagerEvent.start account.ID] } := by
  unfold AddClient NewClientV2 at *
  cases hmk : inp.mkdirAll with
  | some err =>
    rw [hmk] at h
    simp at h
  | none =>
    exact ⟨rfl, rfl⟩

/-- C21: when `AddClient` returns nil, the session it constructed (on the account given,
context not cancelled) is the one and only session the registry holds under the
account's id, the entries of every other id are as before, and a session registered
under that id before the call was stopped (status "offline" saved, context cancelled)
before the new one was registered: the log of the manager gained the stop of the old
session, then the registration of the new one, then its start; with no session under
the id before, only the registration and the start. -/
theorem C21_add_registers_one_session (inp : NewClientInput) (m : Manager) (account : Account)
    (h : (AddClient inp m account).2 = none) :
    ∃ client : ClientV2,
      NewClientV2 inp account (stopExisting m account.ID).db = Except.ok client ∧
      client.Account = account ∧ client.cancelled = false ∧
      (AddClient inp m account).1.clients.get? account.ID = some client ∧
      (∀ c : ClientV2, (⟨account.ID, c⟩ : Sigma (fun _ : Nat => ClientV2))
          ∈ (AddClient inp m account).1.clients.entries → c = client) ∧
      (∀ k, k ≠ account.ID →
        (AddClient inp m account).1.clients.get? k = m.clients.get? k) ∧
      (∀ old, m.clients.get? account.ID = some old →
        (Stop { old with DB := m.db }).cancelled = true ∧
        (Stop { old with DB := m.db }).Account.Status = "offline" ∧
        (AddClient inp m account).1.events
          = m.events ++ [ManagerEvent.stop account.ID (Stop { old with DB := m.db }),
              ManagerEvent.register account.ID client, ManagerEvent.start account.ID]) ∧
      (m.clients.get? account.ID = none →
        (AddClient inp m account).1.events
          = m.events ++ [ManagerEvent.register account.ID client,
              ManagerEvent.start account.ID]) := by
  obtain ⟨hmk, hm⟩ := AddClient_ok inp m account h
  have hget : (AddClient inp m account).1.clients.get? account.ID
      = some { Account := account, DB := (stopExisting m account.ID).db, LastReplyTime := ∅,
               MessageContext := ∅, messageBuffer := ∅, calls := [],
               AuthHelper := some (NewAuthHelper account inp.authSessions inp.nextID),
               cancelled := false } := by
    rw [hm]
    exact GoMap.get?_set_self _ _ _
  refine ⟨_, ?_, rfl, rfl, hget, ?_, ?_, ?_, ?_⟩
  · unfold NewClientV2
    rw [hmk]
  · intro c hc
    have h1 := GoMap.mem_entries_get? _ _ _ hc
    rw [hget] at h1
    exact (Option.some.inj h1).symm
  · intro k hk
    rw [hm]
    simp only []
    rw [GoMap.get?_set_ne _ _ hk, stopExisting_get?_ne m account.ID k hk]
  · intro old hold
    refine ⟨rfl, rfl, ?_⟩
    rw [hm, stopExisting_of_some m account.ID old hold]
    simp
  · intro hnone
    rw [hm, stopExisting_of_none m account.ID hnone]

/-- Witness of C21: account 1 is added to a manager that already holds a session for
it; the call returns nil and the registry holds the new session under the id 1. -/
theorem C21_add_registers_one_session_witness :
    (AddClient exampleNewClientInput exampleManager exampleAccount).2 = none ∧
    ∃ client : ClientV2,
      (AddClient exampleNewClientInput exampleManager exampleAccount).1.clients.get? 1
        = some client ∧ client.cancelled = false ∧
      (AddClient exampleNewClientInput exampleManager exampleAccount).1.events
        = [ManagerEvent.stop 1 (Stop exampleClient), ManagerEvent.register 1 client,
           ManagerEvent.start 1] :=
  ⟨rfl,
   let ⟨client, _, _, hc, hget, _, _, hev, _⟩ :=
     C21_add_registers_one_session exampleNewClientInput exampleManager exampleAccount rfl
   ⟨client, hget, hc, (hev exampleClient rfl).2.2⟩⟩

/-- C22: `RemoveClient` is idempotent. For every manager and id it returns nil and leaves
no session under the id and the entries of every other id as they were; a session
registered under the id is stopped (status "offline" saved, context cancelled), and that
is the only thing the call adds to the log of the manager. With no session under the id
the manager is unchanged, nothing is stopped; so it is after a first call. -/
theorem C22_remove_is_idempotent (m : Manager) (accountID : Nat) :
    (RemoveClient m accountID).2 = none ∧
    (RemoveClient m accountID).1.clients.get? accountID = none ∧
    (∀ k, k ≠ accountID → (RemoveClient m accountID).1.clients.get? k = m.clients.get? k) ∧
    (∀ client, m.clients.get? accountID = some client →
      (Stop { client with DB := m.db }).cancelled = true ∧
      (Stop { client with DB := m.db }).Account.Status = "offline" ∧
      (RemoveClient m accountID).1.db = (Stop { client with DB := m.db }).DB ∧
      (RemoveClient m accountID).1.events
        = m.events ++ [ManagerEvent.stop accountID (Stop { client with DB := m.db })]) ∧
    (m.clients.get? accountID = none → RemoveClient m accountID = (m, none)) ∧
    RemoveClient (RemoveClient m accountID).1 accountID = ((RemoveClient m accountID).1, none) := by
  have hnone : ∀ m' : Manager, m'.clients.get? accountID = none →
      RemoveClient m' accountID = (m', none) := by
    intro m' h
    unfold RemoveClient
    rw [h]
  have hgone : (RemoveClient m accountID).1.clients.get? accountID = none := by
    unfold RemoveClient
    split
    · exact GoMap.get?_delete_self _ _
    · assumption
  refine ⟨?_, hgone, ?_, ?_, hnone m, hnone _ hgone⟩
  · unfold RemoveClient
    split <;> rfl
  · intro k hk
    unfold RemoveClient
    split
    · exact GoMap.get?_delete_ne _ hk
    · rfl
  · intro client hclient
    refine ⟨rfl, rfl, ?_, ?_⟩
    · unfold RemoveClient
      rw [hclient]
    · unfold RemoveClient
      rw [hclient]

/-- Witness of C22: the session of account 1 is removed from the example manager, then
removed again; the second call changes nothing. -/
theorem C22_remove_is_idempotent_witness :
    (RemoveClient exampleManager 1).1.clients.get? 1 = none ∧
    (RemoveClient exampleManager 1).1.events = [ManagerEvent.stop 1 (Stop exampleClient)] ∧
    RemoveClient (RemoveClient exampleManager 1).1 1 = ((RemoveClient exampleManager 1).1, none) :=
  ⟨(C22_remove_is_idempotent exampleManager 1).2.1,
   ((C22_remove_is_idempotent exampleManager 1).2.2.2.1 exampleClient rfl).2.2.2,
   (C22_remove_is_idempotent exampleManager 1).2.2.2.2.2⟩

/-- A registered session has its own helper in the registry of helpers: the invariant
that `AddClient` and `RemoveClient` keep. -/
theorem ManagerCall.run_invariant (m : Manager) (call : ManagerCall)
    (hinv : ∀ id client, m.clients.get? id = some client →
      ∃ helper, client.AuthHelper = some helper ∧ m.authHelpers.get? id = some helper) :
    ∀ id client, (call.run m).clients.get? id = some client →
      ∃ helper, client.AuthHelper = some helper ∧
        (call.run m).authHelpers.get? id = some helper := by
  have hstop : ∀ (accountID id : Nat) (client : ClientV2),
      (stopExisting m accountID).clients.get? id = some client →
      ∃ helper, client.AuthHelper = some helper ∧
        (stopExisting m accountID).authHelpers.get? id = some helper := by
    intro accountID id client hc
    rw [stopExisting_authHelpers]
    by_cases hid : id = accountID
    · subst hid
      cases hold : m.clients.get? id with
      | none =>
        rw [stopExisting_of_none m id hold] at hc
        exact hinv id client hc
      | some old =>
        rw [stopExisting_of_some m id old hold] at hc
        simp only [GoMap.get?_set_self, Option.some.injEq] at hc
        obtain ⟨helper, h1, h2⟩ := hinv id old hold
        exact ⟨helper, by rw [← hc]; exact h1, h2⟩
    · rw [stopExisting_get?_ne m accountID id hid] at hc
      exact hinv id client hc
  intro id client hc
  cases call with
  | add inp account =>
    simp only [ManagerCall.run] at hc ⊢
    cases herr : (AddClient inp m account).2 with
    | some err =>
      have hm : (AddClient inp m account).1 = stopExisting m account.ID := by
        unfold AddClient NewClientV2 at herr ⊢
        cases hmk : inp.mkdirAll with
        | some e => rfl
        | none => rw [hmk] at herr; simp at herr
      rw [hm] at hc ⊢
      exact hstop account.ID id client hc
    | none =>
      obtain ⟨_, hm⟩ := AddClient_ok inp m account herr
      rw [hm] at hc ⊢
      simp only [] at hc ⊢
      by_cases hid : id = account.ID
      · subst hid
        rw [GoMap.get?_set_self] at hc
        rw [GoMap.get?_set_self]
        have hc1 := Option.some.inj hc
        exact ⟨_, by rw [← hc1], rfl⟩
      · rw [GoMap.get?_set_ne _ _ hid] at hc
        rw [GoMap.get?_set_ne _ _ hid]
        exact hstop account.ID id client hc
  | remove accountID =>
    simp only [ManagerCall.run] at hc ⊢
    unfold RemoveClient at hc ⊢
    cases hold : m.clients.get? accountID with
    | none =>
      rw [hold] at hc
      simp only [hold]
      exact hinv id client hc
    | some old =>
      rw [hold] at hc
      simp only [hold]
      simp only [] at hc
      by_cases hid : id = accountID
      · subst hid
        rw [GoMap.get?_delete_self] at hc
        exact absurd hc (by simp)
      · rw [GoMap.get?_delete_ne _ hid] at hc
        exact hinv id client hc

theorem runCalls_invariant (calls : List ManagerCall) :
    ∀ m : Manager,
      (∀ id client, m.clients.get? id = some client →
        ∃ helper, client.AuthHelper = some helper ∧ m.authHelpers.get? id = some helper) →
      ∀ id client, (runCalls m calls).clients.get? id = some client →
        ∃ helper, client.AuthHelper = some helper ∧
          (runCalls m calls).authHelpers.get? id = some helper := by
  induction calls with
  | nil => intro m hinv; exact hinv
  | cons call rest ih =>
    intro m hinv
    exact ih (call.run m) (ManagerCall.run_invariant m call hinv)

/-- C23 fails in one direction. `RemoveClient` deletes the session from the registry of
sessions but leaves its helper in the registry of helpers: after account 1 is added and
then removed, no session is registered under the id 1, yet `GetAuthHelper` still
returns the helper of the session that was stopped and discarded. The other direction
holds in every state reached from an empty manager by calls of `AddClient` and
`RemoveClient`: for a registered session `GetAuthHelper` returns that session's own
helper. -/
theorem C23_removed_session_keeps_its_helper :
    ((runCalls (NewManager exampleStore)
        [ManagerCall.add exampleNewClientInput exampleAccount,
         ManagerCall.remove 1]).clients.get? 1).isNone = true ∧
    GetAuthHelper (runCalls (NewManager exampleStore)
        [ManagerCall.add exampleNewClientInput exampleAccount, ManagerCall.remove 1]) 1
      = (some (NewAuthHelper exampleAccount [] 1), true) ∧
    (∀ (db : Store) (calls : List ManagerCall) (id : Nat) (client : ClientV2),
      (runCalls (NewManager db) calls).clients.get? id = some client →
      ∃ helper, client.AuthHelper = some helper ∧
        GetAuthHelper (runCalls (NewManager db) calls) id = (some helper, true)) := by
  refine ⟨rfl, rfl, ?_⟩
  intro db calls id client hc
  obtain ⟨helper, h1, h2⟩ := runCalls_invariant calls (NewManager db)
    (fun id client h => by simp [NewManager, GoMap.get?] at h) id client hc
  refine ⟨helper, h1, ?_⟩
  unfold GetAuthHelper
  rw [h2]

end ChatPartner
